import Mathlib

/-!
# libmodulemd: the YAML emitter and the Dependencies object

A shallow embedding of `modulemd/modulemd-yaml-emitter.c`, `modulemd/modulemd-yaml.h`
and `modulemd/v1/modulemd-dependencies.c`.

* C functions that jump to an `error:` label are functions into `Except`: `.ok` is the
  path that reaches `ret = TRUE`, `.error` is the arrival at the label with `ret = FALSE`;
  both carry the emitter and the `GError **` slot as they are at that point.
* libyaml is not part of the repository.  It is a parameter `Y : Libyaml` that says, for
  the events accepted so far and the next event, whether `yaml_emitter_emit` succeeds and
  which bytes reach the write handler.
  For the claims about the text itself, the writer and the reader of libyaml are modelled
  on the texts this emitter produces (`libyaml`, `libyaml_read`).
* GObject instances that the code mutates through pointers (`ModulemdDependencies`, its two
  `GHashTable`s and the `ModulemdSimpleSet`s stored in them) live in an explicit `Heap`.
  Reference counts are not modelled: no object is ever released.
-/

set_option autoImplicit false

namespace Modulemd

/-! ## ModulemdSimpleSet -/

/-- Insertion of `x` into a strictly increasing list, keeping it strictly increasing.  The
order is the lexicographic order of the characters. -/
def insertStr (x : String) : List String → List String
  | [] => [x]
  | y :: ys =>
    if x.toList < y.toList then x :: y :: ys
    else if x = y then y :: ys
    else y :: insertStr x ys

theorem mem_insertStr (x z : String) (l : List String) :
    z ∈ insertStr x l ↔ z = x ∨ z ∈ l := by
  induction l with
  | nil => simp [insertStr]
  | cons y ys ih =>
    unfold insertStr
    split_ifs with h1 h2
    · simp
    · subst h2; simp
    · simp [ih]; tauto

theorem sorted_insertStr (x : String) (l : List String) (h : l.Sorted (· < ·)) :
    (insertStr x l).Sorted (· < ·) := by
  induction l with
  | nil => simp [insertStr]
  | cons y ys ih =>
    unfold insertStr
    simp only [← String.lt_iff_toList_lt]
    split_ifs with h1 h2
    · refine List.sorted_cons.2 ⟨?_, h⟩
      intro b hb
      rcases List.mem_cons.1 hb with rfl | hb
      · exact h1
      · exact lt_trans h1 (List.rel_of_sorted_cons h b hb)
    · exact h
    · refine List.sorted_cons.2 ⟨?_, ih h.of_cons⟩
      intro b hb
      rcases (mem_insertStr x b ys).1 hb with rfl | hb
      · exact lt_of_le_of_ne (not_lt.1 h1) (Ne.symm h2)
      · exact List.rel_of_sorted_cons h b hb

/-- Modelled from the spec: `ModulemdSimpleSet` (modulemd-simpleset.c is not among the
sources).  Spec 3, StringSet: a set of unique strings, without duplicate entries, whose
iteration order for serialization is a stable canonical order (lexicographic).  The set
is kept as its canonical sequence. -/
structure ModulemdSimpleSet where
  strv : List String
  sorted : strv.Sorted (· < ·)

instance : DecidableEq ModulemdSimpleSet := fun a b =>
  decidable_of_iff (a.strv = b.strv) (by cases a; cases b; simp)

instance : Membership String ModulemdSimpleSet := ⟨fun s x => x ∈ s.strv⟩

/-- Modelled from the spec: `modulemd_simpleset_new`, the empty StringSet. -/
def modulemd_simpleset_new : ModulemdSimpleSet := ⟨[], List.sorted_nil⟩

/-- Modelled from the spec: `modulemd_simpleset_add`, spec 4.1 `add(value)`, the
idempotent insert. -/
def modulemd_simpleset_add (self : ModulemdSimpleSet) (value : String) : ModulemdSimpleSet :=
  ⟨insertStr value self.strv, sorted_insertStr value self.strv self.sorted⟩

/-- Modelled from the spec: `modulemd_simpleset_get_as_strv`, spec 4.1
`to_ordered_sequence()`, the canonical ordering used for serialization. -/
def modulemd_simpleset_get_as_strv (self : ModulemdSimpleSet) : List String := self.strv

/-- The set built from a list of strings by repeated `modulemd_simpleset_add`. -/
def simpleset_of (l : List String) : ModulemdSimpleSet :=
  l.foldl modulemd_simpleset_add modulemd_simpleset_new

/-! ## The module record -/

/-- Modelled from the spec: one Dependencies-shaped block owned by a document (spec 3),
as a value: the entries of the buildrequires map and of the requires map. -/
structure DependenciesBlock where
  buildrequires : List (String × ModulemdSimpleSet)
  requires : List (String × ModulemdSimpleSet)
  deriving DecidableEq

/-- Modelled from the spec: `ModulemdModule` (modulemd-module.c is not among the sources),
the ModuleDocument table of spec 3.  `mdversion` and `version` are `guint64` values; no
arithmetic is done on them.  An absent string or set is `none` (a NULL pointer). -/
structure ModulemdModule where
  mdversion : Nat
  name : Option String
  stream : Option String
  version : Nat
  summary : Option String
  description : Option String
  module_licenses : Option ModulemdSimpleSet
  content_licenses : Option ModulemdSimpleSet
  dependencies : List DependenciesBlock
  deriving DecidableEq

/-- Modelled from the spec: getter of the `mdversion` field. -/
def modulemd_module_get_mdversion (module : ModulemdModule) : Nat := module.mdversion
/-- Modelled from the spec: getter of the `name` field. -/
def modulemd_module_get_name (module : ModulemdModule) : Option String := module.name
/-- Modelled from the spec: getter of the `stream` field. -/
def modulemd_module_get_stream (module : ModulemdModule) : Option String := module.stream
/-- Modelled from the spec: getter of the `version` field. -/
def modulemd_module_get_version (module : ModulemdModule) : Nat := module.version
/-- Modelled from the spec: getter of the `summary` field. -/
def modulemd_module_get_summary (module : ModulemdModule) : Option String := module.summary
/-- Modelled from the spec: getter of the `description` field. -/
def modulemd_module_get_description (module : ModulemdModule) : Option String :=
  module.description
/-- Modelled from the spec: getter of the module license set. -/
def modulemd_module_get_module_licenses (module : ModulemdModule) :
    Option ModulemdSimpleSet := module.module_licenses
/-- Modelled from the spec: getter of the content license set. -/
def modulemd_module_get_content_licenses (module : ModulemdModule) :
    Option ModulemdSimpleSet := module.content_licenses

/-! ## Errors (`modulemd-yaml.h`) -/

/-- The `enum ModulemdYamlError`. -/
inductive ModulemdYamlError
  | MODULEMD_YAML_ERROR_OPEN
  | MODULEMD_YAML_ERROR_PARSE
  | MODULEMD_YAML_ERROR_EMIT
  deriving DecidableEq, Repr

/-- A `GError` of the domain `MODULEMD_YAML_ERROR`. -/
structure GError where
  code : ModulemdYamlError
  message : String
  deriving DecidableEq, Repr

/-- The argument `GError **error`: `null` when the caller passes NULL, otherwise the
location with its current content. -/
inductive GErrorArg
  | null
  | loc (err : Option GError)
  deriving DecidableEq, Repr

/-- GLib `g_set_error_literal`: stores the error in an empty location; on NULL it does
nothing, on a location already set it warns and keeps the earlier error. -/
def g_set_error_literal (error : GErrorArg) (code : ModulemdYamlError) (msg : String) :
    GErrorArg :=
  match error with
  | .null => .null
  | .loc none => .loc (some ⟨code, msg⟩)
  | .loc (some e) => .loc (some e)

/-! ## libyaml events and the emitter object -/

inductive yaml_encoding_t
  | YAML_ANY_ENCODING | YAML_UTF8_ENCODING | YAML_UTF16LE_ENCODING | YAML_UTF16BE_ENCODING
  deriving DecidableEq, Repr

inductive yaml_scalar_style_t
  | YAML_ANY_SCALAR_STYLE | YAML_PLAIN_SCALAR_STYLE | YAML_SINGLE_QUOTED_SCALAR_STYLE
  | YAML_DOUBLE_QUOTED_SCALAR_STYLE | YAML_LITERAL_SCALAR_STYLE | YAML_FOLDED_SCALAR_STYLE
  deriving DecidableEq, Repr

inductive yaml_sequence_style_t
  | YAML_ANY_SEQUENCE_STYLE | YAML_BLOCK_SEQUENCE_STYLE | YAML_FLOW_SEQUENCE_STYLE
  deriving DecidableEq, Repr

inductive yaml_mapping_style_t
  | YAML_ANY_MAPPING_STYLE | YAML_BLOCK_MAPPING_STYLE | YAML_FLOW_MAPPING_STYLE
  deriving DecidableEq, Repr

/-- A `yaml_event_t` as the emitter fills it in.  Anchors, tags and directives are NULL at
every call of this file and are left out; the remaining arguments of the libyaml event
constructors are kept. -/
inductive yaml_event_t
  | stream_start (encoding : yaml_encoding_t)
  | stream_end
  | document_start (implicit : Bool)
  | document_end (implicit : Bool)
  | scalar (value : String) (plain_implicit quoted_implicit : Bool)
      (style : yaml_scalar_style_t)
  | sequence_start (implicit : Bool) (style : yaml_sequence_style_t)
  | sequence_end
  | mapping_start (implicit : Bool) (style : yaml_mapping_style_t)
  | mapping_end
  deriving DecidableEq, Repr

/-- The libyaml library as the emitter sees it: `accept evs e` is the return value of
`yaml_emitter_emit` for the event `e` after the events `evs` were accepted, and
`chunks evs e` are the buffers the library hands to the write handler during that call. -/
structure Libyaml where
  accept : List yaml_event_t → yaml_event_t → Bool
  chunks : List yaml_event_t → yaml_event_t → List (List Char)

/-- The `struct modulemd_yaml_string`: `str` is NULL or a block of `len + 1` bytes. -/
structure modulemd_yaml_string where
  str : Option (List Char)
  len : Nat
  deriving DecidableEq, Repr

/-- The write handler `_write_string`: grows the block to `len + size + 1` bytes, copies
`size` bytes of `buffer` behind the first `len` bytes, and terminates with NUL. -/
def _write_string (data : modulemd_yaml_string) (buffer : List Char) (size : Nat) :
    Nat × modulemd_yaml_string :=
  let kept := (data.str.getD []).take data.len
  let len := data.len + size
  (1, { str := some (kept ++ buffer.take size ++ ['\x00']), len := len })

/-- A `FILE *` returned by `g_fopen (path, "wb")`, with the bytes written to it. -/
structure FILE where
  path : String
  contents : List Char
  deriving DecidableEq, Repr

/-- Where the emitter object sends its bytes: nowhere yet, a file
(`yaml_emitter_set_output_file`), or the handler `_write_string` with its data
(`yaml_emitter_set_output`). -/
inductive yaml_output_t
  | unset
  | file (f : FILE)
  | string (data : modulemd_yaml_string)
  deriving DecidableEq, Repr

/-- Delivery of one buffer to the output of the emitter object. -/
def yaml_output_t.write (out : yaml_output_t) (buffer : List Char) : yaml_output_t :=
  match out with
  | .unset => .unset
  | .file f => .file { f with contents := f.contents ++ buffer }
  | .string data => .string (_write_string data buffer buffer.length).2

/-- The `yaml_emitter_t` object: the events it has accepted and its output. -/
structure yaml_emitter_t where
  events : List yaml_event_t
  output : yaml_output_t
  deriving DecidableEq, Repr

/-- libyaml `yaml_emitter_emit`: on acceptance the event joins the accepted events and the
bytes produced reach the output; on refusal the object is left as it was. -/
def yaml_emitter_emit (Y : Libyaml) (emitter : yaml_emitter_t) (event : yaml_event_t) :
    Bool × yaml_emitter_t :=
  if Y.accept emitter.events event then
    (true, { events := emitter.events ++ [event],
             output := (Y.chunks emitter.events event).foldl yaml_output_t.write
                         emitter.output })
  else (false, emitter)

/-- The emitter and the error slot that the emitting functions thread through. -/
structure EmitCtx where
  emitter : yaml_emitter_t
  error : GErrorArg
  deriving DecidableEq, Repr

/-! ## The emitter macros -/

/-- The macro `YAML_EMITTER_EMIT_WITH_ERROR_RETURN`: emits the event; a refusal sets an
`Emit` error with the message and jumps to `error:`. -/
def YAML_EMITTER_EMIT_WITH_ERROR_RETURN (Y : Libyaml) (c : EmitCtx) (event : yaml_event_t)
    (msg : String) : Except EmitCtx EmitCtx :=
  match yaml_emitter_emit Y c.emitter event with
  | (false, emitter) =>
    .error { emitter := emitter,
             error := g_set_error_literal c.error .MODULEMD_YAML_ERROR_EMIT msg }
  | (true, emitter) => .ok { emitter := emitter, error := c.error }

/-- The macro `MMD_YAML_EMITTER_ERROR_RETURN`: sets an `Emit` error with the message and
jumps to `error:`. -/
def MMD_YAML_EMITTER_ERROR_RETURN (c : EmitCtx) (msg : String) : Except EmitCtx EmitCtx :=
  .error { c with error := g_set_error_literal c.error .MODULEMD_YAML_ERROR_EMIT msg }

/-- The macro `MMD_YAML_ERROR_RETURN_RETHROW` of `modulemd-yaml.h`: logs the message and
jumps to `error:`, leaving the error slot as the callee left it. -/
def MMD_YAML_ERROR_RETURN_RETHROW (c : EmitCtx) (_msg : String) : Except EmitCtx EmitCtx :=
  .error c

/-- The macro `MMD_YAML_EMIT_SCALAR`: one scalar event of the given style. -/
def MMD_YAML_EMIT_SCALAR (Y : Libyaml) (c : EmitCtx) (scalar : String)
    (style : yaml_scalar_style_t) : Except EmitCtx EmitCtx :=
  YAML_EMITTER_EMIT_WITH_ERROR_RETURN Y c (.scalar scalar true true style)
    "Error writing scalar"

/-- The macro `MMD_YAML_EMIT_STR_STR_DICT`: the key as a plain scalar, then the value as a
scalar of the given style. -/
def MMD_YAML_EMIT_STR_STR_DICT (Y : Libyaml) (c : EmitCtx) (name value : String)
    (style : yaml_scalar_style_t) : Except EmitCtx EmitCtx := do
  let c ← YAML_EMITTER_EMIT_WITH_ERROR_RETURN Y c
    (.scalar name true true .YAML_PLAIN_SCALAR_STYLE) "Error writing name"
  YAML_EMITTER_EMIT_WITH_ERROR_RETURN Y c (.scalar value true true style)
    "Error writing value"

/-- The text `g_strdup_printf ("%llu", n)` produces: the decimal digits of `n`. -/
def g_strdup_printf_llu (n : Nat) : String := Nat.repr n

/-! ## The emitting functions (`modulemd-yaml-emitter.c`) -/

/-- The loop `for (i = 0; strv[i]; i++) MMD_YAML_EMIT_SCALAR (...)` of
`_emit_modulemd_simpleset`. -/
def _emit_modulemd_simpleset_loop (Y : Libyaml) : EmitCtx → List String →
    Except EmitCtx EmitCtx
  | c, [] => .ok c
  | c, s :: strv => do
    let c ← MMD_YAML_EMIT_SCALAR Y c s .YAML_PLAIN_SCALAR_STYLE
    _emit_modulemd_simpleset_loop Y c strv

/-- The function `_emit_modulemd_simpleset`. -/
def _emit_modulemd_simpleset (Y : Libyaml) (c : EmitCtx) (set : ModulemdSimpleSet) :
    Except EmitCtx EmitCtx := do
  let strv := modulemd_simpleset_get_as_strv set
  let c ← YAML_EMITTER_EMIT_WITH_ERROR_RETURN Y c
    (.sequence_start true .YAML_BLOCK_SEQUENCE_STYLE) "Error starting simpleset sequence"
  let c ← _emit_modulemd_simpleset_loop Y c strv
  YAML_EMITTER_EMIT_WITH_ERROR_RETURN Y c .sequence_end "Error ending simpleset sequence"

/-- The function `_emit_modulemd_licenses`. -/
def _emit_modulemd_licenses (Y : Libyaml) (c : EmitCtx) (module : ModulemdModule) :
    Except EmitCtx EmitCtx := do
  let c ← MMD_YAML_EMIT_SCALAR Y c "license" .YAML_PLAIN_SCALAR_STYLE
  let c ← YAML_EMITTER_EMIT_WITH_ERROR_RETURN Y c
    (.mapping_start true .YAML_BLOCK_MAPPING_STYLE) "Error starting license mapping"
  /- Module Licenses -/
  match modulemd_module_get_module_licenses module with
  | none =>
    /- Module license is mandatory -/
    MMD_YAML_EMITTER_ERROR_RETURN c "Missing required option data.license.module"
  | some set => do
    let c ← MMD_YAML_EMIT_SCALAR Y c "module" .YAML_PLAIN_SCALAR_STYLE
    let c ← (_emit_modulemd_simpleset Y c set).tryCatch
      (fun c => MMD_YAML_ERROR_RETURN_RETHROW c "Error writing module licenses")
    /- Content licenses -/
    let c ← match modulemd_module_get_content_licenses module with
      | some set => do
        /- Content licenses are optional -/
        let c ← MMD_YAML_EMIT_SCALAR Y c "content" .YAML_PLAIN_SCALAR_STYLE
        (_emit_modulemd_simpleset Y c set).tryCatch
          (fun c => MMD_YAML_ERROR_RETURN_RETHROW c "Error writing module licenses")
      | none => pure c
    YAML_EMITTER_EMIT_WITH_ERROR_RETURN Y c .mapping_end "Error ending license mapping"

/-- The function `_emit_modulemd_data`. -/
def _emit_modulemd_data (Y : Libyaml) (c : EmitCtx) (module : ModulemdModule) :
    Except EmitCtx EmitCtx := do
  let c ← YAML_EMITTER_EMIT_WITH_ERROR_RETURN Y c
    (.mapping_start true .YAML_BLOCK_MAPPING_STYLE) "Error starting data mapping"
  /- Module name -/
  let c ← match modulemd_module_get_name module with
    | some value => MMD_YAML_EMIT_STR_STR_DICT Y c "name" value .YAML_PLAIN_SCALAR_STYLE
    | none => pure c
  /- Module stream -/
  let c ← match modulemd_module_get_stream module with
    | some value => MMD_YAML_EMIT_STR_STR_DICT Y c "stream" value .YAML_PLAIN_SCALAR_STYLE
    | none => pure c
  /- Module version -/
  let version := modulemd_module_get_version module
  let c ← if version ≠ 0 then
      MMD_YAML_EMIT_STR_STR_DICT Y c "version" (g_strdup_printf_llu version)
        .YAML_PLAIN_SCALAR_STYLE
    else pure c
  /- Module summary -/
  match modulemd_module_get_summary module with
  | none =>
    /- Summary is mandatory -/
    MMD_YAML_EMITTER_ERROR_RETURN c "Missing required option data.summary"
  | some value => do
    let c ← MMD_YAML_EMIT_STR_STR_DICT Y c "summary" value .YAML_PLAIN_SCALAR_STYLE
    /- Module description -/
    match modulemd_module_get_description module with
    | none =>
      /- Description is mandatory -/
      MMD_YAML_EMITTER_ERROR_RETURN c "Missing required option data.description"
    | some value => do
      let c ← MMD_YAML_EMIT_STR_STR_DICT Y c "description" value .YAML_FOLDED_SCALAR_STYLE
      /- Module Licenses -/
      let c ← (_emit_modulemd_licenses Y c module).tryCatch
        (fun c => MMD_YAML_ERROR_RETURN_RETHROW c "Failed to emit data")
      YAML_EMITTER_EMIT_WITH_ERROR_RETURN Y c .mapping_end "Error ending data mapping"

/-- The function `_emit_modulemd_root`. -/
def _emit_modulemd_root (Y : Libyaml) (c : EmitCtx) (module : ModulemdModule) :
    Except EmitCtx EmitCtx := do
  let c ← YAML_EMITTER_EMIT_WITH_ERROR_RETURN Y c
    (.mapping_start true .YAML_BLOCK_MAPPING_STYLE) "Error starting root mapping"
  /- document: modulemd -/
  let c ← MMD_YAML_EMIT_STR_STR_DICT Y c "document" "modulemd" .YAML_PLAIN_SCALAR_STYLE
  /- The modulemd version -/
  let c ← MMD_YAML_EMIT_STR_STR_DICT Y c "version"
    (g_strdup_printf_llu (modulemd_module_get_mdversion module)) .YAML_PLAIN_SCALAR_STYLE
  /- The data -/
  let c ← YAML_EMITTER_EMIT_WITH_ERROR_RETURN Y c
    (.scalar "data" true true .YAML_PLAIN_SCALAR_STYLE) "Error writing data"
  let c ← (_emit_modulemd_data Y c module).tryCatch
    (fun c => MMD_YAML_ERROR_RETURN_RETHROW c "Failed to emit data")
  YAML_EMITTER_EMIT_WITH_ERROR_RETURN Y c .mapping_end "Error ending root mapping"

/-- The function `_emit_modulemd_document`. -/
def _emit_modulemd_document (Y : Libyaml) (c : EmitCtx) (module : ModulemdModule) :
    Except EmitCtx EmitCtx := do
  let c ← YAML_EMITTER_EMIT_WITH_ERROR_RETURN Y c (.document_start false)
    "Error starting document"
  let c ← (_emit_modulemd_root Y c module).tryCatch
    (fun c => MMD_YAML_ERROR_RETURN_RETHROW c "Failed to process root")
  YAML_EMITTER_EMIT_WITH_ERROR_RETURN Y c (.document_end false) "Error ending document"

/-- The loop `for (i = 0; modules[i]; i++)` of `emit_yaml_string`: a failing document is
rethrown. -/
def emit_yaml_string_loop (Y : Libyaml) : EmitCtx → List ModulemdModule →
    Except EmitCtx EmitCtx
  | c, [] => .ok c
  | c, module :: modules => do
    let c ← (_emit_modulemd_document Y c module).tryCatch
      (fun c => MMD_YAML_ERROR_RETURN_RETHROW c "Could not emit YAML")
    emit_yaml_string_loop Y c modules

/-- The loop `for (i = 0; modules[i]; i++)` of `emit_yaml_file`: a failing document goes
through `MMD_YAML_EMITTER_ERROR_RETURN`. -/
def emit_yaml_file_loop (Y : Libyaml) : EmitCtx → List ModulemdModule →
    Except EmitCtx EmitCtx
  | c, [] => .ok c
  | c, module :: modules => do
    let c ← (_emit_modulemd_document Y c module).tryCatch
      (fun c => MMD_YAML_EMITTER_ERROR_RETURN c "Could not emit YAML")
    emit_yaml_file_loop Y c modules

/-- What `emit_yaml_string` leaves behind: the return value, the content of `*_yaml`, the
error slot, and the emitter object as it is when `yaml_emitter_delete` is reached. -/
structure emit_yaml_string_result where
  ret : Bool
  _yaml : Option (List Char)
  error : GErrorArg
  emitter : yaml_emitter_t
  deriving DecidableEq, Repr

/-- The function `emit_yaml_string`.  `_yaml` is the content of `*_yaml` at the call. -/
def emit_yaml_string (Y : Libyaml) (modules : List ModulemdModule)
    (_yaml : Option (List Char)) (error : GErrorArg) : emit_yaml_string_result :=
  let yaml_string : modulemd_yaml_string := { str := none, len := 0 }
  match error with
  | .loc (some _) =>
    /- g_return_val_if_fail (error == NULL || *error == NULL, FALSE) -/
    { ret := false, _yaml := _yaml, error := error,
      emitter := { events := [], output := .unset } }
  | _ =>
    let emitter : yaml_emitter_t := { events := [], output := .string yaml_string }
    let body : Except EmitCtx EmitCtx := do
      let c ← YAML_EMITTER_EMIT_WITH_ERROR_RETURN Y { emitter := emitter, error := error }
        (.stream_start .YAML_UTF8_ENCODING) "Error starting stream"
      let c ← emit_yaml_string_loop Y c modules
      YAML_EMITTER_EMIT_WITH_ERROR_RETURN Y c .stream_end "Error ending stream"
    match body with
    | .ok c =>
      /- *_yaml = yaml_string->str; ret = TRUE -/
      { ret := true,
        _yaml := (match c.emitter.output with
                  | .string data => data.str
                  | _ => none),
        error := c.error, emitter := c.emitter }
    | .error c =>
      /- the buffer is released, *_yaml is not written -/
      { ret := false, _yaml := _yaml, error := c.error, emitter := c.emitter }

/-- What a call of `emit_yaml_file` leaves behind: the variable `ret`, the error slot, the
emitter object as it is when `yaml_emitter_delete` is reached, the arguments of the calls
of `fclose` in order (`none` is the NULL pointer), and whether the call returns to its
caller.  `fclose (NULL)` has undefined behaviour (glibc stops the process with a
segmentation fault): a call that reaches it does not return, and `ret`, `error` and
`emitter` are then the state at that point, which no caller sees. -/
structure emit_yaml_file_result where
  ret : Bool
  error : GErrorArg
  emitter : yaml_emitter_t
  fclose : List (Option FILE)
  returns : Bool
  deriving DecidableEq, Repr

/-- The file of an emitter whose output is a file. -/
def yaml_emitter_t.file (emitter : yaml_emitter_t) : Option FILE :=
  match emitter.output with
  | .file f => some f
  | _ => none

/-- The function `emit_yaml_file`.  `g_fopen` is the answer of the file system to
`g_fopen (path, "wb")`: the opened file, or the `g_strerror (errno)` text. -/
def emit_yaml_file (Y : Libyaml) (g_fopen : String → Except String FILE)
    (modules : List ModulemdModule) (path : String) (error : GErrorArg) :
    emit_yaml_file_result :=
  match error with
  | .loc (some _) =>
    /- g_return_val_if_fail (error == NULL || *error == NULL, FALSE) -/
    { ret := false, error := error, emitter := { events := [], output := .unset },
      fclose := [], returns := true }
  | _ =>
    let emitter : yaml_emitter_t := { events := [], output := .unset }
    match g_fopen path with
    | .error strerror =>
      /- goto error, where fclose (yaml_file) runs with yaml_file == NULL: undefined
         behaviour, the statement `return ret` is not reached -/
      { ret := false,
        error := g_set_error_literal error .MODULEMD_YAML_ERROR_OPEN
                   ("Failed to open file: " ++ strerror),
        emitter := emitter, fclose := [none], returns := false }
    | .ok yaml_file =>
      let emitter : yaml_emitter_t := { emitter with output := .file yaml_file }
      let body : Except EmitCtx EmitCtx := do
        let c ← YAML_EMITTER_EMIT_WITH_ERROR_RETURN Y { emitter := emitter, error := error }
          (.stream_start .YAML_UTF8_ENCODING) "Error starting stream"
        let c ← emit_yaml_file_loop Y c modules
        YAML_EMITTER_EMIT_WITH_ERROR_RETURN Y c .stream_end "Error ending stream"
      match body with
      | .ok c =>
        { ret := true, error := c.error, emitter := c.emitter,
          fclose := [c.emitter.file], returns := true }
      | .error c =>
        { ret := false, error := c.error, emitter := c.emitter,
          fclose := [c.emitter.file], returns := true }

/-! ## Scripts: the events a function is about to emit

A script lists the events a function hands to `yaml_emitter_emit`, each with the message of
its failure branch, and says whether the function then stops on a missing mandatory
field.  The emitting functions are shown below to run their script. -/

/-- A list of events to emit, then possibly a validation failure with its message. -/
structure Script where
  steps : List (yaml_event_t × String)
  missing : Option String
  deriving DecidableEq, Repr

/-- One event. -/
def Script.step (e : yaml_event_t) (msg : String) : Script := ⟨[(e, msg)], none⟩

/-- First `a`, then `b` unless `a` stops on a missing field. -/
def Script.seq (a b : Script) : Script :=
  match a.missing with
  | some m => ⟨a.steps, some m⟩
  | none => ⟨a.steps ++ b.steps, b.missing⟩

/-- The events of a script. -/
def Script.events (s : Script) : List yaml_event_t := s.steps.map Prod.fst

/-- Emission of the steps in order, up to the first refusal. -/
def emit_steps (Y : Libyaml) : EmitCtx → List (yaml_event_t × String) →
    Except EmitCtx EmitCtx
  | c, [] => .ok c
  | c, (e, msg) :: rest =>
    match YAML_EMITTER_EMIT_WITH_ERROR_RETURN Y c e msg with
    | .ok c => emit_steps Y c rest
    | .error c => .error c

/-- Execution of a script. -/
def Script.run (Y : Libyaml) (c : EmitCtx) (s : Script) : Except EmitCtx EmitCtx :=
  match emit_steps Y c s.steps with
  | .ok c =>
    (match s.missing with
     | none => .ok c
     | some msg => MMD_YAML_EMITTER_ERROR_RETURN c msg)
  | .error c => .error c

/-- A scalar event with both implicit flags set, as every scalar of this file. -/
def scalar_event (value : String) (style : yaml_scalar_style_t) : yaml_event_t :=
  .scalar value true true style

/-- A plain scalar event. -/
def plain (value : String) : yaml_event_t := scalar_event value .YAML_PLAIN_SCALAR_STYLE

/-- The two steps of `MMD_YAML_EMIT_STR_STR_DICT`. -/
def str_str_dict_script (name value : String) (style : yaml_scalar_style_t) : Script :=
  ⟨[(plain name, "Error writing name"), (scalar_event value style, "Error writing value")],
   none⟩

/-- Script of `_emit_modulemd_simpleset`. -/
def simpleset_script (set : ModulemdSimpleSet) : Script :=
  ⟨(.sequence_start true .YAML_BLOCK_SEQUENCE_STYLE, "Error starting simpleset sequence") ::
     (modulemd_simpleset_get_as_strv set).map (fun s => (plain s, "Error writing scalar")) ++
     [(.sequence_end, "Error ending simpleset sequence")], none⟩

/-- Script of `_emit_modulemd_licenses`. -/
def licenses_script (module : ModulemdModule) : Script :=
  (Script.step (plain "license") "Error writing scalar").seq <|
  (Script.step (.mapping_start true .YAML_BLOCK_MAPPING_STYLE)
    "Error starting license mapping").seq <|
  match module.module_licenses with
  | none => ⟨[], some "Missing required option data.license.module"⟩
  | some set =>
    (Script.step (plain "module") "Error writing scalar").seq <|
    (simpleset_script set).seq <|
    (match module.content_licenses with
     | some set => (Script.step (plain "content") "Error writing scalar").seq
                     (simpleset_script set)
     | none => ⟨[], none⟩).seq <|
    Script.step .mapping_end "Error ending license mapping"

/-- Script of `_emit_modulemd_data`. -/
def data_script (module : ModulemdModule) : Script :=
  (Script.step (.mapping_start true .YAML_BLOCK_MAPPING_STYLE)
    "Error starting data mapping").seq <|
  (match module.name with
   | some value => str_str_dict_script "name" value .YAML_PLAIN_SCALAR_STYLE
   | none => ⟨[], none⟩).seq <|
  (match module.stream with
   | some value => str_str_dict_script "stream" value .YAML_PLAIN_SCALAR_STYLE
   | none => ⟨[], none⟩).seq <|
  (if module.version ≠ 0 then
     str_str_dict_script "version" (g_strdup_printf_llu module.version)
       .YAML_PLAIN_SCALAR_STYLE
   else ⟨[], none⟩).seq <|
  match module.summary with
  | none => ⟨[], some "Missing required option data.summary"⟩
  | some value =>
    (str_str_dict_script "summary" value .YAML_PLAIN_SCALAR_STYLE).seq <|
    match module.description with
    | none => ⟨[], some "Missing required option data.description"⟩
    | some value =>
      (str_str_dict_script "description" value .YAML_FOLDED_SCALAR_STYLE).seq <|
      (licenses_script module).seq <|
      Script.step .mapping_end "Error ending data mapping"

/-- Script of `_emit_modulemd_root`. -/
def root_script (module : ModulemdModule) : Script :=
  (Script.step (.mapping_start true .YAML_BLOCK_MAPPING_STYLE)
    "Error starting root mapping").seq <|
  (str_str_dict_script "document" "modulemd" .YAML_PLAIN_SCALAR_STYLE).seq <|
  (str_str_dict_script "version" (g_strdup_printf_llu module.mdversion)
    .YAML_PLAIN_SCALAR_STYLE).seq <|
  (Script.step (plain "data") "Error writing data").seq <|
  (data_script module).seq <|
  Script.step .mapping_end "Error ending root mapping"

/-- Script of `_emit_modulemd_document`. -/
def document_script (module : ModulemdModule) : Script :=
  (Script.step (.document_start false) "Error starting document").seq <|
  (root_script module).seq <|
  Script.step (.document_end false) "Error ending document"

/-- Script of the loop over the batch. -/
def documents_script : List ModulemdModule → Script
  | [] => ⟨[], none⟩
  | module :: modules => (document_script module).seq (documents_script modules)

/-- Script of the body of `emit_yaml_string` and of `emit_yaml_file`. -/
def stream_script (modules : List ModulemdModule) : Script :=
  (Script.step (.stream_start .YAML_UTF8_ENCODING) "Error starting stream").seq <|
  (documents_script modules).seq <|
  Script.step .stream_end "Error ending stream"

/-! ## The emitters the top-level functions start from -/

/-- The emitter `emit_yaml_string` starts from: no event yet, output to `_write_string`
with an empty `modulemd_yaml_string`. -/
def string_emitter : yaml_emitter_t :=
  { events := [], output := .string { str := none, len := 0 } }

/-- The emitter `emit_yaml_file` starts from once the file is open. -/
def file_emitter (yaml_file : FILE) : yaml_emitter_t :=
  { events := [], output := .file yaml_file }

/-! ## Complete documents -/

/-- The three mandatory fields are present. -/
def ModulemdModule.complete (module : ModulemdModule) : Prop :=
  module.summary ≠ none ∧ module.description ≠ none ∧ module.module_licenses ≠ none

instance (module : ModulemdModule) : Decidable module.complete := by
  unfold ModulemdModule.complete; infer_instance

/-! ## The event sequences of the specification -/

/-- A sink that accepts every event and writes nothing. -/
def accepting_sink : Libyaml := ⟨fun _ _ => true, fun _ _ => []⟩

/-- A key and its value, the value in the given style. -/
def pair (name value : String) (style : yaml_scalar_style_t) : List yaml_event_t :=
  [plain name, scalar_event value style]

/-- A key and its value when the value is present, nothing otherwise. -/
def optional_pair (name : String) (value : Option String) : List yaml_event_t :=
  match value with
  | some value => pair name value .YAML_PLAIN_SCALAR_STYLE
  | none => []

/-- The StringSet sequence of spec 4.3 (e): a block sequence of the elements of the
ordered sequence, each a plain scalar. -/
def simpleset_events (set : ModulemdSimpleSet) : List yaml_event_t :=
  [.sequence_start true .YAML_BLOCK_SEQUENCE_STYLE] ++
    (modulemd_simpleset_get_as_strv set).map plain ++ [.sequence_end]

/-- The license block of spec 4.3 (d). -/
def license_block_events (module_set : ModulemdSimpleSet)
    (content_set : Option ModulemdSimpleSet) : List yaml_event_t :=
  [plain "license", .mapping_start true .YAML_BLOCK_MAPPING_STYLE, plain "module"] ++
    simpleset_events module_set ++
    (match content_set with
     | some set => plain "content" :: simpleset_events set
     | none => []) ++
    [.mapping_end]

/-! ## The events of one document -/

/-- The events `_emit_modulemd_document` hands to a fresh emitter for one document. -/
def document_events (Y : Libyaml) (module : ModulemdModule) : List yaml_event_t :=
  match _emit_modulemd_document Y
      { emitter := { events := [], output := .unset }, error := .loc none } module with
  | .ok c => c.emitter.events
  | .error c => c.emitter.events

/-- The events that stand for a node of a document: scalars and the brackets of mappings
and sequences. -/
def yaml_event_t.is_node : yaml_event_t → Bool
  | .scalar .. => true
  | .sequence_start .. => true
  | .sequence_end => true
  | .mapping_start .. => true
  | .mapping_end => true
  | _ => false

/-! ## The mapping keys of an event sequence -/

/-- An open collection while reading an event sequence: a mapping with the dotted path
of its keys and the key that awaits its value, or a sequence. -/
inductive Frame
  | mapping (path : String) (key : Option String)
  | sequence
  deriving DecidableEq, Repr

/-- The mapping keys of an event sequence, each with the dotted path of the mappings
around it, in the order of the events.  In a mapping the scalars alternate between key
and value; a mapping or sequence that starts where a value is due is that value. -/
def key_paths : List Frame → List yaml_event_t → List String
  | _, [] => []
  | stack, .scalar value _ _ _ :: es =>
    match stack with
    | .mapping path none :: rest =>
      (path ++ value) :: key_paths (.mapping path (some value) :: rest) es
    | .mapping path (some _) :: rest => key_paths (.mapping path none :: rest) es
    | _ => key_paths stack es
  | stack, .mapping_start _ _ :: es =>
    match stack with
    | .mapping path (some key) :: rest =>
      key_paths (.mapping (path ++ key ++ ".") none :: .mapping path none :: rest) es
    | _ => key_paths (.mapping "" none :: stack) es
  | stack, .sequence_start _ _ :: es =>
    match stack with
    | .mapping path (some _) :: rest => key_paths (.sequence :: .mapping path none :: rest) es
    | _ => key_paths (.sequence :: stack) es
  | stack, .mapping_end :: es => key_paths stack.tail es
  | stack, .sequence_end :: es => key_paths stack.tail es
  | stack, _ :: es => key_paths stack es

/-! ## The Dependencies object (`v1/modulemd-dependencies.c`)

`ModulemdSimpleSet` and `GHashTable` objects are reached through pointers and changed in
place, so they live in a heap.  The two table pointers of a `ModulemdDependencies` are
assigned once, in `modulemd_dependencies_init`, so the object is the pair of them.  An
address that holds no object reads as the empty table or the empty set. -/

/-- The address of a heap object. -/
abbrev Address := Nat

/-- The entries of a `GHashTable` from module names to `ModulemdSimpleSet` pointers, with
one entry for a key at most. -/
abbrev GHashTable := List (String × Address)

/-- The heap: the simple sets, the hash tables, and the next unused address. -/
structure Heap where
  simplesets : Address → Option ModulemdSimpleSet
  hashtables : Address → Option GHashTable
  next : Address

/-- The heap without any object. -/
def Heap.empty : Heap := ⟨fun _ => none, fun _ => none, 0⟩

/-- The entries of the table at an address. -/
def Heap.table (h : Heap) (t : Address) : GHashTable := (h.hashtables t).getD []

/-- The content of the set at an address. -/
def Heap.simpleset (h : Heap) (p : Address) : ModulemdSimpleSet :=
  (h.simplesets p).getD modulemd_simpleset_new

/-- GLib `g_hash_table_lookup`: the value stored for the key, or NULL. -/
def g_hash_table_lookup (table : GHashTable) (key : String) : Option Address :=
  (table.find? (fun e => e.1 = key)).map Prod.snd

/-- GLib `g_hash_table_replace` on the entries: the entry of the key is dropped if there
is one, and the new entry inserted. -/
def GHashTable.replace (table : GHashTable) (key : String) (value : Address) : GHashTable :=
  table.filter (fun e => e.1 ≠ key) ++ [(key, value)]

/-- GLib `g_hash_table_replace` on the table at an address. -/
def Heap.g_hash_table_replace (h : Heap) (t : Address) (key : String) (value : Address) :
    Heap :=
  let table := GHashTable.replace (h.table t) key value
  { h with hashtables := Function.update h.hashtables t (some table) }

/-- GLib `g_hash_table_remove_all` on the table at an address. -/
def Heap.g_hash_table_remove_all (h : Heap) (t : Address) : Heap :=
  { h with hashtables := Function.update h.hashtables t (some []) }

/-- GLib `g_hash_table_new_full`: a new empty table. -/
def Heap.g_hash_table_new_full (h : Heap) : Address × Heap :=
  (h.next, { h with hashtables := Function.update h.hashtables h.next (some []),
                    next := h.next + 1 })

/-- Modelled from the spec: `modulemd_simpleset_new` as an allocation, a new empty
StringSet object. -/
def Heap.modulemd_simpleset_new (h : Heap) : Address × Heap :=
  let set := Modulemd.modulemd_simpleset_new
  (h.next, { h with simplesets := Function.update h.simplesets h.next (some set),
                    next := h.next + 1 })

/-- Modelled from the spec: `modulemd_simpleset_add` on the object at an address, spec 4.1
`add(value)`. -/
def Heap.modulemd_simpleset_add (h : Heap) (self : Address) (value : String) : Heap :=
  let set := Modulemd.modulemd_simpleset_add (h.simpleset self) value
  { h with simplesets := Function.update h.simplesets self (some set) }

/-- Modelled from the spec: `modulemd_simpleset_copy (self, &dest)` with `dest == NULL`,
spec 4.1 `deep_copy()`: a new object with the content of `self`. -/
def Heap.modulemd_simpleset_copy (h : Heap) (self : Address) : Address × Heap :=
  let set := h.simpleset self
  (h.next, { h with simplesets := Function.update h.simplesets h.next (some set),
                    next := h.next + 1 })

/-- The `struct _ModulemdDependencies`: the pointers to its two tables. -/
structure ModulemdDependencies where
  buildrequires : Address
  requires : Address
  deriving DecidableEq, Repr

/-- The loop `for (i = 0; streams[i]; i++) modulemd_simpleset_add (streamset, streams[i])`
of `_modulemd_dependencies_add_streams`. -/
def add_streams_loop (h : Heap) (streamset : Address) : List String → Heap
  | [] => h
  | stream :: streams =>
    add_streams_loop (h.modulemd_simpleset_add streamset stream) streamset streams

/-- The function `_modulemd_dependencies_add_streams`. -/
def _modulemd_dependencies_add_streams (h : Heap) (reqs : Address) (module : String)
    (streams : List String) : Heap :=
  let (streamset, h) :=
    match g_hash_table_lookup (h.table reqs) module with
    | none => h.modulemd_simpleset_new
    | some streamset => (streamset, h)
  let h := add_streams_loop h streamset streams
  h.g_hash_table_replace reqs module streamset

/-- The function `_modulemd_dependencies_add_stream`. -/
def _modulemd_dependencies_add_stream (h : Heap) (reqs : Address) (module stream : String) :
    Heap :=
  let streams := [stream]
  _modulemd_dependencies_add_streams h reqs module streams

/-- The function `modulemd_dependencies_add_buildrequires`. -/
def modulemd_dependencies_add_buildrequires (h : Heap) (self : ModulemdDependencies)
    (module : String) (streams : List String) : Heap :=
  let br := self.buildrequires
  _modulemd_dependencies_add_streams h br module streams

/-- The function `modulemd_dependencies_add_buildrequires_single`. -/
def modulemd_dependencies_add_buildrequires_single (h : Heap) (self : ModulemdDependencies)
    (module stream : String) : Heap :=
  let br := self.buildrequires
  _modulemd_dependencies_add_stream h br module stream

/-- The loop `while (g_hash_table_iter_next (&iter, &key, &value))` of
`modulemd_dependencies_set_buildrequires` and `modulemd_dependencies_set_requires`: each
set is copied and the copy stored under the key in the table `table`. -/
def set_requires_loop (h : Heap) (table : Address) : GHashTable → Heap
  | [] => h
  | (key, value) :: entries =>
    let (copy, h) := h.modulemd_simpleset_copy value
    set_requires_loop (h.g_hash_table_replace table key copy) table entries

/-- The function `modulemd_dependencies_set_buildrequires`.  The entries the iterator
visits are those of the source table after `g_hash_table_remove_all` ran. -/
def modulemd_dependencies_set_buildrequires (h : Heap) (self : ModulemdDependencies)
    (buildrequires : Option Address) : Heap :=
  let h := h.g_hash_table_remove_all self.buildrequires
  match buildrequires with
  | some buildrequires => set_requires_loop h self.buildrequires (h.table buildrequires)
  | none => h

/-- The function `modulemd_dependencies_peek_buildrequires`. -/
def modulemd_dependencies_peek_buildrequires (self : ModulemdDependencies) : Address :=
  self.buildrequires

/-- The function `modulemd_dependencies_get_buildrequires`. -/
def modulemd_dependencies_get_buildrequires (self : ModulemdDependencies) : Address :=
  modulemd_dependencies_peek_buildrequires self

/-- The loop of `modulemd_dependencies_dup_requires_common`. -/
def dup_requires_loop (h : Heap) (new_requires : Address) : GHashTable → Heap
  | [] => h
  | (key, value) :: entries =>
    let (set, h) := h.modulemd_simpleset_copy value
    dup_requires_loop (h.g_hash_table_replace new_requires key set) new_requires entries

/-- The function `modulemd_dependencies_dup_requires_common`. -/
def modulemd_dependencies_dup_requires_common (h : Heap) (requires : Address) :
    Address × Heap :=
  let (new_requires, h) := h.g_hash_table_new_full
  (new_requires, dup_requires_loop h new_requires (h.table requires))

/-- The function `modulemd_dependencies_dup_buildrequires`. -/
def modulemd_dependencies_dup_buildrequires (h : Heap) (self : ModulemdDependencies) :
    Address × Heap :=
  modulemd_dependencies_dup_requires_common h self.buildrequires

/-- The function `modulemd_dependencies_add_requires`. -/
def modulemd_dependencies_add_requires (h : Heap) (self : ModulemdDependencies)
    (module : String) (streams : List String) : Heap :=
  let r := self.requires
  _modulemd_dependencies_add_streams h r module streams

/-- The function `modulemd_dependencies_add_requires_single`. -/
def modulemd_dependencies_add_requires_single (h : Heap) (self : ModulemdDependencies)
    (module stream : String) : Heap :=
  let r := self.requires
  _modulemd_dependencies_add_stream h r module stream

/-- The function `modulemd_dependencies_set_requires`. -/
def modulemd_dependencies_set_requires (h : Heap) (self : ModulemdDependencies)
    (requires : Option Address) : Heap :=
  let h := h.g_hash_table_remove_all self.requires
  match requires with
  | some requires => set_requires_loop h self.requires (h.table requires)
  | none => h

/-- The function `modulemd_dependencies_peek_requires`. -/
def modulemd_dependencies_peek_requires (self : ModulemdDependencies) : Address :=
  self.requires

/-- The function `modulemd_dependencies_get_requires`. -/
def modulemd_dependencies_get_requires (self : ModulemdDependencies) : Address :=
  modulemd_dependencies_peek_requires self

/-- The function `modulemd_dependencies_dup_requires`. -/
def modulemd_dependencies_dup_requires (h : Heap) (self : ModulemdDependencies) :
    Address × Heap :=
  modulemd_dependencies_dup_requires_common h self.requires

/-- The functions `modulemd_dependencies_new` and `modulemd_dependencies_init`: a new
object with two new empty tables. -/
def modulemd_dependencies_new (h : Heap) : ModulemdDependencies × Heap :=
  let (buildrequires, h) := h.g_hash_table_new_full
  let (requires, h) := h.g_hash_table_new_full
  ({ buildrequires := buildrequires, requires := requires }, h)

/-- The function `modulemd_dependencies_copy`.  `self` is `none` for a NULL pointer and
`dest` is the content of `*dest` at the call; the result carries the content of `*dest`
at the return. -/
def modulemd_dependencies_copy (h : Heap) (self : Option ModulemdDependencies)
    (dest : Option ModulemdDependencies) : Option ModulemdDependencies × Heap :=
  match self with
  | none => (dest, h)
  | some self =>
    /- Allocate a Modulemd.Dependencies if needed -/
    let (dest, h) :=
      match dest with
      | none => modulemd_dependencies_new h
      | some dest => (dest, h)
    let h := modulemd_dependencies_set_buildrequires h dest (some self.buildrequires)
    let h := modulemd_dependencies_set_requires h dest (some self.requires)
    (some dest, h)

/-- The set stored for a module name in the table at an address, if the name has an
entry. -/
def Heap.stored (h : Heap) (t : Address) (module : String) : Option ModulemdSimpleSet :=
  (g_hash_table_lookup (h.table t) module).map h.simpleset

/-- The map held by the table at an address: its keys, each with the content of its
set. -/
def Heap.view (h : Heap) (t : Address) : List (String × ModulemdSimpleSet) :=
  (h.table t).map (fun e => (e.1, h.simpleset e.2))

/-! ## Mutations of one object leave the tables of another alone -/

/-- A call that changes a Dependencies object through its interface. -/
inductive Mutation
  | add_buildrequires (module : String) (streams : List String)
  | add_buildrequires_single (module stream : String)
  | set_buildrequires (buildrequires : Option Address)
  | add_requires (module : String) (streams : List String)
  | add_requires_single (module stream : String)
  | set_requires (requires : Option Address)
  deriving DecidableEq, Repr

/-- The heap after the call on `self`. -/
def Mutation.apply (h : Heap) (self : ModulemdDependencies) : Mutation → Heap
  | .add_buildrequires module streams =>
    modulemd_dependencies_add_buildrequires h self module streams
  | .add_buildrequires_single module stream =>
    modulemd_dependencies_add_buildrequires_single h self module stream
  | .set_buildrequires buildrequires =>
    modulemd_dependencies_set_buildrequires h self buildrequires
  | .add_requires module streams => modulemd_dependencies_add_requires h self module streams
  | .add_requires_single module stream =>
    modulemd_dependencies_add_requires_single h self module stream
  | .set_requires requires => modulemd_dependencies_set_requires h self requires

/-- The heap after a sequence of calls on `self`. -/
def apply_mutations (h : Heap) (self : ModulemdDependencies) (ops : List Mutation) : Heap :=
  ops.foldl (fun h op => op.apply h self) h

/-- Two objects that `modulemd_dependencies_init` gave tables of their own: no table of
one is a table of the other. -/
def ModulemdDependencies.separate (a b : ModulemdDependencies) : Prop :=
  a.buildrequires ≠ b.buildrequires ∧ a.buildrequires ≠ b.requires ∧
  a.requires ≠ b.buildrequires ∧ a.requires ≠ b.requires

instance (a b : ModulemdDependencies) : Decidable (a.separate b) := by
  unfold ModulemdDependencies.separate; infer_instance

/-- The sets a table points to were allocated: their addresses are below the next unused
address. -/
def Heap.allocated (h : Heap) (t : Address) : Prop := ∀ e ∈ h.table t, e.2 < h.next

instance (h : Heap) (t : Address) : Decidable (h.allocated t) := by
  unfold Heap.allocated; infer_instance

/-- With respect to a reference heap `h1`: the tables `D` still have the entries they
have in `h1`, the sets at the addresses `R` still have their content of `h1` and are
allocated, and no entry of the tables `S` points to an address of `R`. -/
def Safe (h1 : Heap) (D S R : List Address) (h : Heap) : Prop :=
  (∀ t ∈ D, h.hashtables t = h1.hashtables t) ∧
  (∀ p ∈ R, h.simplesets p = h1.simplesets p ∧ p < h.next) ∧
  (∀ t ∈ S, ∀ e ∈ h.table t, e.2 ∉ R)

/-! ## The text libyaml writes

libyaml is an external library.  For the one claim about the bytes of the output, its
writer (`emitter.c` of libyaml) is modelled here for the events this emitter produces:
block mappings with short scalar keys, block sequences, and plain or folded scalars that
libyaml writes without quoting.  The model keeps the names of the libyaml functions.
For events outside this subset it delivers no text. -/

inductive yaml_emitter_state_t
  | YAML_EMIT_STREAM_START_STATE
  | YAML_EMIT_FIRST_DOCUMENT_START_STATE
  | YAML_EMIT_DOCUMENT_START_STATE
  | YAML_EMIT_DOCUMENT_CONTENT_STATE
  | YAML_EMIT_DOCUMENT_END_STATE
  | YAML_EMIT_FLOW_SEQUENCE_FIRST_ITEM_STATE
  | YAML_EMIT_BLOCK_SEQUENCE_FIRST_ITEM_STATE
  | YAML_EMIT_BLOCK_SEQUENCE_ITEM_STATE
  | YAML_EMIT_BLOCK_MAPPING_FIRST_KEY_STATE
  | YAML_EMIT_BLOCK_MAPPING_KEY_STATE
  | YAML_EMIT_BLOCK_MAPPING_SIMPLE_VALUE_STATE
  | YAML_EMIT_END_STATE
  deriving DecidableEq, Repr

/-- The fields of the libyaml emitter that decide the text: the state machine with its
stacks, the contexts of the node at hand, the position of the writer, the output
buffer, and the buffers already handed to the write handler. -/
structure Writer where
  state : yaml_emitter_state_t
  states : List yaml_emitter_state_t
  indent : Int
  indents : List Int
  flow_level : Nat
  root_context : Bool
  sequence_context : Bool
  mapping_context : Bool
  simple_key_context : Bool
  column : Nat
  whitespace : Bool
  indention : Bool
  open_ended : Bool
  buffer : List Char
  flushed : List (List Char)
  deriving DecidableEq, Repr

/-- The writer after `yaml_emitter_initialize`. -/
def Writer.initial : Writer :=
  { state := .YAML_EMIT_STREAM_START_STATE, states := [], indent := 0, indents := [],
    flow_level := 0, root_context := false, sequence_context := false,
    mapping_context := false, simple_key_context := false, column := 0,
    whitespace := false, indention := false, open_ended := false, buffer := [],
    flushed := [] }

/-- The libyaml settings `best_indent` and `best_width` at their defaults. -/
def best_indent : Nat := 2
def best_width : Nat := 80

/-- The macro `PUT`: one character into the buffer. -/
def Writer.PUT (w : Writer) (c : Char) : Writer :=
  { w with buffer := w.buffer ++ [c], column := w.column + 1 }

/-- The macro `PUT_BREAK`: a line feed into the buffer. -/
def Writer.PUT_BREAK (w : Writer) : Writer :=
  { w with buffer := w.buffer ++ ['\n'], column := 0 }

/-- The function `yaml_emitter_flush`: a non-empty buffer goes to the write handler. -/
def yaml_emitter_flush (w : Writer) : Writer :=
  if w.buffer = [] then w else { w with flushed := w.flushed ++ [w.buffer], buffer := [] }

/-- The function `yaml_emitter_write_indent`. -/
def yaml_emitter_write_indent (w : Writer) : Writer :=
  let indent := if w.indent ≥ 0 then w.indent.toNat else 0
  let w := if !w.indention || w.column > indent || (w.column == indent && !w.whitespace)
    then w.PUT_BREAK else w
  let w := (List.replicate (indent - w.column) ' ').foldl Writer.PUT w
  { w with whitespace := true, indention := true }

/-- The function `yaml_emitter_write_indicator`. -/
def yaml_emitter_write_indicator (w : Writer) (indicator : String)
    (need_whitespace is_whitespace is_indention : Bool) : Writer :=
  let w := if need_whitespace && !w.whitespace then w.PUT ' ' else w
  let w := indicator.toList.foldl Writer.PUT w
  { w with whitespace := is_whitespace, indention := w.indention && is_indention,
           open_ended := false }

/-- The function `yaml_emitter_increase_indent`. -/
def yaml_emitter_increase_indent (w : Writer) (flow indentless : Bool) : Writer :=
  { w with indents := w.indent :: w.indents,
           indent := if w.indent < 0 then (if flow then best_indent else 0)
                     else if !indentless then w.indent + best_indent else w.indent }

/-- The scalars of the modelled subset: for these `yaml_emitter_analyze_scalar` finds no
line break, no special character and no indicator, so that the plain and the block styles
are allowed.  They are not empty, made of ASCII letters, digits, spaces and full stops,
without a space at either end and not starting with three full stops. -/
def unquoted (value : List Char) : Bool :=
  value ≠ [] && value.all (fun c => c.isAlphanum || c == ' ' || c == '.') &&
  value.head? ≠ some ' ' && value.getLast? ≠ some ' ' && value.take 3 ≠ ['.', '.', '.']

/-- The loop of `yaml_emitter_write_plain_scalar` on a scalar without line breaks. -/
def write_plain_scalar_loop (allow_breaks : Bool) : Writer → Bool → List Char → Writer
  | w, _, [] => w
  | w, spaces, c :: cs =>
    if c = ' ' then
      if allow_breaks && !spaces && w.column > best_width && cs.head? ≠ some ' ' then
        write_plain_scalar_loop allow_breaks (yaml_emitter_write_indent w) true cs
      else write_plain_scalar_loop allow_breaks (w.PUT c) true cs
    else
      write_plain_scalar_loop allow_breaks { w.PUT c with indention := false } false cs

/-- The function `yaml_emitter_write_plain_scalar`. -/
def yaml_emitter_write_plain_scalar (w : Writer) (value : List Char) (allow_breaks : Bool) :
    Writer :=
  let w := if !w.whitespace && (value ≠ [] || w.flow_level ≠ 0) then w.PUT ' ' else w
  let w := write_plain_scalar_loop allow_breaks w false value
  { w with whitespace := false, indention := false,
           open_ended := if w.root_context then true else w.open_ended }

/-- The loop of `yaml_emitter_write_folded_scalar` on a scalar without line breaks. -/
def write_folded_scalar_loop : Writer → Bool → List Char → Writer
  | w, _, [] => w
  | w, breaks, c :: cs =>
    let w := if breaks then yaml_emitter_write_indent w else w
    let w := if !breaks && c = ' ' && cs.head? ≠ some ' ' && w.column > best_width
      then yaml_emitter_write_indent w else w.PUT c
    write_folded_scalar_loop { w with indention := false } false cs

/-- The function `yaml_emitter_write_folded_scalar`, with
`yaml_emitter_write_block_scalar_hints` for a scalar that starts with no space and ends
with no line break: no indentation hint and the chomping hint `-`. -/
def yaml_emitter_write_folded_scalar (w : Writer) (value : List Char) : Writer :=
  let w := yaml_emitter_write_indicator w ">" true false false
  let w := yaml_emitter_write_indicator { w with open_ended := false } "-" false false false
  let w := { w.PUT_BREAK with indention := true, whitespace := true }
  write_folded_scalar_loop w true value

/-- The end of `yaml_emitter_emit_scalar` and of the collections: the indentation and the
state are popped from their stacks. -/
def Writer.pop (w : Writer) : Option Writer :=
  match w.indents, w.states with
  | indent :: indents, state :: states =>
    some { w with indent := indent, indents := indents, state := state, states := states }
  | _, _ => none

/-- The function `yaml_emitter_emit_scalar` with `yaml_emitter_select_scalar_style` and
`yaml_emitter_process_scalar`, for the scalars and styles of the modelled subset. -/
def yaml_emitter_emit_scalar (w : Writer) (value : String)
    (plain_implicit _quoted_implicit : Bool) (style : yaml_scalar_style_t) :
    Option Writer :=
  if !unquoted value.toList || !plain_implicit then none
  else
    match style with
    | .YAML_ANY_SCALAR_STYLE | .YAML_PLAIN_SCALAR_STYLE =>
      let w := yaml_emitter_increase_indent w false false
      (yaml_emitter_write_plain_scalar w value.toList (!w.simple_key_context)).pop
    | .YAML_FOLDED_SCALAR_STYLE =>
      if w.flow_level ≠ 0 || w.simple_key_context then none
      else
        let w := yaml_emitter_increase_indent w false false
        (yaml_emitter_write_folded_scalar w value.toList).pop
    | _ => none

/-- The function `yaml_emitter_emit_node`; `next` is the event behind `event` in the
queue, which `yaml_emitter_check_empty_sequence` and `yaml_emitter_check_empty_mapping`
look at. -/
def yaml_emitter_emit_node (w : Writer) (event : yaml_event_t) (next : Option yaml_event_t)
    (root sequence mapping simple_key : Bool) : Option Writer :=
  let w := { w with root_context := root, sequence_context := sequence,
                    mapping_context := mapping, simple_key_context := simple_key }
  match event with
  | .scalar value plain_implicit quoted_implicit style =>
    yaml_emitter_emit_scalar w value plain_implicit quoted_implicit style
  | .sequence_start _ style =>
    if next = some .sequence_end then
      some { w with state := .YAML_EMIT_FLOW_SEQUENCE_FIRST_ITEM_STATE }
    else if w.flow_level ≠ 0 || style = .YAML_FLOW_SEQUENCE_STYLE then none
    else some { w with state := .YAML_EMIT_BLOCK_SEQUENCE_FIRST_ITEM_STATE }
  | .mapping_start _ style =>
    if next = some .mapping_end || w.flow_level ≠ 0 || style = .YAML_FLOW_MAPPING_STYLE
    then none
    else some { w with state := .YAML_EMIT_BLOCK_MAPPING_FIRST_KEY_STATE }
  | _ => none

/-- The function `yaml_emitter_emit_document_start`. -/
def yaml_emitter_emit_document_start (w : Writer) (event : yaml_event_t) (first : Bool) :
    Option Writer :=
  match event with
  | .document_start implicit =>
    let implicit := implicit && first
    let w := if !implicit then
        yaml_emitter_write_indicator (yaml_emitter_write_indent w) "---" true false false
      else w
    some { w with state := .YAML_EMIT_DOCUMENT_CONTENT_STATE, open_ended := false }
  | .stream_end => some { yaml_emitter_flush w with state := .YAML_EMIT_END_STATE }
  | _ => none

/-- The function `yaml_emitter_emit_document_end`. -/
def yaml_emitter_emit_document_end (w : Writer) (event : yaml_event_t) : Option Writer :=
  match event with
  | .document_end implicit =>
    let w := yaml_emitter_write_indent w
    let w := if !implicit then
        yaml_emitter_write_indent
          (yaml_emitter_write_indicator w "..." true false false)
      else w
    some { yaml_emitter_flush w with state := .YAML_EMIT_DOCUMENT_START_STATE }
  | _ => none

/-- The function `yaml_emitter_emit_block_sequence_item`. -/
def yaml_emitter_emit_block_sequence_item (w : Writer) (event : yaml_event_t)
    (next : Option yaml_event_t) (first : Bool) : Option Writer :=
  let w := if first then
      yaml_emitter_increase_indent w false (w.mapping_context && !w.indention)
    else w
  match event with
  | .sequence_end => w.pop
  | _ =>
    let w := yaml_emitter_write_indent w
    let w := yaml_emitter_write_indicator w "-" true false true
    yaml_emitter_emit_node { w with states := .YAML_EMIT_BLOCK_SEQUENCE_ITEM_STATE :: w.states }
      event next false true false false

/-- The function `yaml_emitter_emit_block_mapping_key`, for keys that pass
`yaml_emitter_check_simple_key`: scalars of at most 128 bytes. -/
def yaml_emitter_emit_block_mapping_key (w : Writer) (event : yaml_event_t)
    (next : Option yaml_event_t) (first : Bool) : Option Writer :=
  let w := if first then yaml_emitter_increase_indent w false false else w
  match event with
  | .mapping_end => w.pop
  | .scalar value _ _ _ =>
    if value.length > 128 then none
    else
      let w := yaml_emitter_write_indent w
      yaml_emitter_emit_node
        { w with states := .YAML_EMIT_BLOCK_MAPPING_SIMPLE_VALUE_STATE :: w.states }
        event next false false true true
  | _ => none

/-- The function `yaml_emitter_emit_block_mapping_value` behind a simple key. -/
def yaml_emitter_emit_block_mapping_value (w : Writer) (event : yaml_event_t)
    (next : Option yaml_event_t) : Option Writer :=
  let w := yaml_emitter_write_indicator w ":" false false false
  yaml_emitter_emit_node { w with states := .YAML_EMIT_BLOCK_MAPPING_KEY_STATE :: w.states }
    event next false false true false

/-- The function `yaml_emitter_emit_flow_sequence_item` for the first item of a sequence
that `yaml_emitter_check_empty_sequence` found empty. -/
def yaml_emitter_emit_flow_sequence_item (w : Writer) (event : yaml_event_t) :
    Option Writer :=
  let w := yaml_emitter_write_indicator w "[" true true false
  let w := yaml_emitter_increase_indent w true false
  match event with
  | .sequence_end => (yaml_emitter_write_indicator w "]" false false false).pop
  | _ => none

/-- The function `yaml_emitter_state_machine`. -/
def yaml_emitter_state_machine (w : Writer) (event : yaml_event_t)
    (next : Option yaml_event_t) : Option Writer :=
  match w.state with
  | .YAML_EMIT_STREAM_START_STATE =>
    (match event with
     | .stream_start .YAML_UTF8_ENCODING | .stream_start .YAML_ANY_ENCODING =>
       some { w with indent := -1, column := 0, whitespace := true, indention := true,
                     state := .YAML_EMIT_FIRST_DOCUMENT_START_STATE }
     | _ => none)
  | .YAML_EMIT_FIRST_DOCUMENT_START_STATE => yaml_emitter_emit_document_start w event true
  | .YAML_EMIT_DOCUMENT_START_STATE => yaml_emitter_emit_document_start w event false
  | .YAML_EMIT_DOCUMENT_CONTENT_STATE =>
    yaml_emitter_emit_node { w with states := .YAML_EMIT_DOCUMENT_END_STATE :: w.states }
      event next true false false false
  | .YAML_EMIT_DOCUMENT_END_STATE => yaml_emitter_emit_document_end w event
  | .YAML_EMIT_FLOW_SEQUENCE_FIRST_ITEM_STATE => yaml_emitter_emit_flow_sequence_item w event
  | .YAML_EMIT_BLOCK_SEQUENCE_FIRST_ITEM_STATE =>
    yaml_emitter_emit_block_sequence_item w event next true
  | .YAML_EMIT_BLOCK_SEQUENCE_ITEM_STATE =>
    yaml_emitter_emit_block_sequence_item w event next false
  | .YAML_EMIT_BLOCK_MAPPING_FIRST_KEY_STATE =>
    yaml_emitter_emit_block_mapping_key w event next true
  | .YAML_EMIT_BLOCK_MAPPING_KEY_STATE =>
    yaml_emitter_emit_block_mapping_key w event next false
  | .YAML_EMIT_BLOCK_MAPPING_SIMPLE_VALUE_STATE =>
    yaml_emitter_emit_block_mapping_value w event next
  | .YAML_EMIT_END_STATE => none

/-- The events of the queue go through the state machine in order; a collection start
waits in the queue until the event behind it has arrived. -/
def libyaml_run : Writer → List yaml_event_t → Option Writer
  | w, [] => some w
  | w, event :: events =>
    match event, events with
    | .sequence_start _ _, [] => some w
    | .mapping_start _ _, [] => some w
    | _, _ =>
      match yaml_emitter_state_machine w event events.head? with
      | some w => libyaml_run w events
      | none => none

/-- The buffers libyaml has handed to the write handler once the events are emitted. -/
def libyaml_flushed (events : List yaml_event_t) : List (List Char) :=
  match libyaml_run Writer.initial events with
  | some w => w.flushed
  | none => []

/-- The libyaml writer on the modelled subset: every event is accepted, and the buffers
of an event are those flushed since the event before it. -/
def libyaml : Libyaml :=
  { accept := fun _ _ => true,
    chunks := fun events event =>
      (libyaml_flushed (events ++ [event])).drop (libyaml_flushed events).length }

/-- The text of a C string: the characters before the first NUL. -/
def c_string (block : List Char) : String := String.mk (block.takeWhile (· ≠ '\x00'))

/-! ## The parser

`parse_yaml_string` is declared in `modulemd-yaml.h`; its code is not among the sources.
It is modelled from spec 4.4 as a state machine on the events the tokenizer of libyaml
reads from the text.  The tokenizer is external, like the writer. -/

/-- Modelled from the spec: the fields the parser has seen so far in the document at hand
(spec 4.4: `document` verified, `version` captured, the Data fields reconstructed). -/
structure ParsedFields where
  document : Bool
  mdversion : Option Nat
  data : Bool
  name : Option String
  stream : Option String
  version : Nat
  summary : Option String
  description : Option String
  module_licenses : Option ModulemdSimpleSet
  content_licenses : Option ModulemdSimpleSet

/-- Modelled from the spec: no field seen yet. -/
def ParsedFields.none : ParsedFields :=
  { document := false, mdversion := Option.none, data := false, name := Option.none,
    stream := Option.none, version := 0, summary := Option.none,
    description := Option.none, module_licenses := Option.none,
    content_licenses := Option.none }

/-- Modelled from the spec: where the parser stands in the fixed schema of spec 6. -/
inductive Phase
  | stream | documents | root | root_key | root_document | root_version | root_data
  | data_key | data_name | data_stream | data_version | data_summary | data_description
  | license | license_key | module_sequence | module_item | content_sequence | content_item
  | document_end | finished
  deriving DecidableEq, Repr

/-- Modelled from the spec: the parser state machine of spec 4.4: the phase, the batch
assembled so far in stream order, the fields of the document at hand and the items of the
sequence at hand. -/
structure Parser where
  phase : Phase
  batch : List ModulemdModule
  fields : ParsedFields
  items : ModulemdSimpleSet

/-- Modelled from the spec: the parser before the first event. -/
def Parser.initial : Parser :=
  { phase := .stream, batch := [], fields := ParsedFields.none,
    items := modulemd_simpleset_new }

/-- The invariant of a hash table: a key has one entry at most. -/
def Heap.unique_keys (h : Heap) (t : Address) : Prop := ((h.table t).map Prod.fst).Nodup

instance (h : Heap) (t : Address) : Decidable (h.unique_keys t) := by
  unfold Heap.unique_keys; infer_instance

/-- The invariant of a Dependencies object in a heap: its two tables are two objects, the
sets they point to were allocated, and no set is pointed to by two entries. -/
def ModulemdDependencies.valid (d : ModulemdDependencies) (h : Heap) : Prop :=
  d.buildrequires ≠ d.requires ∧ h.allocated d.buildrequires ∧ h.allocated d.requires ∧
  ((h.table d.buildrequires).map Prod.snd ++ (h.table d.requires).map Prod.snd).Nodup

instance (d : ModulemdDependencies) (h : Heap) : Decidable (d.valid h) := by
  unfold ModulemdDependencies.valid; infer_instance

/-! ## The buffers the write handler receives -/

/-- The block after the write handler `_write_string` has received each buffer in turn, the
length of the buffer being the `size` of the call. -/
def write_chunks (data : modulemd_yaml_string) (chunks : List (List Char)) :
    modulemd_yaml_string :=
  chunks.foldl (fun data buffer => (_write_string data buffer buffer.length).2) data

/-- The buffers libyaml passes to the write handler while it accepts `events`, the events
`accepted` having been accepted before. -/
def delivered (Y : Libyaml) : List yaml_event_t → List yaml_event_t → List (List Char)
  | _, [] => []
  | accepted, e :: events => Y.chunks accepted e ++ delivered Y (accepted ++ [e]) events

/-- The output of an emitter is what the buffers of its accepted events made of `out`. -/
def yaml_emitter_t.fed (Y : Libyaml) (out : yaml_output_t) (emitter : yaml_emitter_t) :
    Prop :=
  emitter.output = (delivered Y [] emitter.events).foldl yaml_output_t.write out

/-! ## The message of a failed validation -/

/-- The message for the first missing mandatory field of a document, in the order summary,
description, module license set; `none` when the three are present. -/
def first_missing (module : ModulemdModule) : Option String :=
  if module.summary = none then some "Missing required option data.summary"
  else if module.description = none then some "Missing required option data.description"
  else if module.module_licenses = none then
    some "Missing required option data.license.module"
  else none

/-! ## Well-nested event sequences -/

/-- A construct that is open while an event sequence is read: the stream, a document with
or without its root node, a mapping where a key or a value is due, a sequence. -/
inductive Nesting
  | stream
  | document (root : Bool)
  | mapping (value_due : Bool)
  | sequence
  deriving DecidableEq, Repr

/-- The open construct after it received a child node, `scalar` telling whether the node
is a scalar.  A stream has no node of its own, a document has one root node, the key of a
mapping is a scalar and its value any node, a sequence takes any node. -/
def Nesting.child (scalar : Bool) : Nesting → Option Nesting
  | .stream => none
  | .document root => if root then none else some (.document true)
  | .mapping value_due =>
    if value_due then some (.mapping false)
    else if scalar then some (.mapping true)
    else none
  | .sequence => some .sequence

/-- The events close every open construct in properly nested order and end the stream with
their last event.  A document ends behind its root node, a mapping ends where a key is
due, so it has an even number of child nodes. -/
def nested : List Nesting → List yaml_event_t → Bool
  | _, [] => false
  | stack, e :: es =>
    match e with
    | .stream_start _ => false
    | .stream_end => decide (stack = [.stream]) && es.isEmpty
    | .document_start _ =>
      (match stack with
       | .stream :: _ => nested (.document false :: stack) es
       | _ => false)
    | .document_end _ =>
      (match stack with
       | .document true :: rest => nested rest es
       | _ => false)
    | .scalar _ _ _ _ =>
      (match stack with
       | top :: rest =>
         (match top.child true with
          | some top => nested (top :: rest) es
          | none => false)
       | [] => false)
    | .mapping_start _ _ =>
      (match stack with
       | top :: rest =>
         (match top.child false with
          | some top => nested (.mapping false :: top :: rest) es
          | none => false)
       | [] => false)
    | .sequence_start _ _ =>
      (match stack with
       | top :: rest =>
         (match top.child false with
          | some top => nested (.sequence :: top :: rest) es
          | none => false)
       | [] => false)
    | .mapping_end =>
      (match stack with
       | .mapping false :: rest => nested rest es
       | _ => false)
    | .sequence_end =>
      (match stack with
       | .sequence :: rest => nested rest es
       | _ => false)

/-- A balanced event sequence: it starts with stream-start and ends with stream-end, and
in between the documents, mappings and sequences are matched in nested order, the
children of every mapping alternating between a key scalar and a value. -/
def well_nested : List yaml_event_t → Bool
  | .stream_start _ :: es => nested [.stream] es
  | _ => false

/-! ## The text of a document

The lines the modelled writer produces for a document whose strings it writes on one line
as they are, and the states of the writer between these lines. -/

/-- A block collection the reader has open, with the column of its entries. -/
inductive Block
  | mapping (indent : Nat)
  | sequence (indent : Nat)
  deriving DecidableEq, Repr

/-- The reader of libyaml between two lines: the events read so far, the open block
collections with the innermost first, whether a node is due (the root node of a document,
or the value of a key that stands alone on its line), the key column and the lines of a
folded scalar that is being read, and whether a document is open. -/
structure Reader where
  events : List yaml_event_t
  blocks : List Block
  pending : Bool
  folded : Option (Nat × List (List Char))
  document : Bool
  deriving DecidableEq, Repr

/-- The reader behind the stream-start event. -/
def Reader.initial : Reader :=
  { events := [.stream_start .YAML_UTF8_ENCODING], blocks := [], pending := false,
    folded := none, document := false }

/-- The end event of a block collection. -/
def Block.end_event : Block → yaml_event_t
  | .mapping _ => .mapping_end
  | .sequence _ => .sequence_end

/-- The scanner unrolls the indentation: the collections that do not pass `keep` are
closed, from the innermost on, up to the first one that passes. -/
def close_blocks (keep : Block → Bool) : List Block → List yaml_event_t × List Block
  | [] => ([], [])
  | b :: bs =>
    if keep b then ([], b :: bs)
    else (b.end_event :: (close_blocks keep bs).1, (close_blocks keep bs).2)

/-- A plain scalar as `parser.c` reports it: `plain_implicit` is set, `quoted_implicit`
is not. -/
def read_plain (value : List Char) : yaml_event_t :=
  .scalar (String.mk value) true false .YAML_PLAIN_SCALAR_STYLE

/-- A folded scalar with the chomping hint `-` as `parser.c` reports it: the lines are
joined by single spaces, no line break ends the value, `quoted_implicit` is set. -/
def read_folded (lines : List (List Char)) : yaml_event_t :=
  .scalar (String.mk (List.intercalate [' '] lines)) false true .YAML_FOLDED_SCALAR_STYLE

/-- The end of a folded scalar, if one is being read: its event joins the events. -/
def Reader.end_folded (r : Reader) : Option Reader :=
  match r.folded with
  | none => some r
  | some (_, []) => none
  | some (_, line :: lines) =>
    some { r with events := r.events ++ [read_folded (line :: lines)], folded := none }

/-- The marker line `---`: a document starts, its root node is due. -/
def Reader.document_start (r : Reader) : Option Reader :=
  if r.document || r.pending || r.blocks ≠ [] then none
  else some { r with events := r.events ++ [.document_start false], document := true,
                     pending := true }

/-- The marker line `...`: the open collections end, then the document. -/
def Reader.document_end (r : Reader) : Option Reader :=
  if !r.document || r.pending then none
  else some { r with events := r.events ++ r.blocks.map Block.end_event ++
                                 [.document_end false],
                     blocks := [], document := false }

/-- A line `- item` at the column `indent`: the item joins the sequence open at that
column, or starts the sequence that is the value of the key before it. -/
def Reader.item (r : Reader) (indent : Nat) (value : List Char) : Option Reader :=
  if !r.document || !unquoted value then none
  else
    let closed := close_blocks (fun b => match b with
      | .mapping m => decide (m ≤ indent)
      | .sequence m => decide (m ≤ indent)) r.blocks
    match closed.2 with
    | .sequence m :: rest =>
      if m = indent ∧ r.pending = false then
        some { r with events := r.events ++ closed.1 ++ [read_plain value],
                      blocks := .sequence m :: rest }
      else none
    | .mapping m :: rest =>
      if r.pending = true ∧ closed.1 = [] then
        some { r with events := r.events ++
                        [.sequence_start true .YAML_BLOCK_SEQUENCE_STYLE, read_plain value],
                      blocks := .sequence indent :: .mapping m :: rest, pending := false }
      else none
    | [] => none

/-- What stands behind the colon of a key: nothing, when the value follows on the next
lines; the indicator of a folded scalar; the empty flow sequence; or a plain scalar. -/
def Reader.value (r : Reader) (indent : Nat) (after : List Char) : Option Reader :=
  if after = [] then some { r with pending := true }
  else if after = [' ', '>', '-'] then some { r with folded := some (indent, []) }
  else if after = [' ', '[', ']'] then
    some { r with events := r.events ++
             [.sequence_start true .YAML_FLOW_SEQUENCE_STYLE, .sequence_end] }
  else
    match after with
    | ' ' :: value =>
      if unquoted value then some { r with events := r.events ++ [read_plain value] }
      else none
    | _ => none

/-- A line `key:` or `key: value` at the column `indent`: the key joins the mapping open
at that column, after the deeper collections and a sequence at the same column have
ended, or starts the mapping that is the node due. -/
def Reader.key (r : Reader) (indent : Nat) (key after : List Char) : Option Reader :=
  if !r.document || !unquoted key then none
  else
    let closed := close_blocks (fun b => match b with
      | .mapping m => decide (m ≤ indent)
      | .sequence m => decide (m < indent)) r.blocks
    match closed.2 with
    | .mapping m :: rest =>
      if m = indent then
        if r.pending then none
        else Reader.value { r with events := r.events ++ closed.1 ++ [read_plain key],
                                   blocks := .mapping m :: rest } indent after
      else if r.pending = true ∧ closed.1 = [] then
        Reader.value { r with events := r.events ++
                                [.mapping_start true .YAML_BLOCK_MAPPING_STYLE,
                                 read_plain key],
                              blocks := .mapping indent :: .mapping m :: rest,
                              pending := false } indent after
      else none
    | .sequence _ :: _ => none
    | [] =>
      if r.pending = true ∧ closed.1 = [] ∧ indent = 0 then
        Reader.value { r with events := r.events ++
                                [.mapping_start true .YAML_BLOCK_MAPPING_STYLE,
                                 read_plain key],
                              blocks := [.mapping indent], pending := false } indent after
      else none

/-- One line that is not part of a folded scalar. -/
def Reader.structure_line (r : Reader) (indent : Nat) (content : List Char) :
    Option Reader :=
  if content = ['-', '-', '-'] then
    if indent = 0 then r.document_start else none
  else if content = ['.', '.', '.'] then
    if indent = 0 then r.document_end else none
  else
    match content with
    | '-' :: ' ' :: value => r.item indent value
    | _ =>
      match content.span (· ≠ ':') with
      | (key, ':' :: after) => r.key indent key after
      | _ => none

/-- One line through the reader.  A line deeper than the key of a folded scalar that is
being read is a line of that scalar; any other line ends the scalar. -/
def Reader.line (r : Reader) (line : List Char) : Option Reader :=
  let indent := (line.takeWhile (· = ' ')).length
  let content := line.dropWhile (· = ' ')
  if content = [] then none
  else
    match r.folded with
    | some (key, lines) =>
      if key < indent then some { r with folded := some (key, lines ++ [content]) }
      else
        match r.end_folded with
        | some r => r.structure_line indent content
        | none => none
    | none => r.structure_line indent content

/-- What the parser of spec 4.4 looks at in an event: its kind, and the value of a
scalar. -/
def yaml_event_t.content : yaml_event_t → yaml_event_t
  | .stream_start _ => .stream_start .YAML_ANY_ENCODING
  | .stream_end => .stream_end
  | .document_start _ => .document_start false
  | .document_end _ => .document_end false
  | .scalar value _ _ _ => .scalar value false false .YAML_ANY_SCALAR_STYLE
  | .sequence_start _ _ => .sequence_start false .YAML_ANY_SEQUENCE_STYLE
  | .sequence_end => .sequence_end
  | .mapping_start _ _ => .mapping_start false .YAML_ANY_MAPPING_STYLE
  | .mapping_end => .mapping_end

/-- A document without summary, used as a concrete input. -/
def module_without_summary : ModulemdModule :=
  { mdversion := 1, name := some "foo", stream := some "bar", version := 0, summary := none,
    description := some "d", module_licenses := some (simpleset_of ["MIT"]),
    content_licenses := none, dependencies := [] }

/-- A complete document with every optional field, used as a concrete input. -/
def module_full : ModulemdModule :=
  { mdversion := 1, name := some "foo", stream := some "bar", version := 7,
    summary := some "s", description := some "d",
    module_licenses := some (simpleset_of ["MIT", "BSD"]),
    content_licenses := some (simpleset_of ["GPL"]), dependencies := [] }

/-- A complete document without optional fields, used as a concrete input. -/
def module_minimal : ModulemdModule :=
  { mdversion := 2, name := none, stream := none, version := 0, summary := some "s",
    description := some "d", module_licenses := some (simpleset_of ["MIT"]),
    content_licenses := none, dependencies := [] }

/-- The heap with one empty dependency map, at address 0. -/
def heap_with_empty_map : Heap := Heap.empty.g_hash_table_new_full.2

/-- A heap with one Dependencies object whose buildrequires map has `foo` with the
stream `a`. -/
def heap_with_source : Heap :=
  modulemd_dependencies_add_buildrequires (modulemd_dependencies_new Heap.empty).2
    (modulemd_dependencies_new Heap.empty).1 "foo" ["a"]

/-- The document of the concrete scenario of spec 8. -/
def scenario_module : ModulemdModule :=
  { mdversion := 2, name := some "testmodule", stream := some "master", version := 0,
    summary := some "Test", description := some "A test module.",
    module_licenses := some (simpleset_of ["MIT"]), content_licenses := none,
    dependencies := [] }

/-- The text spec 8 gives for the concrete scenario. -/
def scenario_text_of_spec : String :=
  "document: modulemd\nversion: 2\ndata:\n  name: testmodule\n  stream: master\n" ++
  "  summary: Test\n  description: >\n    A test module.\n  license:\n    module:\n" ++
  "      - MIT\n"

/-- A heap with two Dependencies objects: the object of `heap_with_source` with the
tables 0 and 1, and an object with the tables 3 and 4 whose buildrequires map has `bar`
with the streams `x` and `y` and whose requires map has `baz` with the stream `z`. -/
def heap_with_two_objects : Heap :=
  modulemd_dependencies_add_requires
    (modulemd_dependencies_add_buildrequires (modulemd_dependencies_new heap_with_source).2
      ⟨3, 4⟩ "bar" ["x", "y"])
    ⟨3, 4⟩ "baz" ["z"]

/-- A document that lacks only the module license set. -/
def module_without_licenses : ModulemdModule :=
  { scenario_module with module_licenses := none }

/-- A document that lacks both summary and description. -/
def module_without_summary_and_description : ModulemdModule :=
  { scenario_module with summary := none, description := none }

/-! # Lemmas -/

/-! ## The emitting functions run their scripts -/

theorem bind_eq_match (x : Except EmitCtx EmitCtx) (f : EmitCtx → Except EmitCtx EmitCtx) :
    (x >>= f) = (match x with
      | .ok c => f c
      | .error c => .error c) := by
  cases x <;> rfl

theorem tryCatch_rethrow (x : Except EmitCtx EmitCtx) (msg : String) :
    x.tryCatch (fun c => MMD_YAML_ERROR_RETURN_RETHROW c msg) = x := by
  cases x <;> rfl

theorem emit_steps_cons (Y : Libyaml) (c : EmitCtx) (e : yaml_event_t) (msg : String)
    (l : List (yaml_event_t × String)) :
    emit_steps Y c ((e, msg) :: l)
      = (YAML_EMITTER_EMIT_WITH_ERROR_RETURN Y c e msg >>= fun c => emit_steps Y c l) := by
  rw [bind_eq_match]; rfl

theorem emit_steps_append (Y : Libyaml) (c : EmitCtx) (l₁ l₂ : List (yaml_event_t × String)) :
    emit_steps Y c (l₁ ++ l₂) = (emit_steps Y c l₁ >>= fun c => emit_steps Y c l₂) := by
  induction l₁ generalizing c with
  | nil => rfl
  | cons a l ih =>
    obtain ⟨e, msg⟩ := a
    rw [List.cons_append, emit_steps_cons, emit_steps_cons, bind_assoc]
    exact congrArg _ (funext fun c1 => ih c1)

theorem run_seq (Y : Libyaml) (c : EmitCtx) (a b : Script) :
    (a.seq b).run Y c = (a.run Y c >>= fun c => b.run Y c) := by
  unfold Script.seq Script.run
  cases ha : a.missing with
  | some m =>
    simp only [ha]
    cases emit_steps Y c a.steps <;> rfl
  | none =>
    simp only [ha, emit_steps_append]
    cases emit_steps Y c a.steps <;> rfl

theorem run_step (Y : Libyaml) (c : EmitCtx) (e : yaml_event_t) (msg : String) :
    (Script.step e msg).run Y c = YAML_EMITTER_EMIT_WITH_ERROR_RETURN Y c e msg := by
  unfold Script.step Script.run emit_steps
  cases YAML_EMITTER_EMIT_WITH_ERROR_RETURN Y c e msg <;> rfl

theorem run_nil (Y : Libyaml) (c : EmitCtx) : Script.run Y c ⟨[], none⟩ = pure c := rfl

theorem run_missing (Y : Libyaml) (c : EmitCtx) (msg : String) :
    Script.run Y c ⟨[], some msg⟩ = MMD_YAML_EMITTER_ERROR_RETURN c msg := rfl

theorem run_str_str_dict (Y : Libyaml) (c : EmitCtx) (name value : String)
    (style : yaml_scalar_style_t) :
    (str_str_dict_script name value style).run Y c
      = MMD_YAML_EMIT_STR_STR_DICT Y c name value style := by
  unfold str_str_dict_script Script.run MMD_YAML_EMIT_STR_STR_DICT emit_steps emit_steps
    emit_steps plain scalar_event
  cases YAML_EMITTER_EMIT_WITH_ERROR_RETURN Y c
    (.scalar name true true .YAML_PLAIN_SCALAR_STYLE) "Error writing name" with
  | error c1 => rfl
  | ok c1 =>
    simp only [bind_eq_match]
    cases YAML_EMITTER_EMIT_WITH_ERROR_RETURN Y c1 (.scalar value true true style)
      "Error writing value" <;> rfl

theorem simpleset_loop_eq (Y : Libyaml) (c : EmitCtx) (strv : List String) :
    _emit_modulemd_simpleset_loop Y c strv
      = emit_steps Y c (strv.map (fun s => (plain s, "Error writing scalar"))) := by
  induction strv generalizing c with
  | nil => rfl
  | cons s strv ih =>
    simp only [_emit_modulemd_simpleset_loop, List.map_cons, emit_steps, bind_eq_match,
      MMD_YAML_EMIT_SCALAR, plain, scalar_event]
    cases YAML_EMITTER_EMIT_WITH_ERROR_RETURN Y c
      (.scalar s true true .YAML_PLAIN_SCALAR_STYLE) "Error writing scalar" with
    | error c1 => rfl
    | ok c1 => simpa [plain, scalar_event] using ih c1

theorem run_eq_bind (Y : Libyaml) (c : EmitCtx) (s : Script) :
    s.run Y c = (emit_steps Y c s.steps >>= fun c => Script.run Y c ⟨[], s.missing⟩) := by
  unfold Script.run
  cases emit_steps Y c s.steps <;> rfl

theorem simpleset_runs_script (Y : Libyaml) (c : EmitCtx) (set : ModulemdSimpleSet) :
    _emit_modulemd_simpleset Y c set = (simpleset_script set).run Y c := by
  rw [run_eq_bind]
  unfold _emit_modulemd_simpleset simpleset_script
  simp only [emit_steps_cons, emit_steps_append, simpleset_loop_eq, bind_assoc]
  refine congrArg _ (funext fun c1 => congrArg _ (funext fun c2 => ?_))
  cases YAML_EMITTER_EMIT_WITH_ERROR_RETURN Y c2 .sequence_end
    "Error ending simpleset sequence" <;> rfl

theorem licenses_runs_script (Y : Libyaml) (c : EmitCtx) (module : ModulemdModule) :
    _emit_modulemd_licenses Y c module = (licenses_script module).run Y c := by
  unfold _emit_modulemd_licenses licenses_script
  cases h1 : module.module_licenses <;> cases h2 : module.content_licenses <;>
    simp only [h1, h2, run_seq, run_step, run_nil, run_missing, pure_bind, bind_assoc,
      modulemd_module_get_module_licenses,
      modulemd_module_get_content_licenses, MMD_YAML_EMIT_SCALAR, plain, scalar_event,
      tryCatch_rethrow, simpleset_runs_script]

theorem data_runs_script (Y : Libyaml) (c : EmitCtx) (module : ModulemdModule) :
    _emit_modulemd_data Y c module = (data_script module).run Y c := by
  unfold _emit_modulemd_data data_script
  cases h1 : module.name <;> cases h2 : module.stream <;>
    by_cases h3 : module.version = 0 <;>
    cases h4 : module.summary <;> cases h5 : module.description <;>
    simp only [h1, h2, h3, h4, h5, run_seq, run_step, run_nil, run_missing, pure_bind,
      bind_assoc, run_str_str_dict, modulemd_module_get_name, modulemd_module_get_stream,
      modulemd_module_get_version, modulemd_module_get_summary,
      modulemd_module_get_description, tryCatch_rethrow, licenses_runs_script,
      ne_eq, not_true_eq_false, not_false_eq_true, if_true, if_false]

theorem root_runs_script (Y : Libyaml) (c : EmitCtx) (module : ModulemdModule) :
    _emit_modulemd_root Y c module = (root_script module).run Y c := by
  unfold _emit_modulemd_root root_script
  simp only [run_seq, run_step, run_str_str_dict, modulemd_module_get_mdversion,
    tryCatch_rethrow, data_runs_script, plain, scalar_event]

theorem document_runs_script (Y : Libyaml) (c : EmitCtx) (module : ModulemdModule) :
    _emit_modulemd_document Y c module = (document_script module).run Y c := by
  unfold _emit_modulemd_document document_script
  simp only [run_seq, run_step, tryCatch_rethrow, root_runs_script]

theorem string_loop_runs_script (Y : Libyaml) (c : EmitCtx) (modules : List ModulemdModule) :
    emit_yaml_string_loop Y c modules = (documents_script modules).run Y c := by
  induction modules generalizing c with
  | nil => rfl
  | cons m ms ih =>
    simp only [emit_yaml_string_loop, documents_script, run_seq, tryCatch_rethrow,
      document_runs_script, ih]

/-! ## What running a script does -/

theorem emit_ok (Y : Libyaml) (c c1 : EmitCtx) (e : yaml_event_t) (msg : String)
    (h : YAML_EMITTER_EMIT_WITH_ERROR_RETURN Y c e msg = .ok c1) :
    Y.accept c.emitter.events e = true ∧ c1.error = c.error ∧
      c1.emitter.events = c.emitter.events ++ [e] := by
  unfold YAML_EMITTER_EMIT_WITH_ERROR_RETURN yaml_emitter_emit at h
  by_cases ha : Y.accept c.emitter.events e = true
  · simp only [ha, if_true] at h
    cases h
    exact ⟨ha, rfl, rfl⟩
  · simp only [ha] at h
    cases h

theorem emit_error (Y : Libyaml) (c c1 : EmitCtx) (e : yaml_event_t) (msg : String)
    (h : YAML_EMITTER_EMIT_WITH_ERROR_RETURN Y c e msg = .error c1) :
    Y.accept c.emitter.events e = false ∧ c1.emitter = c.emitter ∧
      c1.error = g_set_error_literal c.error .MODULEMD_YAML_ERROR_EMIT msg := by
  unfold YAML_EMITTER_EMIT_WITH_ERROR_RETURN yaml_emitter_emit at h
  by_cases ha : Y.accept c.emitter.events e = true
  · simp only [ha, if_true] at h
    cases h
  · simp only [ha] at h
    cases h
    exact ⟨by simpa using ha, rfl, rfl⟩

theorem emit_steps_ok (Y : Libyaml) (c c1 : EmitCtx) (steps : List (yaml_event_t × String))
    (h : emit_steps Y c steps = .ok c1) :
    c1.error = c.error ∧ c1.emitter.events = c.emitter.events ++ steps.map Prod.fst := by
  induction steps generalizing c with
  | nil =>
    cases h
    simp
  | cons a l ih =>
    obtain ⟨e, msg⟩ := a
    rw [emit_steps_cons, bind_eq_match] at h
    cases h1 : YAML_EMITTER_EMIT_WITH_ERROR_RETURN Y c e msg with
    | error c2 => rw [h1] at h; cases h
    | ok c2 =>
      rw [h1] at h
      obtain ⟨-, he, hv⟩ := emit_ok Y c c2 e msg h1
      obtain ⟨he2, hv2⟩ := ih c2 h
      exact ⟨he2.trans he, by rw [hv2, hv]; simp⟩

/-- A refused step: the events before it were accepted, the refused one is not among the
accepted events, and the error slot is set with the message of that step. -/
theorem emit_steps_error (Y : Libyaml) (c c1 : EmitCtx) (steps : List (yaml_event_t × String))
    (h : emit_steps Y c steps = .error c1) :
    ∃ pre e msg post, steps = pre ++ (e, msg) :: post ∧
      c1.emitter.events = c.emitter.events ++ pre.map Prod.fst ∧
      Y.accept (c.emitter.events ++ pre.map Prod.fst) e = false ∧
      c1.error = g_set_error_literal c.error .MODULEMD_YAML_ERROR_EMIT msg := by
  induction steps generalizing c with
  | nil => cases h
  | cons a l ih =>
    obtain ⟨e, msg⟩ := a
    rw [emit_steps_cons, bind_eq_match] at h
    cases h1 : YAML_EMITTER_EMIT_WITH_ERROR_RETURN Y c e msg with
    | error c2 =>
      rw [h1] at h
      cases h
      obtain ⟨ha, hem, her⟩ := emit_error Y c c1 e msg h1
      exact ⟨[], e, msg, l, rfl, by simp [hem], by simpa using ha, her⟩
    | ok c2 =>
      rw [h1] at h
      obtain ⟨-, he, hv⟩ := emit_ok Y c c2 e msg h1
      obtain ⟨pre, e', msg', post, hs, hev, hacc, herr⟩ := ih c2 h
      refine ⟨(e, msg) :: pre, e', msg', post, by simp [hs], ?_, ?_, ?_⟩
      · rw [hev, hv]; simp
      · rw [hv] at hacc; simpa using hacc
      · rw [herr, he]

theorem run_ok (Y : Libyaml) (c c1 : EmitCtx) (s : Script) (h : s.run Y c = .ok c1) :
    s.missing = none ∧ c1.error = c.error ∧
      c1.emitter.events = c.emitter.events ++ s.events := by
  unfold Script.run at h
  cases h1 : emit_steps Y c s.steps with
  | error c2 => rw [h1] at h; cases h
  | ok c2 =>
    rw [h1] at h
    cases hm : s.missing with
    | some msg => rw [hm] at h; cases h
    | none =>
      rw [hm] at h
      cases h
      exact ⟨rfl, emit_steps_ok Y c _ s.steps h1⟩

/-- A failing run: either a step was refused, or all steps were accepted and the script
stops on its missing field. -/
theorem run_error (Y : Libyaml) (c c1 : EmitCtx) (s : Script) (h : s.run Y c = .error c1) :
    (∃ pre e msg post, s.steps = pre ++ (e, msg) :: post ∧
      c1.emitter.events = c.emitter.events ++ pre.map Prod.fst ∧
      Y.accept (c.emitter.events ++ pre.map Prod.fst) e = false ∧
      c1.error = g_set_error_literal c.error .MODULEMD_YAML_ERROR_EMIT msg) ∨
    (∃ msg, s.missing = some msg ∧
      c1.emitter.events = c.emitter.events ++ s.events ∧
      c1.error = g_set_error_literal c.error .MODULEMD_YAML_ERROR_EMIT msg) := by
  unfold Script.run at h
  cases h1 : emit_steps Y c s.steps with
  | error c2 =>
    rw [h1] at h
    cases h
    exact Or.inl (emit_steps_error Y c c1 s.steps h1)
  | ok c2 =>
    rw [h1] at h
    obtain ⟨he, hv⟩ := emit_steps_ok Y c c2 s.steps h1
    cases hm : s.missing with
    | none => rw [hm] at h; cases h
    | some msg =>
      rw [hm] at h
      cases h
      exact Or.inr ⟨msg, rfl, hv, by simp [he]⟩

theorem run_error_kind (Y : Libyaml) (c c1 : EmitCtx) (s : Script)
    (h : s.run Y c = .error c1) :
    ∃ msg, c1.error = g_set_error_literal c.error .MODULEMD_YAML_ERROR_EMIT msg := by
  rcases run_error Y c c1 s h with ⟨_, _, msg, _, _, _, _, he⟩ | ⟨msg, _, _, he⟩
  · exact ⟨msg, he⟩
  · exact ⟨msg, he⟩

theorem g_set_error_literal_twice (error : GErrorArg) (code code2 : ModulemdYamlError)
    (msg msg2 : String) :
    g_set_error_literal (g_set_error_literal error code msg) code2 msg2
      = g_set_error_literal error code msg := by
  rcases error with _ | _ | _ <;> rfl

/-- With a sink that accepts every event, a script runs to its end. -/
theorem run_accepting (Y : Libyaml) (hY : ∀ evs e, Y.accept evs e = true) (c : EmitCtx)
    (s : Script) (hs : s.missing = none) :
    ∃ c1, s.run Y c = .ok c1 ∧ c1.error = c.error ∧
      c1.emitter.events = c.emitter.events ++ s.events := by
  cases h : s.run Y c with
  | ok c1 => exact ⟨c1, rfl, (run_ok Y c c1 s h).2⟩
  | error c1 =>
    rcases run_error Y c c1 s h with ⟨_, _, _, _, _, _, hacc, _⟩ | ⟨msg, hm, _, _⟩
    · rw [hY] at hacc; cases hacc
    · rw [hs] at hm; cases hm

theorem file_loop_eq_string_loop (Y : Libyaml) (c : EmitCtx) (modules : List ModulemdModule) :
    emit_yaml_file_loop Y c modules = emit_yaml_string_loop Y c modules := by
  induction modules generalizing c with
  | nil => rfl
  | cons m ms ih =>
    simp only [emit_yaml_file_loop, emit_yaml_string_loop, tryCatch_rethrow, ih]
    cases h : _emit_modulemd_document Y c m with
    | ok c1 => rfl
    | error c1 =>
      rw [document_runs_script] at h
      obtain ⟨msg, he⟩ := run_error_kind Y c c1 _ h
      simp only [Except.tryCatch, MMD_YAML_EMITTER_ERROR_RETURN, he,
        g_set_error_literal_twice]
      rw [← he]

theorem seq_missing (a b : Script) :
    (a.seq b).missing = (match a.missing with
      | some m => some m
      | none => b.missing) := by
  unfold Script.seq
  cases a.missing <;> rfl

theorem seq_events (a b : Script) (ha : a.missing = none) :
    (a.seq b).events = a.events ++ b.events := by
  unfold Script.seq Script.events
  simp [ha]

theorem emit_yaml_string_runs_script (Y : Libyaml) (modules : List ModulemdModule)
    (_yaml : Option (List Char)) (error : GErrorArg) (h : ∀ e, error ≠ .loc (some e)) :
    emit_yaml_string Y modules _yaml error =
      (match (stream_script modules).run Y { emitter := string_emitter, error := error } with
       | .ok c =>
         { ret := true,
           _yaml := (match c.emitter.output with
                     | .string data => data.str
                     | _ => none),
           error := c.error, emitter := c.emitter }
       | .error c => { ret := false, _yaml := _yaml, error := c.error, emitter := c.emitter }) := by
  unfold emit_yaml_string stream_script
  rcases error with _ | _ | e
  · simp only [run_seq, run_step, string_loop_runs_script, string_emitter]
  · simp only [run_seq, run_step, string_loop_runs_script, string_emitter]
  · exact absurd rfl (h e)

theorem emit_yaml_file_runs_script (Y : Libyaml) (g_fopen : String → Except String FILE)
    (modules : List ModulemdModule) (path : String) (error : GErrorArg)
    (h : ∀ e, error ≠ .loc (some e)) (yaml_file : FILE) (ho : g_fopen path = .ok yaml_file) :
    emit_yaml_file Y g_fopen modules path error =
      (match (stream_script modules).run Y
          { emitter := file_emitter yaml_file, error := error } with
       | .ok c =>
         { ret := true, error := c.error, emitter := c.emitter, fclose := [c.emitter.file],
           returns := true }
       | .error c =>
         { ret := false, error := c.error, emitter := c.emitter,
           fclose := [c.emitter.file], returns := true }) := by
  unfold emit_yaml_file stream_script
  rcases error with _ | _ | e
  · simp only [run_seq, run_step, file_loop_eq_string_loop, string_loop_runs_script,
      file_emitter, ho]
  · simp only [run_seq, run_step, file_loop_eq_string_loop, string_loop_runs_script,
      file_emitter, ho]
  · exact absurd rfl (h e)

theorem simpleset_script_missing (set : ModulemdSimpleSet) :
    (simpleset_script set).missing = none := rfl

theorem licenses_script_missing (module : ModulemdModule) :
    (licenses_script module).missing = none ↔ module.module_licenses ≠ none := by
  unfold licenses_script
  cases h1 : module.module_licenses <;> cases h2 : module.content_licenses <;>
    simp [seq_missing, Script.step, simpleset_script]

theorem data_script_missing (module : ModulemdModule) :
    (data_script module).missing = none ↔ module.complete := by
  unfold data_script ModulemdModule.complete
  have hl := licenses_script_missing module
  cases h1 : module.name <;> cases h2 : module.stream <;>
    by_cases h3 : module.version = 0 <;>
    cases h4 : module.summary <;> cases h5 : module.description <;>
    cases h6 : module.module_licenses <;>
    cases h7 : (licenses_script module).missing <;>
    simp_all [seq_missing, Script.step, str_str_dict_script]

theorem root_script_missing (module : ModulemdModule) :
    (root_script module).missing = none ↔ module.complete := by
  rw [← data_script_missing]
  unfold root_script
  cases h : (data_script module).missing <;>
    simp [seq_missing, Script.step, str_str_dict_script, h]

theorem document_script_missing (module : ModulemdModule) :
    (document_script module).missing = none ↔ module.complete := by
  rw [← root_script_missing]
  unfold document_script
  cases h : (root_script module).missing <;> simp [seq_missing, Script.step, h]

theorem documents_script_missing (modules : List ModulemdModule) :
    (documents_script modules).missing = none ↔ ∀ module ∈ modules, module.complete := by
  induction modules with
  | nil => simp [documents_script]
  | cons m ms ih =>
    have hd := document_script_missing m
    cases h : (document_script m).missing with
    | none => simp [documents_script, seq_missing, h, ih, hd.1 h]
    | some msg =>
      have : ¬ m.complete := fun hc => by rw [hd.2 hc] at h; cases h
      simp [documents_script, seq_missing, h, this]

theorem stream_script_missing (modules : List ModulemdModule) :
    (stream_script modules).missing = none ↔ ∀ module ∈ modules, module.complete := by
  rw [← documents_script_missing]
  unfold stream_script
  cases h : (documents_script modules).missing <;> simp [seq_missing, Script.step, h]

/-- A script that stops on a missing field fails on every sink, with an `Emit` error when
the error location was empty. -/
theorem run_incomplete (Y : Libyaml) (c : EmitCtx) (s : Script) (hs : s.missing ≠ none)
    (hc : c.error = .loc none) :
    ∃ c1 msg, s.run Y c = .error c1 ∧
      c1.error = .loc (some ⟨.MODULEMD_YAML_ERROR_EMIT, msg⟩) := by
  cases h : s.run Y c with
  | ok c1 => exact absurd (run_ok Y c c1 s h).1 hs
  | error c1 =>
    obtain ⟨msg, he⟩ := run_error_kind Y c c1 s h
    exact ⟨c1, msg, rfl, by rw [he, hc]; rfl⟩

theorem seq_events_eq (a b : Script) :
    (a.seq b).events = a.events ++ (match a.missing with
      | none => b.events
      | some _ => []) := by
  unfold Script.seq Script.events
  cases a.missing <;> simp

theorem step_events (e : yaml_event_t) (msg : String) : (Script.step e msg).events = [e] := rfl

theorem step_missing (e : yaml_event_t) (msg : String) : (Script.step e msg).missing = none :=
  rfl

theorem str_str_dict_events (name value : String) (style : yaml_scalar_style_t) :
    (str_str_dict_script name value style).events = pair name value style := rfl

theorem str_str_dict_missing (name value : String) (style : yaml_scalar_style_t) :
    (str_str_dict_script name value style).missing = none := rfl

theorem nil_events (m : Option String) : (Script.mk [] m).events = [] := rfl

theorem simpleset_script_events (set : ModulemdSimpleSet) :
    (simpleset_script set).events = simpleset_events set := by
  simp [simpleset_script, simpleset_events, Script.events, List.map_map, Function.comp_def]

theorem licenses_script_events (module : ModulemdModule) (set : ModulemdSimpleSet)
    (h : module.module_licenses = some set) :
    (licenses_script module).events = license_block_events set module.content_licenses := by
  unfold licenses_script license_block_events
  cases h2 : module.content_licenses <;>
    simp [h, seq_events_eq, seq_missing, step_events, step_missing, nil_events,
      simpleset_script_missing, simpleset_script_events]

/-- The events of the data mapping of a document with its mandatory fields. -/
theorem data_script_events (module : ModulemdModule) (summary description : String)
    (set : ModulemdSimpleSet) (h1 : module.summary = some summary)
    (h2 : module.description = some description) (h3 : module.module_licenses = some set) :
    (data_script module).events =
      [.mapping_start true .YAML_BLOCK_MAPPING_STYLE] ++
      optional_pair "name" module.name ++
      optional_pair "stream" module.stream ++
      (if module.version ≠ 0 then
         pair "version" (g_strdup_printf_llu module.version) .YAML_PLAIN_SCALAR_STYLE
       else []) ++
      pair "summary" summary .YAML_PLAIN_SCALAR_STYLE ++
      pair "description" description .YAML_FOLDED_SCALAR_STYLE ++
      license_block_events set module.content_licenses ++
      [.mapping_end] := by
  have hl := (licenses_script_missing module).2 (by simp [h3])
  unfold data_script
  cases h4 : module.name <;> cases h5 : module.stream <;>
    by_cases h6 : module.version = 0 <;>
    simp [h1, h2, h6, hl, seq_events_eq, seq_missing, step_events, step_missing, nil_events,
      str_str_dict_events, str_str_dict_missing, licenses_script_events module set h3,
      optional_pair]

/-- The events of a whole document with its mandatory fields. -/
theorem document_script_events (module : ModulemdModule) (summary description : String)
    (set : ModulemdSimpleSet) (h1 : module.summary = some summary)
    (h2 : module.description = some description) (h3 : module.module_licenses = some set) :
    (document_script module).events =
      [.document_start false, .mapping_start true .YAML_BLOCK_MAPPING_STYLE] ++
      pair "document" "modulemd" .YAML_PLAIN_SCALAR_STYLE ++
      pair "version" (g_strdup_printf_llu module.mdversion) .YAML_PLAIN_SCALAR_STYLE ++
      [plain "data", .mapping_start true .YAML_BLOCK_MAPPING_STYLE] ++
      optional_pair "name" module.name ++
      optional_pair "stream" module.stream ++
      (if module.version ≠ 0 then
         pair "version" (g_strdup_printf_llu module.version) .YAML_PLAIN_SCALAR_STYLE
       else []) ++
      pair "summary" summary .YAML_PLAIN_SCALAR_STYLE ++
      pair "description" description .YAML_FOLDED_SCALAR_STYLE ++
      license_block_events set module.content_licenses ++
      [.mapping_end, .mapping_end, .document_end false] := by
  have hc : module.complete := by simp [ModulemdModule.complete, h1, h2, h3]
  have hd := (data_script_missing module).2 hc
  have hr := (root_script_missing module).2 hc
  unfold document_script
  simp only [seq_events_eq, seq_missing, step_events, step_missing, hr]
  unfold root_script
  simp [seq_events_eq, seq_missing, step_events, step_missing, hd, str_str_dict_events,
    str_str_dict_missing, data_script_events module summary description set h1 h2 h3]

theorem document_events_accepting (Y : Libyaml) (hY : ∀ evs e, Y.accept evs e = true)
    (module : ModulemdModule) (hc : module.complete) :
    document_events Y module = (document_script module).events := by
  obtain ⟨c1, hr, -, hv⟩ := run_accepting Y hY
    { emitter := { events := [], output := .unset }, error := .loc none }
    (document_script module) ((document_script_missing module).2 hc)
  unfold document_events
  rw [document_runs_script, hr]
  simpa using hv

theorem documents_script_events (modules : List ModulemdModule)
    (h : ∀ module ∈ modules, module.complete) :
    (documents_script modules).events
      = modules.flatMap (fun module => (document_script module).events) := by
  induction modules with
  | nil => rfl
  | cons m ms ih =>
    have hm := (document_script_missing m).2 (h m (by simp))
    simp only [documents_script, seq_events_eq, hm, List.flatMap_cons]
    rw [ih (fun x hx => h x (by simp [hx]))]

/-- The events planned for a batch whose first incomplete document is `module`: nothing
is planned beyond that document. -/
theorem documents_script_events_incomplete (before after : List ModulemdModule)
    (module : ModulemdModule) (hb : ∀ m ∈ before, m.complete) (hm : ¬ module.complete) :
    (documents_script (before ++ module :: after)).events
      = (before ++ [module]).flatMap (fun m => (document_script m).events) := by
  induction before with
  | nil =>
    have : (document_script module).missing ≠ none :=
      fun h => hm ((document_script_missing module).1 h)
    cases hd : (document_script module).missing with
    | none => exact absurd hd this
    | some msg => simp [documents_script, seq_events_eq, hd]
  | cons m ms ih =>
    have hmm := (document_script_missing m).2 (hb m (by simp))
    have e1 : (m :: ms) ++ module :: after = m :: (ms ++ module :: after) := rfl
    have e2 : (m :: ms) ++ [module] = m :: (ms ++ [module]) := rfl
    rw [e1, e2, documents_script, seq_events_eq, hmm, List.flatMap_cons,
      ih (fun x hx => hb x (by simp [hx]))]

theorem seq_all (p : yaml_event_t → Prop) (a b : Script) (ha : ∀ e ∈ a.events, p e)
    (hb : ∀ e ∈ b.events, p e) : ∀ e ∈ (a.seq b).events, p e := by
  intro e he
  rw [seq_events_eq] at he
  rcases List.mem_append.1 he with h | h
  · exact ha e h
  · cases hm : a.missing with
    | none => rw [hm] at h; exact hb e h
    | some m => rw [hm] at h; cases h

theorem simpleset_script_nodes (set : ModulemdSimpleSet) :
    ∀ e ∈ (simpleset_script set).events, e.is_node = true := by
  intro e he
  rw [simpleset_script_events] at he
  simp only [simpleset_events, List.mem_append, List.mem_singleton, List.mem_map] at he
  rcases he with (rfl | ⟨s, -, rfl⟩) | rfl <;> rfl

theorem step_all (p : yaml_event_t → Prop) (e : yaml_event_t) (msg : String) (h : p e) :
    ∀ x ∈ (Script.step e msg).events, p x := by
  intro x hx
  rw [step_events] at hx
  rw [List.mem_singleton.1 hx]
  exact h

theorem nil_all (p : yaml_event_t → Prop) (m : Option String) :
    ∀ x ∈ (Script.mk [] m).events, p x := by
  intro x hx
  cases hx

theorem str_str_dict_nodes (name value : String) (style : yaml_scalar_style_t) :
    ∀ e ∈ (str_str_dict_script name value style).events, e.is_node = true := by
  intro e he
  rw [str_str_dict_events] at he
  simp only [pair, List.mem_cons, List.mem_singleton, List.not_mem_nil, or_false] at he
  rcases he with rfl | rfl <;> rfl

theorem licenses_script_nodes (module : ModulemdModule) :
    ∀ e ∈ (licenses_script module).events, e.is_node = true := by
  unfold licenses_script
  refine seq_all _ _ _ (step_all _ _ _ rfl) (seq_all _ _ _ (step_all _ _ _ rfl) ?_)
  cases module.module_licenses with
  | none => exact nil_all _ _
  | some set =>
    refine seq_all _ _ _ (step_all _ _ _ rfl) (seq_all _ _ _ (simpleset_script_nodes set)
      (seq_all _ _ _ ?_ (step_all _ _ _ rfl)))
    cases module.content_licenses with
    | none => exact nil_all _ _
    | some cset => exact seq_all _ _ _ (step_all _ _ _ rfl) (simpleset_script_nodes cset)

theorem data_script_nodes (module : ModulemdModule) :
    ∀ e ∈ (data_script module).events, e.is_node = true := by
  unfold data_script
  refine seq_all _ _ _ (step_all _ _ _ rfl) (seq_all _ _ _ ?_ (seq_all _ _ _ ?_
    (seq_all _ _ _ ?_ ?_)))
  · cases module.name with
    | none => exact nil_all _ _
    | some v => exact str_str_dict_nodes _ _ _
  · cases module.stream with
    | none => exact nil_all _ _
    | some v => exact str_str_dict_nodes _ _ _
  · split_ifs
    · exact str_str_dict_nodes _ _ _
    · exact nil_all _ _
  · cases module.summary with
    | none => exact nil_all _ _
    | some v =>
      refine seq_all _ _ _ (str_str_dict_nodes _ _ _) ?_
      cases module.description with
      | none => exact nil_all _ _
      | some d =>
        exact seq_all _ _ _ (str_str_dict_nodes _ _ _)
          (seq_all _ _ _ (licenses_script_nodes module) (step_all _ _ _ rfl))

theorem root_script_nodes (module : ModulemdModule) :
    ∀ e ∈ (root_script module).events, e.is_node = true := by
  unfold root_script
  exact seq_all _ _ _ (step_all _ _ _ rfl) (seq_all _ _ _ (str_str_dict_nodes _ _ _)
    (seq_all _ _ _ (str_str_dict_nodes _ _ _) (seq_all _ _ _ (step_all _ _ _ rfl)
      (seq_all _ _ _ (data_script_nodes module) (step_all _ _ _ rfl)))))

/-- The events planned for one document: one document-start, then nodes, then at most the
document-end. -/
theorem document_script_shape (module : ModulemdModule) :
    ∃ nodes tail, (document_script module).events = .document_start false :: nodes ++ tail ∧
      (∀ e ∈ nodes, e.is_node = true) ∧ (tail = [] ∨ tail = [.document_end false]) := by
  unfold document_script
  simp only [seq_events_eq, step_events, step_missing]
  cases h : (root_script module).missing with
  | none =>
    exact ⟨(root_script module).events, [.document_end false], by simp,
      root_script_nodes module, Or.inr rfl⟩
  | some m => exact ⟨(root_script module).events, [], by simp, root_script_nodes module, Or.inl rfl⟩

theorem document_script_count (module : ModulemdModule) :
    List.count (.document_start false) (document_script module).events = 1 := by
  obtain ⟨nodes, tail, hs, hn, ht⟩ := document_script_shape module
  have h0 : List.count (.document_start false) nodes = 0 :=
    List.count_eq_zero.2 (fun hmem => by have := hn _ hmem; cases this)
  rw [hs]
  rcases ht with rfl | rfl <;> simp [List.count_cons, List.count_append, h0]

theorem document_script_no_stream_end (module : ModulemdModule) :
    yaml_event_t.stream_end ∉ (document_script module).events := by
  obtain ⟨nodes, tail, hs, hn, ht⟩ := document_script_shape module
  rw [hs]
  intro hmem
  have hnode : yaml_event_t.stream_end ∉ nodes := fun hx => by have := hn _ hx; cases this
  rcases ht with rfl | rfl <;> simp [hnode] at hmem

/-- The events a failing run has emitted are a first part of the planned ones. -/
theorem run_error_prefix (Y : Libyaml) (c c1 : EmitCtx) (s : Script)
    (h : s.run Y c = .error c1) :
    ∃ done, c1.emitter.events = c.emitter.events ++ done ∧ done <+: s.events := by
  rcases run_error Y c c1 s h with ⟨pre, e, msg, post, hs, hv, -, -⟩ | ⟨msg, -, hv, -⟩
  · refine ⟨pre.map Prod.fst, hv, ?_⟩
    unfold Script.events
    rw [hs]
    simp
  · exact ⟨s.events, hv, List.prefix_refl _⟩

theorem key_paths_sequence_items (stack : List Frame) (items : List String)
    (es : List yaml_event_t) :
    key_paths (.sequence :: stack) (items.map plain ++ es)
      = key_paths (.sequence :: stack) es := by
  induction items with
  | nil => rfl
  | cons s items ih => simpa [plain, scalar_event, key_paths] using ih

/-- The mapping keys of the events of a document without optional fields. -/
theorem minimal_document_keys (mdversion summary description : String)
    (items : List String) :
    key_paths []
      ([.document_start false, .mapping_start true .YAML_BLOCK_MAPPING_STYLE,
        plain "document", plain "modulemd",
        plain "version", plain mdversion,
        plain "data", .mapping_start true .YAML_BLOCK_MAPPING_STYLE,
        plain "summary", plain summary,
        plain "description", scalar_event description .YAML_FOLDED_SCALAR_STYLE,
        plain "license", .mapping_start true .YAML_BLOCK_MAPPING_STYLE,
        plain "module", .sequence_start true .YAML_BLOCK_SEQUENCE_STYLE] ++
       items.map plain ++
       [.sequence_end, .mapping_end, .mapping_end, .mapping_end, .document_end false])
      = ["document", "version", "data", "data.summary", "data.description",
         "data.license", "data.license.module"] := by
  have hs := key_paths_sequence_items
    [.mapping ("" ++ "data" ++ "." ++ "license" ++ ".") none,
     .mapping ("" ++ "data" ++ ".") none, .mapping "" none] items
    [.sequence_end, .mapping_end, .mapping_end, .mapping_end, .document_end false]
  have hl : ([.document_start false, .mapping_start true .YAML_BLOCK_MAPPING_STYLE,
        plain "document", plain "modulemd",
        plain "version", plain mdversion,
        plain "data", .mapping_start true .YAML_BLOCK_MAPPING_STYLE,
        plain "summary", plain summary,
        plain "description", scalar_event description .YAML_FOLDED_SCALAR_STYLE,
        plain "license", .mapping_start true .YAML_BLOCK_MAPPING_STYLE,
        plain "module", .sequence_start true .YAML_BLOCK_SEQUENCE_STYLE] ++
       items.map plain ++
       [.sequence_end, .mapping_end, .mapping_end, .mapping_end, .document_end false])
      = .document_start false :: .mapping_start true .YAML_BLOCK_MAPPING_STYLE ::
        .scalar "document" true true .YAML_PLAIN_SCALAR_STYLE ::
        .scalar "modulemd" true true .YAML_PLAIN_SCALAR_STYLE ::
        .scalar "version" true true .YAML_PLAIN_SCALAR_STYLE ::
        .scalar mdversion true true .YAML_PLAIN_SCALAR_STYLE ::
        .scalar "data" true true .YAML_PLAIN_SCALAR_STYLE ::
        .mapping_start true .YAML_BLOCK_MAPPING_STYLE ::
        .scalar "summary" true true .YAML_PLAIN_SCALAR_STYLE ::
        .scalar summary true true .YAML_PLAIN_SCALAR_STYLE ::
        .scalar "description" true true .YAML_PLAIN_SCALAR_STYLE ::
        .scalar description true true .YAML_FOLDED_SCALAR_STYLE ::
        .scalar "license" true true .YAML_PLAIN_SCALAR_STYLE ::
        .mapping_start true .YAML_BLOCK_MAPPING_STYLE ::
        .scalar "module" true true .YAML_PLAIN_SCALAR_STYLE ::
        .sequence_start true .YAML_BLOCK_SEQUENCE_STYLE ::
        (items.map plain ++
          [.sequence_end, .mapping_end, .mapping_end, .mapping_end, .document_end false]) :=
    rfl
  rw [hl]
  simp only [key_paths]
  rw [hs]
  simp only [key_paths, List.tail_cons]
  decide

/-- With a sink that accepts every event, a script that stops on a missing field fails
there: every planned event was accepted and the error is set with the message of the
field. -/
theorem run_accepting_missing (Y : Libyaml) (hY : ∀ evs e, Y.accept evs e = true)
    (c : EmitCtx) (s : Script) (msg : String) (hs : s.missing = some msg) :
    ∃ c1, s.run Y c = .error c1 ∧
      c1.error = g_set_error_literal c.error .MODULEMD_YAML_ERROR_EMIT msg ∧
      c1.emitter.events = c.emitter.events ++ s.events := by
  cases h : s.run Y c with
  | ok c1 =>
    have := (run_ok Y c c1 s h).1
    rw [hs] at this
    cases this
  | error c1 =>
    rcases run_error Y c c1 s h with ⟨_, _, _, _, _, _, hacc, _⟩ | ⟨msg2, hm, hv, he⟩
    · rw [hY] at hacc; cases hacc
    · rw [hs] at hm
      cases hm
      exact ⟨c1, rfl, he, hv⟩

/-- With a sink that accepts every event, `emit_yaml_string` returns TRUE exactly when the
script of the batch does not stop on a missing field. -/
theorem emit_yaml_string_accepting (Y : Libyaml) (hY : ∀ evs e, Y.accept evs e = true)
    (modules : List ModulemdModule) (_yaml : Option (List Char)) (error : GErrorArg)
    (h : ∀ e, error ≠ .loc (some e)) :
    (emit_yaml_string Y modules _yaml error).emitter.events = (stream_script modules).events ∧
    (emit_yaml_string Y modules _yaml error).ret
      = decide ((stream_script modules).missing = none) ∧
    (emit_yaml_string Y modules _yaml error).error =
      (match (stream_script modules).missing with
       | none => error
       | some msg => g_set_error_literal error .MODULEMD_YAML_ERROR_EMIT msg) := by
  rw [emit_yaml_string_runs_script Y modules _yaml error h]
  cases hm : (stream_script modules).missing with
  | none =>
    obtain ⟨c1, hr, he, hv⟩ := run_accepting Y hY
      { emitter := string_emitter, error := error } (stream_script modules) hm
    rw [hr]
    exact ⟨by simpa [string_emitter] using hv, by simp, he⟩
  | some msg =>
    obtain ⟨c1, hr, he, hv⟩ := run_accepting_missing Y hY
      { emitter := string_emitter, error := error } (stream_script modules) msg hm
    rw [hr]
    exact ⟨by simpa [string_emitter] using hv, by simp, he⟩

/-- The same for `emit_yaml_file` once the file is open. -/
theorem emit_yaml_file_accepting (Y : Libyaml) (hY : ∀ evs e, Y.accept evs e = true)
    (g_fopen : String → Except String FILE) (modules : List ModulemdModule) (path : String)
    (error : GErrorArg) (h : ∀ e, error ≠ .loc (some e)) (yaml_file : FILE)
    (ho : g_fopen path = .ok yaml_file) :
    (emit_yaml_file Y g_fopen modules path error).emitter.events
      = (stream_script modules).events ∧
    (emit_yaml_file Y g_fopen modules path error).ret
      = decide ((stream_script modules).missing = none) ∧
    (emit_yaml_file Y g_fopen modules path error).error =
      (match (stream_script modules).missing with
       | none => error
       | some msg => g_set_error_literal error .MODULEMD_YAML_ERROR_EMIT msg) := by
  rw [emit_yaml_file_runs_script Y g_fopen modules path error h yaml_file ho]
  cases hm : (stream_script modules).missing with
  | none =>
    obtain ⟨c1, hr, he, hv⟩ := run_accepting Y hY
      { emitter := file_emitter yaml_file, error := error } (stream_script modules) hm
    rw [hr]
    exact ⟨by simpa [file_emitter] using hv, by simp, he⟩
  | some msg =>
    obtain ⟨c1, hr, he, hv⟩ := run_accepting_missing Y hY
      { emitter := file_emitter yaml_file, error := error } (stream_script modules) msg hm
    rw [hr]
    exact ⟨by simpa [file_emitter] using hv, by simp, he⟩

theorem licenses_script_message (module : ModulemdModule) :
    (licenses_script module).missing =
      (if module.module_licenses = none then
         some "Missing required option data.license.module"
       else none) := by
  unfold licenses_script
  cases h1 : module.module_licenses <;> cases h2 : module.content_licenses <;>
    simp [seq_missing, Script.step, simpleset_script]

theorem data_script_message (module : ModulemdModule) :
    (data_script module).missing = first_missing module := by
  unfold data_script first_missing
  have hl := licenses_script_message module
  cases h1 : module.name <;> cases h2 : module.stream <;>
    by_cases h3 : module.version = 0 <;>
    cases h4 : module.summary <;> cases h5 : module.description <;>
    cases h6 : module.module_licenses <;>
    simp_all [seq_missing, Script.step, str_str_dict_script]

theorem document_script_message (module : ModulemdModule) :
    (document_script module).missing = first_missing module := by
  rw [← data_script_message]
  unfold document_script root_script
  cases h : (data_script module).missing <;>
    simp [seq_missing, Script.step, str_str_dict_script, h]

theorem stream_script_message (modules : List ModulemdModule) :
    (stream_script modules).missing = modules.findSome? first_missing := by
  have hd : (documents_script modules).missing = modules.findSome? first_missing := by
    induction modules with
    | nil => rfl
    | cons m ms ih =>
      have hm := document_script_message m
      cases h : first_missing m with
      | none =>
        rw [h] at hm
        simp [documents_script, seq_missing, hm, ih, List.findSome?_cons, h]
      | some msg =>
        rw [h] at hm
        simp [documents_script, seq_missing, hm, List.findSome?_cons, h]
  rw [← hd]
  unfold stream_script
  cases h : (documents_script modules).missing <;> simp [seq_missing, Script.step, h]

theorem first_missing_none (module : ModulemdModule) :
    first_missing module = none ↔ module.complete := by
  unfold first_missing ModulemdModule.complete
  cases module.summary <;> cases module.description <;> cases module.module_licenses <;>
    simp

/-- In a batch whose first incomplete document is `module`, the first message found is the
message of `module`. -/
theorem findSome_first_missing (before after : List ModulemdModule) (module : ModulemdModule)
    (hb : ∀ m ∈ before, m.complete) :
    (before ++ module :: after).findSome? first_missing
      = (match first_missing module with
         | some msg => some msg
         | none => after.findSome? first_missing) := by
  induction before with
  | nil =>
    cases h : first_missing module <;> simp [List.findSome?_cons, h]
  | cons m ms ih =>
    have hm : first_missing m = none := (first_missing_none m).2 (hb m (by simp))
    have e : (m :: ms) ++ module :: after = m :: (ms ++ module :: after) := rfl
    rw [e, List.findSome?_cons, hm]
    exact ih (fun x hx => hb x (by simp [hx]))

/-! ## The planned events are well nested -/

theorem nested_pair (stack : List Nesting) (name value : String)
    (style : yaml_scalar_style_t) (es : List yaml_event_t) :
    nested (.mapping false :: stack) (pair name value style ++ es)
      = nested (.mapping false :: stack) es := rfl

theorem nested_optional_pair (stack : List Nesting) (name : String) (value : Option String)
    (es : List yaml_event_t) :
    nested (.mapping false :: stack) (optional_pair name value ++ es)
      = nested (.mapping false :: stack) es := by
  cases value <;> rfl

theorem nested_items (stack : List Nesting) (items : List String) (es : List yaml_event_t) :
    nested (.sequence :: stack) (items.map plain ++ es) = nested (.sequence :: stack) es := by
  induction items with
  | nil => rfl
  | cons a l ih => exact ih

theorem nested_simpleset (stack : List Nesting) (set : ModulemdSimpleSet)
    (es : List yaml_event_t) :
    nested (.mapping true :: stack) (simpleset_events set ++ es)
      = nested (.mapping false :: stack) es := by
  unfold simpleset_events
  simp only [List.append_assoc, List.cons_append, List.nil_append]
  show nested (.sequence :: .mapping false :: stack) _ = _
  rw [nested_items]
  rfl

theorem nested_license_block (stack : List Nesting) (set : ModulemdSimpleSet)
    (content : Option ModulemdSimpleSet) (es : List yaml_event_t) :
    nested (.mapping false :: stack) (license_block_events set content ++ es)
      = nested (.mapping false :: stack) es := by
  unfold license_block_events
  simp only [List.append_assoc, List.cons_append, List.nil_append]
  show nested (.mapping true :: .mapping false :: stack) _ = _
  rw [nested_simpleset]
  cases content with
  | none => rfl
  | some c =>
    show nested (.mapping true :: .mapping false :: stack) (simpleset_events c ++ _) = _
    rw [nested_simpleset]
    rfl

/-- The events planned for a document with its mandatory fields open and close one
document in a stream. -/
theorem nested_document (module : ModulemdModule) (hc : module.complete)
    (es : List yaml_event_t) :
    nested [.stream] ((document_script module).events ++ es) = nested [.stream] es := by
  obtain ⟨h1, h2, h3⟩ := hc
  obtain ⟨summary, h1⟩ := Option.ne_none_iff_exists'.1 h1
  obtain ⟨description, h2⟩ := Option.ne_none_iff_exists'.1 h2
  obtain ⟨set, h3⟩ := Option.ne_none_iff_exists'.1 h3
  rw [document_script_events module summary description set h1 h2 h3]
  simp only [List.append_assoc, List.cons_append, List.nil_append]
  show nested [.mapping false, .document true, .stream] _ = _
  rw [nested_pair, nested_pair]
  show nested [.mapping false, .mapping false, .document true, .stream] _ = _
  rw [nested_optional_pair, nested_optional_pair]
  have hv : ∀ rest : List yaml_event_t,
      nested [.mapping false, .mapping false, .document true, .stream]
        ((if module.version ≠ 0 then
            pair "version" (g_strdup_printf_llu module.version) .YAML_PLAIN_SCALAR_STYLE
          else []) ++ rest)
        = nested [.mapping false, .mapping false, .document true, .stream] rest := by
    intro rest
    by_cases h : module.version = 0
    · simp [h]
    · simp only [ne_eq, h, not_false_eq_true, if_true]
      rw [nested_pair]
  rw [hv, nested_pair, nested_pair, nested_license_block]
  rfl

theorem nested_documents (modules : List ModulemdModule)
    (hc : ∀ module ∈ modules, module.complete) (es : List yaml_event_t) :
    nested [.stream] ((documents_script modules).events ++ es) = nested [.stream] es := by
  rw [documents_script_events modules hc]
  induction modules with
  | nil => rfl
  | cons m ms ih =>
    rw [List.flatMap_cons, List.append_assoc, nested_document m (hc m (by simp))]
    exact ih (fun x hx => hc x (by simp [hx]))

/-- The events planned for a batch of documents with their mandatory fields are a balanced
event sequence. -/
theorem stream_script_well_nested (modules : List ModulemdModule)
    (hc : ∀ module ∈ modules, module.complete) :
    well_nested (stream_script modules).events = true := by
  have hd := (documents_script_missing modules).2 hc
  have e : (stream_script modules).events
      = .stream_start .YAML_UTF8_ENCODING ::
          ((documents_script modules).events ++ [.stream_end]) := by
    unfold stream_script
    simp [seq_events_eq, seq_missing, step_events, step_missing, hd]
  rw [e]
  show nested [.stream] ((documents_script modules).events ++ [.stream_end]) = true
  rw [nested_documents modules hc]
  rfl

/-- A script that ran to its end from an emitter without events left a balanced event
sequence, when it is the script of a batch. -/
theorem run_well_nested (Y : Libyaml) (modules : List ModulemdModule) (c c1 : EmitCtx)
    (hc : c.emitter.events = []) (h : (stream_script modules).run Y c = .ok c1) :
    well_nested c1.emitter.events = true := by
  obtain ⟨hm, -, hv⟩ := run_ok Y c c1 (stream_script modules) h
  rw [hv, hc, List.nil_append]
  exact stream_script_well_nested modules ((stream_script_missing modules).1 hm)

/-! ## The output of the emitter -/

theorem delivered_append (Y : Libyaml) (accepted events : List yaml_event_t)
    (e : yaml_event_t) :
    delivered Y accepted (events ++ [e])
      = delivered Y accepted events ++ Y.chunks (accepted ++ events) e := by
  induction events generalizing accepted with
  | nil => simp [delivered]
  | cons a l ih => simp [delivered, ih]

theorem emit_fed (Y : Libyaml) (out : yaml_output_t) (c : EmitCtx) (e : yaml_event_t)
    (msg : String) (h : c.emitter.fed Y out) :
    ∀ c1, (YAML_EMITTER_EMIT_WITH_ERROR_RETURN Y c e msg = .ok c1 ∨
           YAML_EMITTER_EMIT_WITH_ERROR_RETURN Y c e msg = .error c1) →
      c1.emitter.fed Y out := by
  intro c1 h1
  unfold YAML_EMITTER_EMIT_WITH_ERROR_RETURN yaml_emitter_emit at h1
  by_cases ha : Y.accept c.emitter.events e = true
  · simp only [ha, if_true] at h1
    rcases h1 with h1 | h1
    · cases h1
      unfold yaml_emitter_t.fed at h ⊢
      simp only [delivered_append, List.nil_append, List.foldl_append, h]
    · cases h1
  · simp only [ha] at h1
    rcases h1 with h1 | h1
    · cases h1
    · cases h1
      exact h

theorem emit_steps_fed (Y : Libyaml) (out : yaml_output_t) (c : EmitCtx)
    (steps : List (yaml_event_t × String)) (h : c.emitter.fed Y out) :
    ∀ c1, (emit_steps Y c steps = .ok c1 ∨ emit_steps Y c steps = .error c1) →
      c1.emitter.fed Y out := by
  induction steps generalizing c with
  | nil =>
    intro c1 h1
    rcases h1 with h1 | h1
    · cases h1; exact h
    · cases h1
  | cons a l ih =>
    obtain ⟨e, msg⟩ := a
    intro c1 h1
    rw [emit_steps_cons, bind_eq_match] at h1
    cases h2 : YAML_EMITTER_EMIT_WITH_ERROR_RETURN Y c e msg with
    | error c2 =>
      rw [h2] at h1
      rcases h1 with h1 | h1
      · cases h1
      · cases h1
        exact emit_fed Y out c e msg h _ (Or.inr h2)
    | ok c2 =>
      rw [h2] at h1
      exact ih c2 (emit_fed Y out c e msg h _ (Or.inl h2)) c1 h1

theorem run_fed (Y : Libyaml) (out : yaml_output_t) (c : EmitCtx) (s : Script)
    (h : c.emitter.fed Y out) :
    ∀ c1, (s.run Y c = .ok c1 ∨ s.run Y c = .error c1) → c1.emitter.fed Y out := by
  intro c1 h1
  unfold Script.run at h1
  cases h2 : emit_steps Y c s.steps with
  | error c2 =>
    rw [h2] at h1
    rcases h1 with h1 | h1
    · cases h1
    · cases h1
      exact emit_steps_fed Y out c s.steps h _ (Or.inr h2)
  | ok c2 =>
    rw [h2] at h1
    have h3 := emit_steps_fed Y out c s.steps h _ (Or.inl h2)
    cases hm : s.missing with
    | none =>
      rw [hm] at h1
      rcases h1 with h1 | h1
      · cases h1; exact h3
      · cases h1
    | some msg =>
      rw [hm] at h1
      unfold MMD_YAML_EMITTER_ERROR_RETURN at h1
      rcases h1 with h1 | h1
      · cases h1
      · cases h1
        exact h3

theorem write_string_output (data : modulemd_yaml_string) (chunks : List (List Char)) :
    chunks.foldl yaml_output_t.write (.string data) = .string (write_chunks data chunks) := by
  induction chunks generalizing data with
  | nil => rfl
  | cons b l ih =>
    simp only [List.foldl_cons, yaml_output_t.write, write_chunks]
    rw [ih]
    rfl

theorem write_file_output (f : FILE) (chunks : List (List Char)) :
    chunks.foldl yaml_output_t.write (.file f)
      = .file { path := f.path, contents := f.contents ++ chunks.flatten } := by
  induction chunks generalizing f with
  | nil => simp
  | cons b l ih =>
    simp only [List.foldl_cons, yaml_output_t.write]
    rw [ih]
    simp

theorem write_chunks_some (content : List Char) (chunks : List (List Char)) :
    write_chunks { str := some (content ++ ['\x00']), len := content.length } chunks
      = { str := some (content ++ chunks.flatten ++ ['\x00']),
          len := content.length + (chunks.map List.length).sum } := by
  induction chunks generalizing content with
  | nil => simp [write_chunks]
  | cons b l ih =>
    have e : write_chunks { str := some (content ++ ['\x00']), len := content.length } (b :: l)
        = write_chunks { str := some ((content ++ b) ++ ['\x00']),
                         len := (content ++ b).length } l := by
      simp [write_chunks, _write_string]
    rw [e, ih]
    simp [Nat.add_assoc]

theorem write_chunks_cons (b : List Char) (chunks : List (List Char)) :
    write_chunks { str := none, len := 0 } (b :: chunks)
      = { str := some ((b :: chunks).flatten ++ ['\x00']),
          len := ((b :: chunks).map List.length).sum } := by
  have e : write_chunks { str := none, len := 0 } (b :: chunks)
      = write_chunks { str := some (b ++ ['\x00']), len := b.length } chunks := by
    simp [write_chunks, _write_string]
  rw [e, write_chunks_some]
  simp

/-- Whatever the outcome, the block of `emit_yaml_string` holds what `_write_string` made
of the buffers of the accepted events. -/
theorem emit_yaml_string_fed (Y : Libyaml) (modules : List ModulemdModule)
    (_yaml : Option (List Char)) (error : GErrorArg) (h : ∀ e, error ≠ .loc (some e)) :
    (emit_yaml_string Y modules _yaml error).emitter.output =
      .string (write_chunks { str := none, len := 0 }
        (delivered Y [] (emit_yaml_string Y modules _yaml error).emitter.events)) := by
  have h0 : string_emitter.fed Y (.string { str := none, len := 0 }) := rfl
  have hf := run_fed Y (.string { str := none, len := 0 })
    { emitter := string_emitter, error := error } (stream_script modules) h0
  rw [emit_yaml_string_runs_script Y modules _yaml error h]
  cases hr : (stream_script modules).run Y { emitter := string_emitter, error := error } with
  | ok c =>
    have h1 := hf c (Or.inl hr)
    unfold yaml_emitter_t.fed at h1
    rw [write_string_output] at h1
    exact h1
  | error c =>
    have h1 := hf c (Or.inr hr)
    unfold yaml_emitter_t.fed at h1
    rw [write_string_output] at h1
    exact h1

/-- Whatever the outcome once the file is open, the one `fclose` of `emit_yaml_file` is on
the opened file, which holds the buffers of the accepted events. -/
theorem emit_yaml_file_fed (Y : Libyaml) (g_fopen : String → Except String FILE)
    (modules : List ModulemdModule) (path : String) (error : GErrorArg)
    (h : ∀ e, error ≠ .loc (some e)) (yaml_file : FILE) (ho : g_fopen path = .ok yaml_file) :
    (emit_yaml_file Y g_fopen modules path error).fclose =
      [some { path := yaml_file.path,
              contents := yaml_file.contents ++
                (delivered Y []
                  (emit_yaml_file Y g_fopen modules path error).emitter.events).flatten }] := by
  have h0 : (file_emitter yaml_file).fed Y (.file yaml_file) := rfl
  have hf := run_fed Y (.file yaml_file)
    { emitter := file_emitter yaml_file, error := error } (stream_script modules) h0
  rw [emit_yaml_file_runs_script Y g_fopen modules path error h yaml_file ho]
  cases hr : (stream_script modules).run Y
      { emitter := file_emitter yaml_file, error := error } with
  | ok c =>
    have h1 := hf c (Or.inl hr)
    unfold yaml_emitter_t.fed at h1
    rw [write_file_output] at h1
    simp only [yaml_emitter_t.file, h1]
  | error c =>
    have h1 := hf c (Or.inr hr)
    unfold yaml_emitter_t.fed at h1
    rw [write_file_output] at h1
    simp only [yaml_emitter_t.file, h1]

/-! ## Facts about the heap operations -/

theorem mem_simpleset_add (s : ModulemdSimpleSet) (value x : String) :
    x ∈ modulemd_simpleset_add s value ↔ x = value ∨ x ∈ s :=
  mem_insertStr value x s.strv

theorem mem_foldl_simpleset_add (streams : List String) (s : ModulemdSimpleSet) (x : String) :
    x ∈ streams.foldl modulemd_simpleset_add s ↔ x ∈ s ∨ x ∈ streams := by
  induction streams generalizing s with
  | nil => simp
  | cons a l ih =>
    rw [List.foldl_cons, ih, mem_simpleset_add]
    simp only [List.mem_cons]
    tauto

theorem lookup_replace_self (table : GHashTable) (key : String) (value : Address) :
    g_hash_table_lookup (GHashTable.replace table key value) key = some value := by
  unfold g_hash_table_lookup GHashTable.replace
  rw [List.find?_append]
  have : (table.filter (fun e => decide (e.1 ≠ key))).find? (fun e => decide (e.1 = key))
      = none := by
    rw [List.find?_eq_none]
    intro e he
    have := (List.mem_filter.1 he).2
    simpa using this
  simp [this]

theorem lookup_replace_other (table : GHashTable) (key other : String) (value : Address)
    (hne : other ≠ key) :
    g_hash_table_lookup (GHashTable.replace table key value) other
      = g_hash_table_lookup table other := by
  unfold g_hash_table_lookup GHashTable.replace
  rw [List.find?_append]
  have h1 : (table.filter (fun e => decide (e.1 ≠ key))).find? (fun e => decide (e.1 = other))
      = table.find? (fun e => decide (e.1 = other)) := by
    rw [List.find?_filter]
    congr 1
    funext e
    by_cases ho : e.1 = other
    · simp [ho, hne]
    · simp [ho]
  rw [h1]
  cases hf : table.find? (fun e => decide (e.1 = other)) with
  | some e => simp
  | none => simp [List.find?_cons, Ne.symm hne]

theorem add_streams_loop_hashtables (h : Heap) (p : Address) (streams : List String) :
    (add_streams_loop h p streams).hashtables = h.hashtables := by
  induction streams generalizing h with
  | nil => rfl
  | cons s l ih => rw [add_streams_loop, ih]; rfl

theorem add_streams_loop_next (h : Heap) (p : Address) (streams : List String) :
    (add_streams_loop h p streams).next = h.next := by
  induction streams generalizing h with
  | nil => rfl
  | cons s l ih => rw [add_streams_loop, ih]; rfl

theorem add_streams_loop_self (h : Heap) (p : Address) (streams : List String) :
    (add_streams_loop h p streams).simpleset p
      = streams.foldl modulemd_simpleset_add (h.simpleset p) := by
  induction streams generalizing h with
  | nil => rfl
  | cons s l ih =>
    rw [add_streams_loop, ih, List.foldl_cons]
    simp [Heap.modulemd_simpleset_add, Heap.simpleset]

theorem add_streams_loop_other (h : Heap) (p q : Address) (streams : List String)
    (hq : q ≠ p) :
    (add_streams_loop h p streams).simplesets q = h.simplesets q := by
  induction streams generalizing h with
  | nil => rfl
  | cons s l ih =>
    rw [add_streams_loop, ih]
    simp [Heap.modulemd_simpleset_add, Function.update_noteq hq]

/-- The set stored for the module after `_modulemd_dependencies_add_streams`: the set
stored before, or the empty set, with the streams added. -/
theorem stored_add_streams (h : Heap) (reqs : Address) (module : String)
    (streams : List String) :
    (_modulemd_dependencies_add_streams h reqs module streams).stored reqs module
      = some (streams.foldl modulemd_simpleset_add
          ((h.stored reqs module).getD modulemd_simpleset_new)) := by
  unfold _modulemd_dependencies_add_streams Heap.stored
  cases hl : g_hash_table_lookup (h.table reqs) module with
  | none =>
    simp only [Heap.g_hash_table_replace, Heap.table, Function.update_same, Option.getD_some,
      lookup_replace_self, Option.map_some', Option.map_none', Option.getD_none]
    congr 1
    have := add_streams_loop_self h.modulemd_simpleset_new.2 h.modulemd_simpleset_new.1 streams
    simp only [Heap.simpleset] at this ⊢
    rw [this]
    simp [Heap.modulemd_simpleset_new]
  | some p =>
    simp only [Heap.g_hash_table_replace, Heap.table, Function.update_same, Option.getD_some,
      lookup_replace_self, Option.map_some']
    congr 1
    have := add_streams_loop_self h p streams
    simp only [Heap.simpleset] at this ⊢
    rw [this]

theorem mem_replace (table : GHashTable) (key : String) (value : Address)
    (e : String × Address) (he : e ∈ GHashTable.replace table key value) :
    e ∈ table ∨ e = (key, value) := by
  unfold GHashTable.replace at he
  rcases List.mem_append.1 he with h | h
  · exact Or.inl (List.mem_filter.1 h).1
  · exact Or.inr (List.mem_singleton.1 h)

theorem lookup_mem (table : GHashTable) (key : String) (p : Address)
    (h : g_hash_table_lookup table key = some p) : (key, p) ∈ table := by
  unfold g_hash_table_lookup at h
  cases hf : table.find? (fun e => decide (e.1 = key)) with
  | none => rw [hf] at h; cases h
  | some e =>
    rw [hf] at h
    have hp := List.find?_some hf
    have hm := List.mem_of_find?_eq_some hf
    simp only [Option.map_some', Option.some.injEq] at h
    simp only [decide_eq_true_eq] at hp
    rw [← hp, ← h]
    exact hm

theorem add_streams_frame (h h' : Heap) (reqs : Address) (module : String)
    (streams : List String)
    (hh : h' = _modulemd_dependencies_add_streams h reqs module streams) :
    (∀ t, t ≠ reqs → h'.hashtables t = h.hashtables t) ∧
    h.next ≤ h'.next ∧
    ∃ p, ((module, p) ∈ h.table reqs ∨ p = h.next) ∧
      (∀ q, q ≠ p → h'.simplesets q = h.simplesets q) ∧
      (∀ e ∈ h'.table reqs, e ∈ h.table reqs ∨ e.2 = p) := by
  cases hl : g_hash_table_lookup (h.table reqs) module with
  | none =>
    have e' : h' = (add_streams_loop h.modulemd_simpleset_new.2 h.next
        streams).g_hash_table_replace reqs module h.next := by
      rw [hh]
      unfold _modulemd_dependencies_add_streams
      rw [hl]
      rfl
    refine ⟨?_, ?_, h.next, Or.inr rfl, ?_, ?_⟩
    · intro t ht
      rw [e']
      simp [Heap.g_hash_table_replace, Function.update_noteq ht,
        add_streams_loop_hashtables, Heap.modulemd_simpleset_new]
    · rw [e']
      simp [Heap.g_hash_table_replace, add_streams_loop_next, Heap.modulemd_simpleset_new]
    · intro q hq
      rw [e']
      simp only [Heap.g_hash_table_replace]
      rw [add_streams_loop_other _ _ _ _ hq]
      simp [Heap.modulemd_simpleset_new, Function.update_noteq hq]
    · intro e he
      rw [e'] at he
      simp only [Heap.g_hash_table_replace, Heap.table, Function.update_same,
        Option.getD_some, add_streams_loop_hashtables] at he
      rcases mem_replace _ _ _ _ he with h1 | h1
      · exact Or.inl (by simpa [Heap.table, Heap.modulemd_simpleset_new] using h1)
      · exact Or.inr (by rw [h1])
  | some p =>
    have e' : h' = (add_streams_loop h p streams).g_hash_table_replace reqs module p := by
      rw [hh]
      unfold _modulemd_dependencies_add_streams
      rw [hl]
    refine ⟨?_, ?_, p, Or.inl (lookup_mem _ _ _ hl), ?_, ?_⟩
    · intro t ht
      rw [e']
      simp [Heap.g_hash_table_replace, Function.update_noteq ht, add_streams_loop_hashtables]
    · rw [e']
      simp [Heap.g_hash_table_replace, add_streams_loop_next]
    · intro q hq
      rw [e']
      simp only [Heap.g_hash_table_replace]
      rw [add_streams_loop_other _ _ _ _ hq]
    · intro e he
      rw [e'] at he
      simp only [Heap.g_hash_table_replace, Heap.table, Function.update_same,
        Option.getD_some, add_streams_loop_hashtables] at he
      rcases mem_replace _ _ _ _ he with h1 | h1
      · exact Or.inl h1
      · exact Or.inr (by rw [h1])

theorem set_requires_loop_cons (h : Heap) (table : Address) (key : String) (value : Address)
    (l : GHashTable) :
    set_requires_loop h table ((key, value) :: l)
      = set_requires_loop ((h.modulemd_simpleset_copy value).2.g_hash_table_replace table key
          (h.modulemd_simpleset_copy value).1) table l := rfl

theorem set_requires_loop_frame (h : Heap) (table : Address) (entries : GHashTable) :
    (∀ t, t ≠ table → (set_requires_loop h table entries).hashtables t = h.hashtables t) ∧
    h.next ≤ (set_requires_loop h table entries).next ∧
    (∀ q, q < h.next → (set_requires_loop h table entries).simplesets q = h.simplesets q) ∧
    (∀ e ∈ (set_requires_loop h table entries).table table,
      e ∈ h.table table ∨
        (h.next ≤ e.2 ∧ e.2 < (set_requires_loop h table entries).next)) := by
  induction entries generalizing h with
  | nil => exact ⟨fun _ _ => rfl, le_refl _, fun _ _ => rfl, fun e he => Or.inl he⟩
  | cons a l ih =>
    obtain ⟨key, value⟩ := a
    rw [set_requires_loop_cons]
    generalize hg : (h.modulemd_simpleset_copy value).2.g_hash_table_replace table key
      (h.modulemd_simpleset_copy value).1 = g
    have hn : g.next = h.next + 1 := by rw [← hg]; rfl
    have ht : ∀ t, t ≠ table → g.hashtables t = h.hashtables t := by
      intro t ht
      rw [← hg]
      simp [Heap.g_hash_table_replace, Heap.modulemd_simpleset_copy,
        Function.update_noteq ht]
    have hq : ∀ q, q < h.next → g.simplesets q = h.simplesets q := by
      intro q hq
      have : q ≠ h.next := Nat.ne_of_lt hq
      rw [← hg]
      simp [Heap.g_hash_table_replace, Heap.modulemd_simpleset_copy,
        Function.update_noteq this]
    have he : ∀ e ∈ g.table table, e ∈ h.table table ∨ e.2 = h.next := by
      intro e he
      rw [← hg] at he
      simp only [Heap.g_hash_table_replace, Heap.table, Function.update_same,
        Option.getD_some] at he
      rcases mem_replace _ _ _ _ he with h3 | h3
      · exact Or.inl (by simpa [Heap.table, Heap.modulemd_simpleset_copy] using h3)
      · exact Or.inr (by rw [h3]; rfl)
    obtain ⟨i1, i2, i3, i4⟩ := ih g
    refine ⟨fun t h1 => (i1 t h1).trans (ht t h1), by simp only [Address] at *; omega,
      fun q h1 => (i3 q (by simp only [Address] at *; omega)).trans (hq q h1), ?_⟩
    intro e hmem
    rcases i4 e hmem with h1 | ⟨h1, h2⟩
    · rcases he e h1 with h3 | h3
      · exact Or.inl h3
      · exact Or.inr ⟨by simp only [Address] at *; omega, by simp only [Address] at *; omega⟩
    · exact Or.inr ⟨by simp only [Address] at *; omega, h2⟩

/-- The frame of `modulemd_dependencies_set_buildrequires` and
`modulemd_dependencies_set_requires`, which differ only in the table `table` of `self`
they fill: other tables and the allocated sets are untouched and the table points to
new sets only. -/
theorem set_table_frame (h h' : Heap) (table : Address) (source : Option Address)
    (hh : h' = (match source with
      | some source =>
        set_requires_loop (h.g_hash_table_remove_all table) table
          ((h.g_hash_table_remove_all table).table source)
      | none => h.g_hash_table_remove_all table)) :
    (∀ t, t ≠ table → h'.hashtables t = h.hashtables t) ∧
    h.next ≤ h'.next ∧
    (∀ q, q < h.next → h'.simplesets q = h.simplesets q) ∧
    (∀ e ∈ h'.table table, h.next ≤ e.2 ∧ e.2 < h'.next) := by
  subst hh
  have h0 : ∀ t, t ≠ table →
      (h.g_hash_table_remove_all table).hashtables t = h.hashtables t := by
    intro t ht
    simp [Heap.g_hash_table_remove_all, Function.update_noteq ht]
  have h1 : (h.g_hash_table_remove_all table).table table = [] := by
    simp [Heap.g_hash_table_remove_all, Heap.table]
  cases source with
  | none =>
    refine ⟨h0, le_refl _, fun _ _ => rfl, ?_⟩
    intro e he
    rw [h1] at he
    cases he
  | some source =>
    obtain ⟨i1, i2, i3, i4⟩ := set_requires_loop_frame (h.g_hash_table_remove_all table)
      table ((h.g_hash_table_remove_all table).table source)
    refine ⟨fun t ht => (i1 t ht).trans (h0 t ht), i2, i3, ?_⟩
    intro e he
    rcases i4 e he with h2 | h2
    · rw [h1] at h2; cases h2
    · exact h2

theorem table_eq_of_hashtables (h h' : Heap) (t : Address)
    (e : h'.hashtables t = h.hashtables t) : h'.table t = h.table t := by
  unfold Heap.table
  rw [e]

theorem safe_add_streams (h1 h : Heap) (D S R : List Address) (hs : Safe h1 D S R h)
    (reqs : Address) (hS : reqs ∈ S) (hD : ∀ t ∈ D, t ≠ reqs) (module : String)
    (streams : List String) :
    Safe h1 D S R (_modulemd_dependencies_add_streams h reqs module streams) := by
  obtain ⟨s1, s2, s3⟩ := hs
  obtain ⟨f1, f2, p, hp, f3, f4⟩ := add_streams_frame h _ reqs module streams rfl
  have hpR : p ∉ R := by
    intro hmem
    rcases hp with hp | hp
    · exact s3 reqs hS _ hp hmem
    · exact absurd (s2 p hmem).2 (by rw [hp]; exact lt_irrefl _)
  refine ⟨?_, ?_, ?_⟩
  · intro t ht
    rw [f1 t (hD t ht), s1 t ht]
  · intro q hq
    have hne : q ≠ p := fun e => hpR (e ▸ hq)
    exact ⟨(f3 q hne).trans (s2 q hq).1, lt_of_lt_of_le (s2 q hq).2 f2⟩
  · intro t ht e he
    by_cases htr : t = reqs
    · subst htr
      rcases f4 e he with h2 | h2
      · exact s3 t hS e h2
      · rw [h2]; exact hpR
    · rw [table_eq_of_hashtables _ _ t (f1 t htr)] at he
      exact s3 t ht e he

theorem safe_set_table (h1 h h' : Heap) (D S R : List Address) (hs : Safe h1 D S R h)
    (table : Address) (hD : ∀ t ∈ D, t ≠ table) (source : Option Address)
    (hh : h' = (match source with
      | some source =>
        set_requires_loop (h.g_hash_table_remove_all table) table
          ((h.g_hash_table_remove_all table).table source)
      | none => h.g_hash_table_remove_all table)) :
    Safe h1 D S R h' := by
  obtain ⟨s1, s2, s3⟩ := hs
  obtain ⟨f1, f2, f3, f4⟩ := set_table_frame h h' table source hh
  refine ⟨?_, ?_, ?_⟩
  · intro t ht
    rw [f1 t (hD t ht), s1 t ht]
  · intro q hq
    exact ⟨(f3 q (s2 q hq).2).trans (s2 q hq).1, lt_of_lt_of_le (s2 q hq).2 f2⟩
  · intro t ht e he
    by_cases htr : t = table
    · subst htr
      intro hmem
      exact absurd (s2 _ hmem).2 (not_lt.2 (f4 e he).1)
    · rw [table_eq_of_hashtables _ _ t (f1 t htr)] at he
      exact s3 t ht e he

/-- A call on `self` keeps the tables of a separate object and the sets they point to. -/
theorem safe_mutation (h1 h : Heap) (self other : ModulemdDependencies) (R : List Address)
    (hsep : self.separate other)
    (hs : Safe h1 [other.buildrequires, other.requires]
      [self.buildrequires, self.requires] R h) (op : Mutation) :
    Safe h1 [other.buildrequires, other.requires] [self.buildrequires, self.requires] R
      (op.apply h self) := by
  obtain ⟨n1, n2, n3, n4⟩ := hsep
  have hDb : ∀ t ∈ [other.buildrequires, other.requires], t ≠ self.buildrequires := by
    intro t ht
    simp only [List.mem_cons, List.mem_singleton, List.not_mem_nil, or_false] at ht
    rcases ht with rfl | rfl
    · exact Ne.symm n1
    · exact Ne.symm n2
  have hDr : ∀ t ∈ [other.buildrequires, other.requires], t ≠ self.requires := by
    intro t ht
    simp only [List.mem_cons, List.mem_singleton, List.not_mem_nil, or_false] at ht
    rcases ht with rfl | rfl
    · exact Ne.symm n3
    · exact Ne.symm n4
  cases op with
  | add_buildrequires module streams =>
    exact safe_add_streams h1 h _ _ R hs _ (by simp) hDb module streams
  | add_buildrequires_single module stream =>
    exact safe_add_streams h1 h _ _ R hs _ (by simp) hDb module [stream]
  | set_buildrequires buildrequires =>
    refine safe_set_table h1 h _ _ _ R hs self.buildrequires hDb buildrequires ?_
    cases buildrequires <;> rfl
  | add_requires module streams =>
    exact safe_add_streams h1 h _ _ R hs _ (by simp) hDr module streams
  | add_requires_single module stream =>
    exact safe_add_streams h1 h _ _ R hs _ (by simp) hDr module [stream]
  | set_requires requires =>
    refine safe_set_table h1 h _ _ _ R hs self.requires hDr requires ?_
    cases requires <;> rfl

theorem safe_mutations (h1 h : Heap) (self other : ModulemdDependencies) (R : List Address)
    (hsep : self.separate other)
    (hs : Safe h1 [other.buildrequires, other.requires]
      [self.buildrequires, self.requires] R h) (ops : List Mutation) :
    Safe h1 [other.buildrequires, other.requires] [self.buildrequires, self.requires] R
      (apply_mutations h self ops) := by
  induction ops generalizing h with
  | nil => exact hs
  | cons op ops ih => exact ih _ (safe_mutation h1 h self other R hsep hs op)

theorem safe_view (h1 h : Heap) (D S R : List Address) (hs : Safe h1 D S R h) (t : Address)
    (ht : t ∈ D) (hR : ∀ e ∈ h1.table t, e.2 ∈ R) : h.view t = h1.view t := by
  unfold Heap.view
  rw [table_eq_of_hashtables _ _ t (hs.1 t ht)]
  refine List.map_congr_left ?_
  intro e he
  unfold Heap.simpleset
  rw [(hs.2.1 _ (hR e he)).1]

/-- After the two bulk assignments of `modulemd_dependencies_copy`, the tables of the
destination point to sets allocated by the copy, and the tables of a separate source are
as before. -/
theorem copy_fills_fresh (h : Heap) (self dest : ModulemdDependencies)
    (hsep : self.separate dest) :
    (∀ t ∈ [dest.buildrequires, dest.requires],
      ∀ e ∈ (modulemd_dependencies_set_requires
          (modulemd_dependencies_set_buildrequires h dest (some self.buildrequires)) dest
          (some self.requires)).table t,
        h.next ≤ e.2 ∧ e.2 < (modulemd_dependencies_set_requires
          (modulemd_dependencies_set_buildrequires h dest (some self.buildrequires)) dest
          (some self.requires)).next) ∧
    (∀ t ∈ [self.buildrequires, self.requires],
      (modulemd_dependencies_set_requires
          (modulemd_dependencies_set_buildrequires h dest (some self.buildrequires)) dest
          (some self.requires)).hashtables t = h.hashtables t) := by
  obtain ⟨n1, n2, n3, n4⟩ := hsep
  generalize ha : modulemd_dependencies_set_buildrequires h dest (some self.buildrequires)
    = ha'
  generalize hb : modulemd_dependencies_set_requires ha' dest (some self.requires) = hb'
  obtain ⟨a1, a2, a3, a4⟩ := set_table_frame h ha' dest.buildrequires
    (some self.buildrequires) (by rw [← ha]; rfl)
  obtain ⟨b1, b2, b3, b4⟩ := set_table_frame ha' hb' dest.requires
    (some self.requires) (by rw [← hb]; rfl)
  refine ⟨?_, ?_⟩
  · intro t ht e he
    by_cases hr : t = dest.requires
    · subst hr
      exact ⟨le_trans a2 (b4 e he).1, (b4 e he).2⟩
    · simp only [List.mem_cons, List.mem_singleton, List.not_mem_nil, or_false] at ht
      rcases ht with rfl | rfl
      · rw [table_eq_of_hashtables _ _ _ (b1 _ hr)] at he
        exact ⟨(a4 e he).1, lt_of_lt_of_le (a4 e he).2 b2⟩
      · exact absurd rfl hr
  · intro t ht
    simp only [List.mem_cons, List.mem_singleton, List.not_mem_nil, or_false] at ht
    rcases ht with rfl | rfl
    · rw [b1 _ n2, a1 _ n1]
    · rw [b1 _ n4, a1 _ n3]

/-- Calls on the source after the two bulk assignments of `modulemd_dependencies_copy`
leave both maps of a separate destination as the copy made them. -/
theorem copy_then_mutate (h : Heap) (self dest : ModulemdDependencies)
    (hsep : self.separate dest) (hb : h.allocated self.buildrequires)
    (hr : h.allocated self.requires) (ops : List Mutation) :
    (apply_mutations (modulemd_dependencies_set_requires
        (modulemd_dependencies_set_buildrequires h dest (some self.buildrequires)) dest
        (some self.requires)) self ops).view dest.buildrequires
      = (modulemd_dependencies_set_requires
        (modulemd_dependencies_set_buildrequires h dest (some self.buildrequires)) dest
        (some self.requires)).view dest.buildrequires ∧
    (apply_mutations (modulemd_dependencies_set_requires
        (modulemd_dependencies_set_buildrequires h dest (some self.buildrequires)) dest
        (some self.requires)) self ops).view dest.requires
      = (modulemd_dependencies_set_requires
        (modulemd_dependencies_set_buildrequires h dest (some self.buildrequires)) dest
        (some self.requires)).view dest.requires := by
  obtain ⟨c1, c2⟩ := copy_fills_fresh h self dest hsep
  generalize hh : modulemd_dependencies_set_requires
    (modulemd_dependencies_set_buildrequires h dest (some self.buildrequires)) dest
    (some self.requires) = h1 at c1 c2 ⊢
  have hsafe : Safe h1 [dest.buildrequires, dest.requires]
      [self.buildrequires, self.requires]
      ((h1.table dest.buildrequires ++ h1.table dest.requires).map Prod.snd) h1 := by
    refine ⟨fun _ _ => rfl, ?_, ?_⟩
    · intro p hp
      obtain ⟨e, he, rfl⟩ := List.mem_map.1 hp
      rcases List.mem_append.1 he with he | he
      · exact ⟨rfl, (c1 _ (by simp) e he).2⟩
      · exact ⟨rfl, (c1 _ (by simp) e he).2⟩
    · intro t ht e he hmem
      rw [table_eq_of_hashtables _ _ t (c2 t ht)] at he
      have hlt : e.2 < h.next := by
        simp only [List.mem_cons, List.mem_singleton, List.not_mem_nil, or_false] at ht
        rcases ht with rfl | rfl
        · exact hb e he
        · exact hr e he
      obtain ⟨e', he', heq⟩ := List.mem_map.1 hmem
      have hge : h.next ≤ e'.2 := by
        rcases List.mem_append.1 he' with he' | he'
        · exact (c1 _ (by simp) e' he').1
        · exact (c1 _ (by simp) e' he').1
      rw [heq] at hge
      exact absurd hlt (not_lt.2 hge)
  have hs := safe_mutations h1 h1 self dest _ hsep hsafe ops
  refine ⟨safe_view h1 _ _ _ _ hs _ (by simp) ?_, safe_view h1 _ _ _ _ hs _ (by simp) ?_⟩
  · intro e he
    exact List.mem_map.2 ⟨e, List.mem_append.2 (Or.inl he), rfl⟩
  · intro e he
    exact List.mem_map.2 ⟨e, List.mem_append.2 (Or.inr he), rfl⟩

/-! ## Bulk assignment, copy and duplicate -/

theorem view_frame (h h' : Heap) (t : Address) (ht : h'.hashtables t = h.hashtables t)
    (hs : ∀ e ∈ h.table t, h'.simplesets e.2 = h.simplesets e.2) : h'.view t = h.view t := by
  unfold Heap.view
  rw [table_eq_of_hashtables _ _ t ht]
  refine List.map_congr_left ?_
  intro e he
  unfold Heap.simpleset
  rw [hs e he]

theorem replace_new_key (table : GHashTable) (key : String) (value : Address)
    (hk : ∀ e ∈ table, e.1 ≠ key) :
    GHashTable.replace table key value = table ++ [(key, value)] := by
  unfold GHashTable.replace
  rw [List.filter_eq_self.2 (fun e he => by simpa using hk e he)]

/-- The loop of the bulk assignment appends to the target table, for every entry of the
source in turn, the key with a new set of the same content. -/
theorem set_requires_loop_view (table : Address) (entries : GHashTable) :
    ∀ h : Heap, (entries.map Prod.fst).Nodup → (∀ e ∈ entries, e.2 < h.next) →
      (∀ e ∈ h.table table, e.2 < h.next) →
      (∀ e ∈ h.table table, e.1 ∉ entries.map Prod.fst) →
      (set_requires_loop h table entries).view table
        = h.view table ++ entries.map (fun e => (e.1, h.simpleset e.2)) := by
  induction entries with
  | nil => intro h _ _ _ _; simp [set_requires_loop]
  | cons a l ih =>
    obtain ⟨key, value⟩ := a
    intro h hn ha ht hk
    rw [set_requires_loop_cons]
    generalize hg : (h.modulemd_simpleset_copy value).2.g_hash_table_replace table key
      (h.modulemd_simpleset_copy value).1 = g
    have hkey : ∀ e ∈ h.table table, e.1 ≠ key := by
      intro e he hek
      exact hk e he (by simp [hek])
    have hgt : g.table table = h.table table ++ [(key, h.next)] := by
      rw [← hg]
      simp only [Heap.g_hash_table_replace, Heap.table, Function.update_same,
        Option.getD_some]
      exact replace_new_key _ _ _ hkey
    have hgn : g.next = h.next + 1 := by rw [← hg]; rfl
    have hgs : ∀ q, q < h.next → g.simpleset q = h.simpleset q := by
      intro q hq
      have : q ≠ h.next := Nat.ne_of_lt hq
      rw [← hg]
      simp [Heap.simpleset, Heap.g_hash_table_replace, Heap.modulemd_simpleset_copy,
        Function.update_noteq this]
    have hgnew : g.simpleset h.next = h.simpleset value := by
      rw [← hg]
      simp [Heap.simpleset, Heap.g_hash_table_replace, Heap.modulemd_simpleset_copy]
    have hgv : g.view table = h.view table ++ [(key, h.simpleset value)] := by
      unfold Heap.view
      rw [hgt, List.map_append]
      congr 1
      · refine List.map_congr_left ?_
        intro e he
        rw [hgs e.2 (ht e he)]
      · simp [hgnew]
    have hn' : key ∉ l.map Prod.fst ∧ (l.map Prod.fst).Nodup := List.nodup_cons.1 hn
    rw [ih g hn'.2 ?_ ?_ ?_, hgv]
    · simp only [List.map_cons, List.append_assoc, List.singleton_append]
      congr 2
      refine List.map_congr_left ?_
      intro e he
      rw [hgs e.2 (ha e (by simp [he]))]
    · intro e he
      rw [hgn]
      exact Nat.lt_succ_of_lt (ha e (by simp [he]))
    · intro e he
      rw [hgt] at he
      rw [hgn]
      rcases List.mem_append.1 he with he | he
      · exact Nat.lt_succ_of_lt (ht e he)
      · rw [List.mem_singleton.1 he]
        exact Nat.lt_succ_self _
    · intro e he hmem
      rw [hgt] at he
      rcases List.mem_append.1 he with he | he
      · exact hk e he (by simp [hmem])
      · rw [List.mem_singleton.1 he] at hmem
        exact hn'.1 hmem

/-- The bulk assignment of a table from another table: the target holds the map of the
source, in new sets, and the source is as before. -/
theorem set_table_view (h h' : Heap) (table source : Address)
    (hh : h' = set_requires_loop (h.g_hash_table_remove_all table) table
      ((h.g_hash_table_remove_all table).table source))
    (hne : source ≠ table) (hu : h.unique_keys source) (ha : h.allocated source) :
    h'.view table = h.view source ∧ h'.view source = h.view source ∧
      (∀ e ∈ h'.table table, h.next ≤ e.2 ∧ e.2 < h'.next) ∧ h.next ≤ h'.next ∧
      (∀ t, t ≠ table → h'.hashtables t = h.hashtables t) ∧
      (∀ q, q < h.next → h'.simplesets q = h.simplesets q) := by
  obtain ⟨f1, f2, f3, f4⟩ := set_table_frame h h' table (some source) hh
  have e0 : (h.g_hash_table_remove_all table).table source = h.table source := by
    simp [Heap.g_hash_table_remove_all, Heap.table, Function.update_noteq hne]
  have e1 : (h.g_hash_table_remove_all table).table table = [] := by
    simp [Heap.g_hash_table_remove_all, Heap.table]
  have e2 : (h.g_hash_table_remove_all table).view table = [] := by
    simp [Heap.view, e1]
  refine ⟨?_, ?_, f4, f2, f1, f3⟩
  · rw [hh, e0, set_requires_loop_view table (h.table source)
      (h.g_hash_table_remove_all table) hu ha (by rw [e1]; simp) (by rw [e1]; simp), e2]
    rfl
  · exact view_frame h h' source (f1 source hne) (fun e he => f3 e.2 (ha e he))

theorem dup_requires_loop_eq (h : Heap) (table : Address) (entries : GHashTable) :
    dup_requires_loop h table entries = set_requires_loop h table entries := by
  induction entries generalizing h with
  | nil => rfl
  | cons a l ih =>
    obtain ⟨key, value⟩ := a
    simp only [dup_requires_loop, set_requires_loop]
    exact ih _

theorem set_buildrequires_eq (h : Heap) (d : ModulemdDependencies) (m : Address) :
    modulemd_dependencies_set_buildrequires h d (some m)
      = set_requires_loop (h.g_hash_table_remove_all d.buildrequires) d.buildrequires
          ((h.g_hash_table_remove_all d.buildrequires).table m) := rfl

theorem set_requires_eq (h : Heap) (d : ModulemdDependencies) (m : Address) :
    modulemd_dependencies_set_requires h d (some m)
      = set_requires_loop (h.g_hash_table_remove_all d.requires) d.requires
          ((h.g_hash_table_remove_all d.requires).table m) := rfl

/-- The two bulk assignments of `modulemd_dependencies_copy` on a destination with tables
of its own: both maps of the destination are those of the source, and the source is as
before. -/
theorem copy_views (h : Heap) (self d : ModulemdDependencies) (hsep : self.separate d)
    (hdd : d.buildrequires ≠ d.requires)
    (hub : h.unique_keys self.buildrequires) (hur : h.unique_keys self.requires)
    (hab : h.allocated self.buildrequires) (har : h.allocated self.requires) :
    (modulemd_dependencies_set_requires
        (modulemd_dependencies_set_buildrequires h d (some self.buildrequires)) d
        (some self.requires)).view d.buildrequires = h.view self.buildrequires ∧
    (modulemd_dependencies_set_requires
        (modulemd_dependencies_set_buildrequires h d (some self.buildrequires)) d
        (some self.requires)).view d.requires = h.view self.requires ∧
    (modulemd_dependencies_set_requires
        (modulemd_dependencies_set_buildrequires h d (some self.buildrequires)) d
        (some self.requires)).view self.buildrequires = h.view self.buildrequires ∧
    (modulemd_dependencies_set_requires
        (modulemd_dependencies_set_buildrequires h d (some self.buildrequires)) d
        (some self.requires)).view self.requires = h.view self.requires := by
  obtain ⟨n1, n2, n3, n4⟩ := hsep
  generalize ha : modulemd_dependencies_set_buildrequires h d (some self.buildrequires) = h1
  obtain ⟨a1, a2, a3, a4, a5, a6⟩ := set_table_view h h1 d.buildrequires self.buildrequires
    (by rw [← ha, set_buildrequires_eq]) n1 hub hab
  have t1 : h1.table self.requires = h.table self.requires :=
    table_eq_of_hashtables _ _ _ (a5 _ n3)
  have hur1 : h1.unique_keys self.requires := by
    unfold Heap.unique_keys
    rw [t1]
    exact hur
  have har1 : h1.allocated self.requires := by
    intro e he
    rw [t1] at he
    exact lt_of_lt_of_le (har e he) a4
  have v1 : h1.view self.requires = h.view self.requires :=
    view_frame h h1 _ (a5 _ n3) (fun e he => a6 e.2 (har e he))
  generalize hb : modulemd_dependencies_set_requires h1 d (some self.requires) = h2
  obtain ⟨b1, b2, -, -, b5, b6⟩ := set_table_view h1 h2 d.requires self.requires
    (by rw [← hb, set_requires_eq]) n4 hur1 har1
  refine ⟨?_, b1.trans v1, ?_, b2.trans v1⟩
  · rw [← a1]
    exact view_frame h1 h2 _ (b5 _ hdd) (fun e he => b6 e.2 (a3 e he).2)
  · rw [← a2]
    refine view_frame h1 h2 _ (b5 _ n2) (fun e he => b6 e.2 ?_)
    rw [table_eq_of_hashtables _ _ _ (a5 _ n1)] at he
    exact lt_of_lt_of_le (hab e he) a4

/-- The heap after `modulemd_dependencies_new`: the object has the two next addresses,
and the tables below them and every set are as before. -/
theorem new_frame (h : Heap) :
    (modulemd_dependencies_new h).1 = ⟨h.next, h.next + 1⟩ ∧
    (modulemd_dependencies_new h).2.next = h.next + 2 ∧
    (modulemd_dependencies_new h).2.simplesets = h.simplesets ∧
    (∀ t, t < h.next → (modulemd_dependencies_new h).2.hashtables t = h.hashtables t) := by
  refine ⟨rfl, rfl, rfl, ?_⟩
  intro t ht
  have h1 : t ≠ h.next := Nat.ne_of_lt ht
  have h2 : t ≠ h.next + 1 := Nat.ne_of_lt (Nat.lt_succ_of_lt ht)
  simp [modulemd_dependencies_new, Heap.g_hash_table_new_full, Function.update_noteq h1,
    Function.update_noteq h2]

/-- The duplicate of a table: a new table that holds the map of the source in new sets;
the tables and sets allocated before are as they were. -/
theorem dup_common_view (h : Heap) (t : Address) (hu : h.unique_keys t)
    (ha : h.allocated t) (ht : t < h.next) :
    (modulemd_dependencies_dup_requires_common h t).1 = h.next ∧
    (modulemd_dependencies_dup_requires_common h t).2.view
        (modulemd_dependencies_dup_requires_common h t).1 = h.view t ∧
    (∀ e ∈ (modulemd_dependencies_dup_requires_common h t).2.table
        (modulemd_dependencies_dup_requires_common h t).1, h.next ≤ e.2) ∧
    (∀ t', t' < h.next →
      (modulemd_dependencies_dup_requires_common h t).2.hashtables t' = h.hashtables t') ∧
    (∀ q, q < h.next →
      (modulemd_dependencies_dup_requires_common h t).2.simplesets q = h.simplesets q) := by
  have hne : t ≠ h.next := Nat.ne_of_lt ht
  generalize hg : h.g_hash_table_new_full.2 = g
  have hgn : g.next = h.next + 1 := by rw [← hg]; rfl
  have hgs : g.simplesets = h.simplesets := by rw [← hg]; rfl
  have hgt : ∀ t', t' ≠ h.next → g.hashtables t' = h.hashtables t' := by
    intro t' ht'
    rw [← hg]
    simp [Heap.g_hash_table_new_full, Function.update_noteq ht']
  have hg0 : g.table h.next = [] := by
    rw [← hg]
    simp [Heap.g_hash_table_new_full, Heap.table]
  have hgtab : g.table t = h.table t := table_eq_of_hashtables _ _ _ (hgt t hne)
  have hr : (modulemd_dependencies_dup_requires_common h t).2
      = set_requires_loop g h.next (h.table t) := by
    rw [← hgtab, ← hg, ← dup_requires_loop_eq]
    rfl
  obtain ⟨f1, f2, f3, f4⟩ := set_requires_loop_frame g h.next (h.table t)
  have hv := set_requires_loop_view h.next (h.table t) g hu
    (fun e he => by rw [hgn]; exact Nat.lt_succ_of_lt (ha e he))
    (by rw [hg0]; simp) (by rw [hg0]; simp)
  have e1 : (modulemd_dependencies_dup_requires_common h t).1 = h.next := rfl
  rw [e1, hr]
  refine ⟨rfl, ?_, ?_, ?_, ?_⟩
  · rw [hv]
    simp [Heap.view, hg0, Heap.simpleset, hgs]
  · intro e he
    rcases f4 e he with h1 | h1
    · rw [hg0] at h1; cases h1
    · rw [hgn] at h1
      exact Nat.le_of_succ_le h1.1
  · intro t' ht'
    have : t' ≠ h.next := Nat.ne_of_lt ht'
    rw [f1 t' this, hgt t' this]
  · intro q hq
    rw [f3 q (by rw [hgn]; exact Nat.lt_succ_of_lt hq), hgs]

/-! ## Insertion twice -/

/-- Two sets with the same elements are the same set. -/
theorem simpleset_ext (a b : ModulemdSimpleSet) (h : ∀ x, x ∈ a ↔ x ∈ b) : a = b := by
  have e : a.strv = b.strv :=
    List.eq_of_perm_of_sorted
      ((List.perm_ext_iff_of_nodup a.sorted.nodup b.sorted.nodup).2 h) a.sorted b.sorted
  cases a
  cases b
  simpa using e

theorem foldl_add_absorbed (streams : List String) (s : ModulemdSimpleSet)
    (h : ∀ x ∈ streams, x ∈ s) : streams.foldl modulemd_simpleset_add s = s := by
  apply simpleset_ext
  intro x
  rw [mem_foldl_simpleset_add]
  exact ⟨fun hx => hx.elim id (h x), Or.inl⟩

theorem replace_replace (table : GHashTable) (key : String) (value : Address) :
    GHashTable.replace (GHashTable.replace table key value) key value
      = GHashTable.replace table key value := by
  unfold GHashTable.replace
  simp [List.filter_append, List.filter_filter]

/-- The table after `_modulemd_dependencies_add_streams`: the entry of the module is
replaced; the set it points to has the streams added to what was stored. -/
theorem add_streams_table (h : Heap) (reqs : Address) (module : String)
    (streams : List String) :
    ∃ p, (_modulemd_dependencies_add_streams h reqs module streams).table reqs
        = GHashTable.replace (h.table reqs) module p ∧
      (_modulemd_dependencies_add_streams h reqs module streams).simpleset p
        = streams.foldl modulemd_simpleset_add
            ((h.stored reqs module).getD modulemd_simpleset_new) := by
  cases hl : g_hash_table_lookup (h.table reqs) module with
  | none =>
    have e : _modulemd_dependencies_add_streams h reqs module streams
        = (add_streams_loop h.modulemd_simpleset_new.2 h.next
            streams).g_hash_table_replace reqs module h.next := by
      unfold _modulemd_dependencies_add_streams
      rw [hl]
      rfl
    have hst : h.stored reqs module = none := by
      unfold Heap.stored
      rw [hl]
      rfl
    refine ⟨h.next, ?_, ?_⟩
    · rw [e]
      simp [Heap.g_hash_table_replace, Heap.table, add_streams_loop_hashtables,
        Heap.modulemd_simpleset_new]
    · have := add_streams_loop_self h.modulemd_simpleset_new.2 h.next streams
      rw [e, hst]
      simp only [Heap.simpleset, Heap.g_hash_table_replace] at this ⊢
      rw [this]
      simp [Heap.modulemd_simpleset_new]
  | some p =>
    have e : _modulemd_dependencies_add_streams h reqs module streams
        = (add_streams_loop h p streams).g_hash_table_replace reqs module p := by
      unfold _modulemd_dependencies_add_streams
      rw [hl]
    have hst : h.stored reqs module = some (h.simpleset p) := by
      unfold Heap.stored
      rw [hl]
      rfl
    refine ⟨p, ?_, ?_⟩
    · rw [e]
      simp [Heap.g_hash_table_replace, Heap.table, add_streams_loop_hashtables]
    · have := add_streams_loop_self h p streams
      rw [e, hst]
      simp only [Heap.simpleset, Heap.g_hash_table_replace, Option.getD_some] at this ⊢
      rw [this]

/-- Insertion of streams that are all stored already, for a module whose entry is the
one inserted last, leaves the map as it is. -/
theorem add_streams_again (h : Heap) (reqs : Address) (module : String)
    (streams : List String) (table : GHashTable) (p : Address)
    (ht : h.table reqs = GHashTable.replace table module p)
    (hs : ∀ x ∈ streams, x ∈ h.simpleset p) :
    (_modulemd_dependencies_add_streams h reqs module streams).view reqs = h.view reqs := by
  have hl : g_hash_table_lookup (h.table reqs) module = some p := by
    rw [ht]
    exact lookup_replace_self _ _ _
  have e : _modulemd_dependencies_add_streams h reqs module streams
      = (add_streams_loop h p streams).g_hash_table_replace reqs module p := by
    unfold _modulemd_dependencies_add_streams
    rw [hl]
  have et : ((add_streams_loop h p streams).g_hash_table_replace reqs module p).table reqs
      = h.table reqs := by
    simp only [Heap.g_hash_table_replace, Heap.table, Function.update_same, Option.getD_some,
      add_streams_loop_hashtables]
    have := ht
    unfold Heap.table at this
    rw [this, replace_replace]
  rw [e]
  unfold Heap.view
  rw [et]
  refine List.map_congr_left ?_
  intro x _
  by_cases hx : x.2 = p
  · have := add_streams_loop_self h p streams
    rw [foldl_add_absorbed streams _ hs] at this
    rw [hx]
    simpa [Heap.simpleset, Heap.g_hash_table_replace] using this
  · have := add_streams_loop_other h p x.2 streams hx
    simp [Heap.simpleset, Heap.g_hash_table_replace, this]

/-! ## Insertion touches one entry -/

/-- What `_modulemd_dependencies_add_streams` changes: the entry of the module in the
table, which points to the set found for the module or to a new set, and that set. -/
theorem add_streams_effect (h : Heap) (reqs : Address) (module : String)
    (streams : List String) :
    ∃ p, ((module, p) ∈ h.table reqs ∨
          (p = h.next ∧
            (_modulemd_dependencies_add_streams h reqs module streams).next = h.next + 1)) ∧
      (_modulemd_dependencies_add_streams h reqs module streams).table reqs
        = GHashTable.replace (h.table reqs) module p ∧
      (∀ t, t ≠ reqs →
        (_modulemd_dependencies_add_streams h reqs module streams).hashtables t
          = h.hashtables t) ∧
      (∀ q, q ≠ p →
        (_modulemd_dependencies_add_streams h reqs module streams).simplesets q
          = h.simplesets q) ∧
      h.next ≤ (_modulemd_dependencies_add_streams h reqs module streams).next := by
  cases hl : g_hash_table_lookup (h.table reqs) module with
  | none =>
    have e : _modulemd_dependencies_add_streams h reqs module streams
        = (add_streams_loop h.modulemd_simpleset_new.2 h.next
            streams).g_hash_table_replace reqs module h.next := by
      unfold _modulemd_dependencies_add_streams
      rw [hl]
      rfl
    rw [e]
    refine ⟨h.next, Or.inr ⟨rfl, ?_⟩, ?_, ?_, ?_, ?_⟩
    · simp [Heap.g_hash_table_replace, add_streams_loop_next, Heap.modulemd_simpleset_new]
    · simp [Heap.g_hash_table_replace, Heap.table, add_streams_loop_hashtables,
        Heap.modulemd_simpleset_new]
    · intro t ht
      simp [Heap.g_hash_table_replace, Function.update_noteq ht,
        add_streams_loop_hashtables, Heap.modulemd_simpleset_new]
    · intro q hq
      simp only [Heap.g_hash_table_replace]
      rw [add_streams_loop_other _ _ _ _ hq]
      simp [Heap.modulemd_simpleset_new, Function.update_noteq hq]
    · simp [Heap.g_hash_table_replace, add_streams_loop_next, Heap.modulemd_simpleset_new]
  | some p =>
    have e : _modulemd_dependencies_add_streams h reqs module streams
        = (add_streams_loop h p streams).g_hash_table_replace reqs module p := by
      unfold _modulemd_dependencies_add_streams
      rw [hl]
    rw [e]
    refine ⟨p, Or.inl (lookup_mem _ _ _ hl), ?_, ?_, ?_, ?_⟩
    · simp [Heap.g_hash_table_replace, Heap.table, add_streams_loop_hashtables]
    · intro t ht
      simp [Heap.g_hash_table_replace, Function.update_noteq ht, add_streams_loop_hashtables]
    · intro q hq
      simp only [Heap.g_hash_table_replace]
      rw [add_streams_loop_other _ _ _ _ hq]
    · simp [Heap.g_hash_table_replace, add_streams_loop_next]

/-- Replacing the entry of a key by an entry that points to the set of that key, or to a
set no entry points to, keeps the pointers of the entries distinct. -/
theorem replace_nodup (table : GHashTable) (others : List Address) (key : String)
    (p : Address) (hn : (table.map Prod.snd ++ others).Nodup)
    (hp : (key, p) ∈ table ∨ (p ∉ table.map Prod.snd ∧ p ∉ others)) :
    ((GHashTable.replace table key p).map Prod.snd ++ others).Nodup := by
  obtain ⟨n1, n2, n3⟩ := List.nodup_append.1 hn
  have hsub : ((table.filter (fun e => e.1 ≠ key)).map Prod.snd).Sublist
      (table.map Prod.snd) := List.Sublist.map _ (List.filter_sublist _)
  have hpf : p ∉ (table.filter (fun e => e.1 ≠ key)).map Prod.snd := by
    intro hmem
    obtain ⟨e, he, hep⟩ := List.mem_map.1 hmem
    obtain ⟨het, hek⟩ := List.mem_filter.1 he
    rcases hp with hp | hp
    · have := List.inj_on_of_nodup_map n1 het hp hep
      rw [this] at hek
      simp at hek
    · exact hp.1 (List.mem_map.2 ⟨e, het, hep⟩)
  have hpo : p ∉ others := by
    rcases hp with hp | hp
    · exact fun ho => n3 (List.mem_map.2 ⟨(key, p), hp, rfl⟩) ho
    · exact hp.2
  unfold GHashTable.replace
  rw [List.map_append, List.map_singleton]
  refine List.nodup_append.2 ⟨List.nodup_append.2 ⟨n1.sublist hsub, by simp, ?_⟩, n2, ?_⟩
  · intro a ha hb
    rw [List.mem_singleton] at hb
    have hb' : a = p := hb
    rw [hb'] at ha
    exact hpf ha
  · intro a ha hb
    rcases List.mem_append.1 ha with h1 | h1
    · exact n3 (hsub.subset h1) hb
    · rw [List.mem_singleton] at h1
      have h1' : a = p := h1
      rw [h1'] at hb
      exact hpo hb

/-- Insertion into the table `reqs` of an object whose other table is `other`: the sets of
the other module names of `reqs` and the whole map of `other` are as before, and the
invariant of the object holds again. -/
theorem add_streams_touches (h : Heap) (reqs other : Address) (module : String)
    (streams : List String) (hne : reqs ≠ other) (ha : h.allocated reqs)
    (hb : h.allocated other)
    (hn : ((h.table reqs).map Prod.snd ++ (h.table other).map Prod.snd).Nodup) :
    (∀ m, m ≠ module →
      (_modulemd_dependencies_add_streams h reqs module streams).stored reqs m
        = h.stored reqs m) ∧
    (_modulemd_dependencies_add_streams h reqs module streams).view other = h.view other ∧
    (_modulemd_dependencies_add_streams h reqs module streams).allocated reqs ∧
    (_modulemd_dependencies_add_streams h reqs module streams).allocated other ∧
    (((_modulemd_dependencies_add_streams h reqs module streams).table reqs).map Prod.snd ++
      ((_modulemd_dependencies_add_streams h reqs module streams).table other).map
        Prod.snd).Nodup := by
  obtain ⟨p, hp, ht, ho, hs, hx⟩ := add_streams_effect h reqs module streams
  obtain ⟨n1, n2, n3⟩ := List.nodup_append.1 hn
  have hto : (_modulemd_dependencies_add_streams h reqs module streams).table other
      = h.table other := table_eq_of_hashtables _ _ other (ho other (Ne.symm hne))
  have hlt : ∀ e ∈ h.table reqs, e.2 < h.next := ha
  have hlo : ∀ e ∈ h.table other, e.2 < h.next := hb
  -- the set that changes is not the set of another entry
  have hq : ∀ e ∈ h.table reqs, e.1 ≠ module → e.2 ≠ p := by
    intro e he hk hep
    rcases hp with hp | ⟨hp, -⟩
    · have := List.inj_on_of_nodup_map n1 he hp hep
      rw [this] at hk
      exact hk rfl
    · have := hlt e he
      rw [hep, hp] at this
      exact lt_irrefl _ this
  have hqo : ∀ e ∈ h.table other, e.2 ≠ p := by
    intro e he hep
    rcases hp with hp | ⟨hp, -⟩
    · exact n3 (List.mem_map.2 ⟨(module, p), hp, rfl⟩) (List.mem_map.2 ⟨e, he, hep⟩)
    · have := hlo e he
      rw [hep, hp] at this
      exact lt_irrefl _ this
  have hpn : p < (_modulemd_dependencies_add_streams h reqs module streams).next := by
    rcases hp with hp | ⟨hp, hnx⟩
    · exact lt_of_lt_of_le (hlt _ hp) hx
    · rw [hnx, hp]
      exact Nat.lt_succ_self _
  refine ⟨?_, ?_, ?_, ?_, ?_⟩
  · intro m hm
    unfold Heap.stored
    rw [ht, lookup_replace_other _ _ _ _ hm]
    cases hl : g_hash_table_lookup (h.table reqs) m with
    | none => rfl
    | some q =>
      have hmem := lookup_mem _ _ _ hl
      have : q ≠ p := hq (m, q) hmem hm
      simp only [Option.map_some', Heap.simpleset]
      rw [hs q this]
  · exact view_frame h _ other (ho other (Ne.symm hne))
      (fun e he => hs e.2 (hqo e he))
  · intro e he
    rw [ht] at he
    rcases mem_replace _ _ _ _ he with h1 | h1
    · exact lt_of_lt_of_le (hlt e h1) hx
    · rw [h1]
      exact hpn
  · intro e he
    rw [hto] at he
    exact lt_of_lt_of_le (hlo e he) hx
  · rw [ht, hto]
    refine replace_nodup _ _ module p hn ?_
    rcases hp with hp | ⟨hp, -⟩
    · exact Or.inl hp
    · refine Or.inr ⟨?_, ?_⟩
      · intro hmem
        obtain ⟨e, he, hep⟩ := List.mem_map.1 hmem
        have := hlt e he
        rw [hep, hp] at this
        exact lt_irrefl _ this
      · intro hmem
        obtain ⟨e, he, hep⟩ := List.mem_map.1 hmem
        have := hlo e he
        rw [hep, hp] at this
        exact lt_irrefl _ this

/-! ## Reading back what was emitted -/

/-- The content of a scalar event with the value of a list of characters. -/
theorem content_plain (value : String) : (plain value).content = (read_plain value.data).content :=
  rfl

/-- C1. Mandatory-field enforcement: a document whose summary is absent, or whose
description is absent, or whose module license set is absent, makes `_emit_modulemd_data`
fail with an error of kind Emit in the empty error location of the caller, on every sink;
so does every batch that contains the document, for `emit_yaml_string` and, once the file
is open, for `emit_yaml_file`. -/
theorem mandatory_field_enforcement (Y : Libyaml) (module : ModulemdModule)
    (h : module.summary = none ∨ module.description = none ∨
      module.module_licenses = none) :
    (∀ c : EmitCtx, c.error = .loc none →
      ∃ c1 msg, _emit_modulemd_data Y c module = .error c1 ∧
        c1.error = .loc (some ⟨.MODULEMD_YAML_ERROR_EMIT, msg⟩)) ∧
    (∀ (before after : List ModulemdModule) (_yaml : Option (List Char)),
      (emit_yaml_string Y (before ++ module :: after) _yaml (.loc none)).ret = false ∧
      ∃ msg, (emit_yaml_string Y (before ++ module :: after) _yaml (.loc none)).error
        = .loc (some ⟨.MODULEMD_YAML_ERROR_EMIT, msg⟩)) ∧
    (∀ (g_fopen : String → Except String FILE) (before after : List ModulemdModule)
      (path : String) (yaml_file : FILE), g_fopen path = .ok yaml_file →
      (emit_yaml_file Y g_fopen (before ++ module :: after) path (.loc none)).ret = false ∧
      ∃ msg, (emit_yaml_file Y g_fopen (before ++ module :: after) path (.loc none)).error
        = .loc (some ⟨.MODULEMD_YAML_ERROR_EMIT, msg⟩)) := by
  have hn : ¬ module.complete := by
    unfold ModulemdModule.complete
    rcases h with h | h | h <;> simp [h]
  have hs : ∀ before after : List ModulemdModule,
      (stream_script (before ++ module :: after)).missing ≠ none := by
    intro before after hm
    exact hn ((stream_script_missing _).1 hm module (by simp))
  refine ⟨?_, ?_, ?_⟩
  · intro c hc
    rw [data_runs_script]
    exact run_incomplete Y c _ (fun hm => hn ((data_script_missing module).1 hm)) hc
  · intro before after _yaml
    rw [emit_yaml_string_runs_script Y _ _ _ (by simp)]
    obtain ⟨c1, msg, hr, he⟩ := run_incomplete Y
      { emitter := string_emitter, error := .loc none } _ (hs before after) rfl
    rw [hr]
    exact ⟨rfl, msg, he⟩
  · intro g_fopen before after path yaml_file ho
    rw [emit_yaml_file_runs_script Y g_fopen _ path _ (by simp) yaml_file ho]
    obtain ⟨c1, msg, hr, he⟩ := run_incomplete Y
      { emitter := file_emitter yaml_file, error := .loc none } _ (hs before after) rfl
    rw [hr]
    exact ⟨rfl, msg, he⟩

/-- Witness of C1: the batch made of one document without summary, on the accepting
sink. -/
theorem mandatory_field_enforcement_witness :
    module_without_summary.summary = none ∧
    (emit_yaml_string accepting_sink [module_without_summary] none (.loc none)).ret = false ∧
    ∃ msg, (emit_yaml_string accepting_sink [module_without_summary] none (.loc none)).error
      = .loc (some ⟨.MODULEMD_YAML_ERROR_EMIT, msg⟩) :=
  ⟨rfl, (mandatory_field_enforcement accepting_sink module_without_summary
    (Or.inl rfl)).2.1 [] [] none⟩

/-- C2. Fixed emission order: for a document with summary, description and module license
set, on a sink that accepts every event, `_emit_modulemd_document` succeeds and appends
exactly: document-start, root mapping-start, (document, modulemd), (version, decimal
mdversion), key data, data mapping-start, (name, name) if name is present, (stream,
stream) if stream is present, (version, decimal version) if version is non-zero, (summary,
summary), (description, description) with the value folded, the license block, data
mapping-end, root mapping-end, document-end. -/
theorem fixed_emission_order (Y : Libyaml) (hY : ∀ evs e, Y.accept evs e = true)
    (c : EmitCtx) (module : ModulemdModule) (summary description : String)
    (set : ModulemdSimpleSet) (h1 : module.summary = some summary)
    (h2 : module.description = some description) (h3 : module.module_licenses = some set) :
    ∃ c1, _emit_modulemd_document Y c module = .ok c1 ∧ c1.error = c.error ∧
      c1.emitter.events = c.emitter.events ++
        ([.document_start false, .mapping_start true .YAML_BLOCK_MAPPING_STYLE] ++
         [plain "document", plain "modulemd"] ++
         [plain "version", plain (Nat.repr module.mdversion)] ++
         [plain "data", .mapping_start true .YAML_BLOCK_MAPPING_STYLE] ++
         (match module.name with
          | some name => [plain "name", plain name]
          | none => []) ++
         (match module.stream with
          | some stream => [plain "stream", plain stream]
          | none => []) ++
         (if module.version ≠ 0 then [plain "version", plain (Nat.repr module.version)]
          else []) ++
         [plain "summary", plain summary] ++
         [plain "description", scalar_event description .YAML_FOLDED_SCALAR_STYLE] ++
         license_block_events set module.content_licenses ++
         [.mapping_end, .mapping_end, .document_end false]) := by
  have hc : module.complete := by simp [ModulemdModule.complete, h1, h2, h3]
  obtain ⟨c1, hr, he, hv⟩ := run_accepting Y hY c (document_script module)
    ((document_script_missing module).2 hc)
  refine ⟨c1, by rw [document_runs_script, hr], he, ?_⟩
  rw [hv, document_script_events module summary description set h1 h2 h3]
  cases module.name <;> cases module.stream <;>
    simp [pair, optional_pair, plain, g_strdup_printf_llu]

/-- Witness of C2: the complete document with every optional field, on the accepting
sink. -/
theorem fixed_emission_order_witness :
    ∃ c1, _emit_modulemd_document accepting_sink
        { emitter := string_emitter, error := .loc none } module_full = .ok c1 ∧
      c1.emitter.events =
        [.document_start false, .mapping_start true .YAML_BLOCK_MAPPING_STYLE,
         plain "document", plain "modulemd", plain "version", plain "1",
         plain "data", .mapping_start true .YAML_BLOCK_MAPPING_STYLE,
         plain "name", plain "foo", plain "stream", plain "bar",
         plain "version", plain "7", plain "summary", plain "s",
         plain "description", scalar_event "d" .YAML_FOLDED_SCALAR_STYLE,
         plain "license", .mapping_start true .YAML_BLOCK_MAPPING_STYLE,
         plain "module", .sequence_start true .YAML_BLOCK_SEQUENCE_STYLE,
         plain "BSD", plain "MIT", .sequence_end,
         plain "content", .sequence_start true .YAML_BLOCK_SEQUENCE_STYLE,
         plain "GPL", .sequence_end, .mapping_end,
         .mapping_end, .mapping_end, .document_end false] := by
  obtain ⟨c1, h, -, hv⟩ := fixed_emission_order accepting_sink (fun _ _ => rfl)
    { emitter := string_emitter, error := .loc none } module_full "s" "d"
    (simpleset_of ["MIT", "BSD"]) rfl rfl rfl
  exact ⟨c1, h, by rw [hv]; decide⟩

/-- C6. Stream framing and batch order: for a batch of documents that each have summary,
description and module license set, on a sink that accepts every event, `emit_yaml_string`
and `emit_yaml_file` (once the file is open) succeed, and the events are one stream-start
with UTF-8 encoding, then the events of each document in input order, then one
stream-end. -/
theorem stream_framing_and_batch_order (Y : Libyaml) (hY : ∀ evs e, Y.accept evs e = true)
    (modules : List ModulemdModule) (hc : ∀ module ∈ modules, module.complete)
    (error : GErrorArg) (he : ∀ e, error ≠ .loc (some e)) :
    (∀ _yaml : Option (List Char),
      (emit_yaml_string Y modules _yaml error).ret = true ∧
      (emit_yaml_string Y modules _yaml error).emitter.events =
        [.stream_start .YAML_UTF8_ENCODING] ++ modules.flatMap (document_events Y) ++
          [.stream_end]) ∧
    (∀ (g_fopen : String → Except String FILE) (path : String) (yaml_file : FILE),
      g_fopen path = .ok yaml_file →
      (emit_yaml_file Y g_fopen modules path error).ret = true ∧
      (emit_yaml_file Y g_fopen modules path error).emitter.events =
        [.stream_start .YAML_UTF8_ENCODING] ++ modules.flatMap (document_events Y) ++
          [.stream_end]) := by
  have hs : (stream_script modules).missing = none := (stream_script_missing modules).2 hc
  have hd : (documents_script modules).missing = none :=
    (documents_script_missing modules).2 hc
  have hev : (stream_script modules).events =
      [.stream_start .YAML_UTF8_ENCODING] ++ modules.flatMap (document_events Y) ++
        [.stream_end] := by
    unfold stream_script
    simp only [seq_events_eq, step_events, step_missing, hd, documents_script_events modules hc]
    have : modules.flatMap (fun module => (document_script module).events)
        = modules.flatMap (document_events Y) := by
      refine List.flatMap_congr ?_
      intro m hm
      exact (document_events_accepting Y hY m (hc m hm)).symm
    rw [this]
    simp
  refine ⟨?_, ?_⟩
  · intro _yaml
    obtain ⟨c1, hr, -, hv⟩ := run_accepting Y hY
      { emitter := string_emitter, error := error } (stream_script modules) hs
    rw [emit_yaml_string_runs_script Y modules _yaml error he, hr]
    exact ⟨rfl, by simpa [string_emitter, hev] using hv⟩
  · intro g_fopen path yaml_file ho
    obtain ⟨c1, hr, -, hv⟩ := run_accepting Y hY
      { emitter := file_emitter yaml_file, error := error } (stream_script modules) hs
    rw [emit_yaml_file_runs_script Y g_fopen modules path error he yaml_file ho, hr]
    exact ⟨rfl, by simpa [file_emitter, hev] using hv⟩

/-- Witness of C6: a batch of two complete documents on the accepting sink. -/
theorem stream_framing_and_batch_order_witness :
    (∀ module ∈ [module_full, module_minimal], module.complete) ∧
    (emit_yaml_string accepting_sink [module_full, module_minimal] none (.loc none)).ret
      = true ∧
    (emit_yaml_string accepting_sink [module_full, module_minimal] none
        (.loc none)).emitter.events =
      [.stream_start .YAML_UTF8_ENCODING] ++
        [module_full, module_minimal].flatMap (document_events accepting_sink) ++
        [.stream_end] :=
  ⟨by decide, (stream_framing_and_batch_order accepting_sink (fun _ _ => rfl)
    [module_full, module_minimal] (by decide) (.loc none) (by simp)).1 none⟩

/-- C7. Abort on first failure: when the document at index `before.length` is the first
one of the batch that lacks a mandatory field, then on every sink `emit_yaml_string` and
`emit_yaml_file` (once the file is open) return failure, no stream-end is among the
events, at most `before.length + 1` documents were started, and the events are a first
part of: stream-start, then the events of the documents up to that index. -/
theorem abort_on_first_failure (Y : Libyaml) (before after : List ModulemdModule)
    (module : ModulemdModule) (hb : ∀ m ∈ before, m.complete) (hm : ¬ module.complete)
    (error : GErrorArg) (he : ∀ e, error ≠ .loc (some e)) :
    (∀ _yaml : Option (List Char),
      (emit_yaml_string Y (before ++ module :: after) _yaml error).ret = false ∧
      yaml_event_t.stream_end ∉
        (emit_yaml_string Y (before ++ module :: after) _yaml error).emitter.events ∧
      List.count (.document_start false)
        (emit_yaml_string Y (before ++ module :: after) _yaml error).emitter.events
          ≤ before.length + 1 ∧
      (emit_yaml_string Y (before ++ module :: after) _yaml error).emitter.events <+:
        .stream_start .YAML_UTF8_ENCODING ::
          (before ++ [module]).flatMap (fun m => (document_script m).events)) ∧
    (∀ (g_fopen : String → Except String FILE) (path : String) (yaml_file : FILE),
      g_fopen path = .ok yaml_file →
      (emit_yaml_file Y g_fopen (before ++ module :: after) path error).ret = false ∧
      yaml_event_t.stream_end ∉
        (emit_yaml_file Y g_fopen (before ++ module :: after) path error).emitter.events ∧
      List.count (.document_start false)
        (emit_yaml_file Y g_fopen (before ++ module :: after) path error).emitter.events
          ≤ before.length + 1 ∧
      (emit_yaml_file Y g_fopen (before ++ module :: after) path error).emitter.events <+:
        .stream_start .YAML_UTF8_ENCODING ::
          (before ++ [module]).flatMap (fun m => (document_script m).events)) := by
  have hdm : (documents_script (before ++ module :: after)).missing ≠ none := by
    intro h
    exact hm ((documents_script_missing _).1 h module (by simp))
  have hsm : (stream_script (before ++ module :: after)).missing ≠ none := by
    intro h
    exact hm ((stream_script_missing _).1 h module (by simp))
  have hev : (stream_script (before ++ module :: after)).events =
      .stream_start .YAML_UTF8_ENCODING ::
        (before ++ [module]).flatMap (fun m => (document_script m).events) := by
    unfold stream_script
    cases hd : (documents_script (before ++ module :: after)).missing with
    | none => exact absurd hd hdm
    | some msg =>
      simp [seq_events_eq, step_events, step_missing, hd,
        documents_script_events_incomplete before after module hb hm]
  have hcount : List.count (.document_start false)
      (.stream_start .YAML_UTF8_ENCODING ::
        (before ++ [module]).flatMap (fun m => (document_script m).events))
      = before.length + 1 := by
    rw [List.count_cons_of_ne (by simp), List.count_flatMap]
    simp [Function.comp_def, document_script_count]
  have hend : yaml_event_t.stream_end ∉
      (.stream_start .YAML_UTF8_ENCODING ::
        (before ++ [module]).flatMap (fun m => (document_script m).events)) := by
    intro hmem
    rcases List.mem_cons.1 hmem with h | h
    · cases h
    · obtain ⟨m, -, hm2⟩ := List.mem_flatMap.1 h
      exact document_script_no_stream_end m hm2
  have key : ∀ c c1 : EmitCtx, c.emitter.events = [] →
      (stream_script (before ++ module :: after)).run Y c = .error c1 →
      yaml_event_t.stream_end ∉ c1.emitter.events ∧
      List.count (.document_start false) c1.emitter.events ≤ before.length + 1 ∧
      c1.emitter.events <+: .stream_start .YAML_UTF8_ENCODING ::
        (before ++ [module]).flatMap (fun m => (document_script m).events) := by
    intro c c1 hc hr
    obtain ⟨done, hv, hp⟩ := run_error_prefix Y c c1 _ hr
    rw [hc, List.nil_append] at hv
    rw [hev] at hp
    rw [hv]
    exact ⟨fun hmem => hend (hp.subset hmem), hcount ▸ hp.sublist.count_le _, hp⟩
  refine ⟨?_, ?_⟩
  · intro _yaml
    rw [emit_yaml_string_runs_script Y _ _yaml error he]
    cases hr : (stream_script (before ++ module :: after)).run Y
        { emitter := string_emitter, error := error } with
    | ok c1 => exact absurd (run_ok Y _ c1 _ hr).1 hsm
    | error c1 => exact ⟨rfl, key _ c1 rfl hr⟩
  · intro g_fopen path yaml_file ho
    rw [emit_yaml_file_runs_script Y g_fopen _ path error he yaml_file ho]
    cases hr : (stream_script (before ++ module :: after)).run Y
        { emitter := file_emitter yaml_file, error := error } with
    | ok c1 => exact absurd (run_ok Y _ c1 _ hr).1 hsm
    | error c1 => exact ⟨rfl, key _ c1 rfl hr⟩

/-- Witness of C7: the batch of a complete document, a document without summary and a
further complete document, on the accepting sink. -/
theorem abort_on_first_failure_witness :
    (∀ m ∈ [module_full], m.complete) ∧ ¬ module_without_summary.complete ∧
    (emit_yaml_string accepting_sink [module_full, module_without_summary, module_minimal]
      none (.loc none)).ret = false ∧
    yaml_event_t.stream_end ∉
      (emit_yaml_string accepting_sink [module_full, module_without_summary, module_minimal]
        none (.loc none)).emitter.events ∧
    List.count (.document_start false)
      (emit_yaml_string accepting_sink [module_full, module_without_summary, module_minimal]
        none (.loc none)).emitter.events ≤ 2 :=
  have h := (abort_on_first_failure accepting_sink [module_full] [module_minimal]
    module_without_summary (by decide) (by decide) (.loc none) (by simp)).1 none
  ⟨by decide, by decide, h.1, h.2.1, h.2.2.1⟩

/-- C8. Minimal document: a document with summary, description and module license set,
without name, stream and content license set and with version zero is emitted with
success on a sink that accepts every event; the mapping keys emitted are document, version
and data at the root, summary, description and license inside data, module inside
license, and no other key. -/
theorem minimal_document (Y : Libyaml) (hY : ∀ evs e, Y.accept evs e = true)
    (c : EmitCtx) (module : ModulemdModule) (summary description : String)
    (set : ModulemdSimpleSet) (h1 : module.summary = some summary)
    (h2 : module.description = some description) (h3 : module.module_licenses = some set)
    (hn : module.name = none) (hs : module.stream = none) (hv : module.version = 0)
    (hl : module.content_licenses = none) :
    ∃ c1 events, _emit_modulemd_document Y c module = .ok c1 ∧
      c1.emitter.events = c.emitter.events ++ events ∧
      events =
        [.document_start false, .mapping_start true .YAML_BLOCK_MAPPING_STYLE,
         plain "document", plain "modulemd",
         plain "version", plain (Nat.repr module.mdversion),
         plain "data", .mapping_start true .YAML_BLOCK_MAPPING_STYLE,
         plain "summary", plain summary,
         plain "description", scalar_event description .YAML_FOLDED_SCALAR_STYLE,
         plain "license", .mapping_start true .YAML_BLOCK_MAPPING_STYLE,
         plain "module", .sequence_start true .YAML_BLOCK_SEQUENCE_STYLE] ++
        (modulemd_simpleset_get_as_strv set).map plain ++
        [.sequence_end, .mapping_end, .mapping_end, .mapping_end, .document_end false] ∧
      key_paths [] events =
        ["document", "version", "data", "data.summary", "data.description",
         "data.license", "data.license.module"] := by
  have hc : module.complete := by simp [ModulemdModule.complete, h1, h2, h3]
  obtain ⟨c1, hr, -, hev⟩ := run_accepting Y hY c (document_script module)
    ((document_script_missing module).2 hc)
  have hE : (document_script module).events =
      [.document_start false, .mapping_start true .YAML_BLOCK_MAPPING_STYLE,
       plain "document", plain "modulemd",
       plain "version", plain (Nat.repr module.mdversion),
       plain "data", .mapping_start true .YAML_BLOCK_MAPPING_STYLE,
       plain "summary", plain summary,
       plain "description", scalar_event description .YAML_FOLDED_SCALAR_STYLE,
       plain "license", .mapping_start true .YAML_BLOCK_MAPPING_STYLE,
       plain "module", .sequence_start true .YAML_BLOCK_SEQUENCE_STYLE] ++
      (modulemd_simpleset_get_as_strv set).map plain ++
      [.sequence_end, .mapping_end, .mapping_end, .mapping_end, .document_end false] := by
    rw [document_script_events module summary description set h1 h2 h3]
    simp [hn, hs, hv, hl, pair, optional_pair, license_block_events, simpleset_events,
      g_strdup_printf_llu, plain]
  refine ⟨c1, _, by rw [document_runs_script, hr], hev, hE, ?_⟩
  rw [hE]
  exact minimal_document_keys _ _ _ _

/-- Witness of C8: the complete document without optional fields, on the accepting
sink. -/
theorem minimal_document_witness :
    ∃ c1 events, _emit_modulemd_document accepting_sink
        { emitter := string_emitter, error := .loc none } module_minimal = .ok c1 ∧
      c1.emitter.events = [] ++ events ∧
      key_paths [] events =
        ["document", "version", "data", "data.summary", "data.description",
         "data.license", "data.license.module"] := by
  obtain ⟨c1, events, h, hv, -, hk⟩ := minimal_document accepting_sink (fun _ _ => rfl)
    { emitter := string_emitter, error := .loc none } module_minimal "s" "d"
    (simpleset_of ["MIT"]) rfl rfl rfl rfl rfl rfl rfl
  exact ⟨c1, events, h, hv, hk⟩

/-- C9. License block: for a document with a module license set, on a sink that accepts
every event, `_emit_modulemd_licenses` succeeds and appends exactly: key license,
mapping-start, key module, sequence-start, one plain scalar per element of the ordered
sequence of the module set in that order, sequence-end, then, exactly when a content
license set is present, key content, sequence-start, one plain scalar per element of its
ordered sequence, sequence-end, and finally mapping-end.  Each sequence has as many
scalars as its set has elements. -/
theorem license_block (Y : Libyaml) (hY : ∀ evs e, Y.accept evs e = true)
    (c : EmitCtx) (module : ModulemdModule) (set : ModulemdSimpleSet)
    (h : module.module_licenses = some set) :
    (∃ c1, _emit_modulemd_licenses Y c module = .ok c1 ∧ c1.error = c.error ∧
      c1.emitter.events = c.emitter.events ++
        ([plain "license", .mapping_start true .YAML_BLOCK_MAPPING_STYLE,
          plain "module", .sequence_start true .YAML_BLOCK_SEQUENCE_STYLE] ++
         (modulemd_simpleset_get_as_strv set).map plain ++
         [.sequence_end] ++
         (match module.content_licenses with
          | some content =>
            [plain "content", .sequence_start true .YAML_BLOCK_SEQUENCE_STYLE] ++
              (modulemd_simpleset_get_as_strv content).map plain ++ [.sequence_end]
          | none => []) ++
         [.mapping_end])) ∧
    (∀ s : ModulemdSimpleSet,
      ((modulemd_simpleset_get_as_strv s).map plain).length
        = (modulemd_simpleset_get_as_strv s).toFinset.card) := by
  refine ⟨?_, ?_⟩
  · obtain ⟨c1, hr, he, hev⟩ := run_accepting Y hY c (licenses_script module)
      ((licenses_script_missing module).2 (by simp [h]))
    refine ⟨c1, by rw [licenses_runs_script, hr], he, ?_⟩
    rw [hev, licenses_script_events module set h]
    cases module.content_licenses <;> simp [license_block_events, simpleset_events]
  · intro s
    rw [List.length_map, List.toFinset_card_of_nodup]
    exact s.sorted.nodup

/-- Witness of C9: the license block of the complete document with both license sets. -/
theorem license_block_witness :
    ∃ c1, _emit_modulemd_licenses accepting_sink
        { emitter := string_emitter, error := .loc none } module_full = .ok c1 ∧
      c1.emitter.events =
        [plain "license", .mapping_start true .YAML_BLOCK_MAPPING_STYLE,
         plain "module", .sequence_start true .YAML_BLOCK_SEQUENCE_STYLE,
         plain "BSD", plain "MIT", .sequence_end,
         plain "content", .sequence_start true .YAML_BLOCK_SEQUENCE_STYLE,
         plain "GPL", .sequence_end, .mapping_end] := by
  obtain ⟨c1, h, -, hv⟩ := (license_block accepting_sink (fun _ _ => rfl)
    { emitter := string_emitter, error := .loc none } module_full
    (simpleset_of ["MIT", "BSD"]) rfl).1
  exact ⟨c1, h, by rw [hv]; decide⟩

/-- C3. Merge-on-insert: after `_modulemd_dependencies_add_streams` (the body of
`modulemd_dependencies_add_buildrequires` and `modulemd_dependencies_add_requires`) the
module has an entry, also when the stream list is empty, and a stream is in the set
stored for it exactly when it was in the set stored before (the empty set if the module
had no entry) or is among the streams given.  On an empty map, adding `a, b` and then
`b, c` for `foo` leaves `foo` mapped to the set of `a, b, c`. -/
theorem merge_on_insert :
    (∀ (h : Heap) (reqs : Address) (module : String) (streams : List String),
      ∃ set, (_modulemd_dependencies_add_streams h reqs module streams).stored reqs module
          = some set ∧
        ∀ x, x ∈ set ↔
          x ∈ (h.stored reqs module).getD modulemd_simpleset_new ∨ x ∈ streams) ∧
    (heap_with_empty_map.view 0 = [] ∧
      (_modulemd_dependencies_add_streams
        (_modulemd_dependencies_add_streams heap_with_empty_map 0 "foo" ["a", "b"])
        0 "foo" ["b", "c"]).view 0 = [("foo", simpleset_of ["a", "b", "c"])]) := by
  refine ⟨?_, by decide, by decide⟩
  intro h reqs module streams
  exact ⟨_, stored_add_streams h reqs module streams, fun x => mem_foldl_simpleset_add _ _ x⟩

/-- C4. Deep copy independence: `modulemd_dependencies_copy (src, &dest)` with `dest`
unset or a separate existing object, followed by any sequence of
`add_buildrequires`, `add_buildrequires_single`, `set_buildrequires`, `add_requires`,
`add_requires_single` and `set_requires` calls on `src`, leaves the buildrequires map and
the requires map of `dest` (keys and the content of every set) as the copy made them. -/
theorem deep_copy_independence (h : Heap) (src : ModulemdDependencies)
    (dest : Option ModulemdDependencies) (ops : List Mutation)
    (hb : h.allocated src.buildrequires) (hr : h.allocated src.requires)
    (ht : src.buildrequires < h.next ∧ src.requires < h.next)
    (hd : ∀ d, dest = some d → src.separate d) :
    ∃ d, (modulemd_dependencies_copy h (some src) dest).1 = some d ∧
      (apply_mutations (modulemd_dependencies_copy h (some src) dest).2 src ops).view
          d.buildrequires
        = (modulemd_dependencies_copy h (some src) dest).2.view d.buildrequires ∧
      (apply_mutations (modulemd_dependencies_copy h (some src) dest).2 src ops).view
          d.requires
        = (modulemd_dependencies_copy h (some src) dest).2.view d.requires := by
  cases dest with
  | some d => exact ⟨d, rfl, copy_then_mutate h src d (hd d rfl) hb hr ops⟩
  | none =>
    have hsep : src.separate (modulemd_dependencies_new h).1 := by
      simp only [Address] at ht
      refine ⟨?_, ?_, ?_, ?_⟩ <;>
        simp only [modulemd_dependencies_new, Heap.g_hash_table_new_full, Address] <;> omega
    have hn1 : src.buildrequires ≠ h.next := Nat.ne_of_lt ht.1
    have hn2 : src.buildrequires ≠ h.next + 1 := Nat.ne_of_lt (Nat.lt_succ_of_lt ht.1)
    have hn3 : src.requires ≠ h.next := Nat.ne_of_lt ht.2
    have hn4 : src.requires ≠ h.next + 1 := Nat.ne_of_lt (Nat.lt_succ_of_lt ht.2)
    have hb' : (modulemd_dependencies_new h).2.allocated src.buildrequires := by
      intro e he
      have : e ∈ h.table src.buildrequires := by
        simpa [modulemd_dependencies_new, Heap.g_hash_table_new_full, Heap.table,
          Function.update_noteq hn1, Function.update_noteq hn2] using he
      exact lt_trans (hb e this) (by
        simp only [modulemd_dependencies_new, Heap.g_hash_table_new_full, Address]; omega)
    have hr' : (modulemd_dependencies_new h).2.allocated src.requires := by
      intro e he
      have : e ∈ h.table src.requires := by
        simpa [modulemd_dependencies_new, Heap.g_hash_table_new_full, Heap.table,
          Function.update_noteq hn3, Function.update_noteq hn4] using he
      exact lt_trans (hr e this) (by
        simp only [modulemd_dependencies_new, Heap.g_hash_table_new_full, Address]; omega)
    exact ⟨(modulemd_dependencies_new h).1, rfl,
      copy_then_mutate (modulemd_dependencies_new h).2 src (modulemd_dependencies_new h).1
        hsep hb' hr' ops⟩

/-- Witness of C4: the object of `heap_with_source` is copied to an unset destination,
then a stream is added to `foo` in the source and the source map is cleared. -/
theorem deep_copy_independence_witness :
    heap_with_source.allocated 0 ∧ heap_with_source.allocated 1 ∧
    (modulemd_dependencies_copy heap_with_source (some ⟨0, 1⟩) none).2.view 3
      = [("foo", simpleset_of ["a"])] ∧
    ∃ d, (modulemd_dependencies_copy heap_with_source (some ⟨0, 1⟩) none).1 = some d ∧
      (apply_mutations (modulemd_dependencies_copy heap_with_source (some ⟨0, 1⟩) none).2
          ⟨0, 1⟩ [.add_buildrequires "foo" ["b"], .set_buildrequires none]).view
          d.buildrequires
        = (modulemd_dependencies_copy heap_with_source (some ⟨0, 1⟩) none).2.view
          d.buildrequires ∧
      (apply_mutations (modulemd_dependencies_copy heap_with_source (some ⟨0, 1⟩) none).2
          ⟨0, 1⟩ [.add_buildrequires "foo" ["b"], .set_buildrequires none]).view
          d.requires
        = (modulemd_dependencies_copy heap_with_source (some ⟨0, 1⟩) none).2.view
          d.requires :=
  ⟨by decide, by decide, by decide,
    deep_copy_independence heap_with_source ⟨0, 1⟩ none
      [.add_buildrequires "foo" ["b"], .set_buildrequires none]
      (by decide) (by decide) (by decide) (by simp)⟩

set_option maxRecDepth 100000 in
/-- C10, as stated, fails: for the concrete scenario `emit_yaml_string` does not produce
the text of the spec.  The document-start and document-end events are made with
`implicit = 0`, so the text has the marker lines. -/
theorem concrete_scenario_counterexample :
    ¬ ((emit_yaml_string libyaml [scenario_module] none (.loc none)).ret = true ∧
      (emit_yaml_string libyaml [scenario_module] none (.loc none))._yaml.map c_string
        = some scenario_text_of_spec) := by
  decide

set_option maxRecDepth 100000 in
/-- C10, amended: for the concrete scenario `emit_yaml_string` succeeds, hands libyaml an
explicit document-start and an explicit document-end event, and with the libyaml writer
the text is the marker line `---`, the lines of the mapping with the folded description
under `>-` and the license item at the indentation of its key, and the marker line
`...`. -/
theorem concrete_scenario :
    (emit_yaml_string libyaml [scenario_module] none (.loc none)).ret = true ∧
    (emit_yaml_string libyaml [scenario_module] none (.loc none)).error = .loc none ∧
    (emit_yaml_string libyaml [scenario_module] none (.loc none)).emitter.events =
      [.stream_start .YAML_UTF8_ENCODING, .document_start false,
       .mapping_start true .YAML_BLOCK_MAPPING_STYLE,
       plain "document", plain "modulemd", plain "version", plain "2", plain "data",
       .mapping_start true .YAML_BLOCK_MAPPING_STYLE,
       plain "name", plain "testmodule", plain "stream", plain "master",
       plain "summary", plain "Test",
       plain "description", scalar_event "A test module." .YAML_FOLDED_SCALAR_STYLE,
       plain "license", .mapping_start true .YAML_BLOCK_MAPPING_STYLE,
       plain "module", .sequence_start true .YAML_BLOCK_SEQUENCE_STYLE, plain "MIT",
       .sequence_end, .mapping_end, .mapping_end, .mapping_end, .document_end false,
       .stream_end] ∧
    (emit_yaml_string libyaml [scenario_module] none (.loc none))._yaml.map c_string =
      some ("---\ndocument: modulemd\nversion: 2\ndata:\n  name: testmodule\n" ++
        "  stream: master\n  summary: Test\n  description: >-\n    A test module.\n" ++
        "  license:\n    module:\n    - MIT\n...\n") := by
  decide

/-- C11. Bulk replace: for a Dependencies object `d` and a source table `m` that is not
the table of `d` being assigned, after `modulemd_dependencies_set_buildrequires (d, m)` the
buildrequires map of `d` is the map of `m`: the keys of `m`, each with a set of the same
content, in sets allocated by the call, and nothing of what `d` had before; with `m`
absent the map is empty.  The same holds for `modulemd_dependencies_set_requires` and the
requires map. -/
theorem bulk_replace (h : Heap) (d : ModulemdDependencies) (m : Address)
    (hu : h.unique_keys m) (ha : h.allocated m) :
    (m ≠ d.buildrequires →
      (modulemd_dependencies_set_buildrequires h d (some m)).view d.buildrequires
        = h.view m ∧
      ∀ e ∈ (modulemd_dependencies_set_buildrequires h d (some m)).table d.buildrequires,
        h.next ≤ e.2) ∧
    (m ≠ d.requires →
      (modulemd_dependencies_set_requires h d (some m)).view d.requires = h.view m ∧
      ∀ e ∈ (modulemd_dependencies_set_requires h d (some m)).table d.requires,
        h.next ≤ e.2) ∧
    (modulemd_dependencies_set_buildrequires h d none).view d.buildrequires = [] ∧
    (modulemd_dependencies_set_requires h d none).view d.requires = [] := by
  refine ⟨?_, ?_, ?_, ?_⟩
  · intro hne
    obtain ⟨v1, -, v3, -⟩ := set_table_view h _ d.buildrequires m rfl hne hu ha
    exact ⟨v1, fun e he => (v3 e he).1⟩
  · intro hne
    obtain ⟨v1, -, v3, -⟩ := set_table_view h _ d.requires m rfl hne hu ha
    exact ⟨v1, fun e he => (v3 e he).1⟩
  · simp [modulemd_dependencies_set_buildrequires, Heap.g_hash_table_remove_all, Heap.view,
      Heap.table]
  · simp [modulemd_dependencies_set_requires, Heap.g_hash_table_remove_all, Heap.view,
      Heap.table]

/-- Witness of C11: the buildrequires map of the first object of `heap_with_two_objects`,
which has `foo`, is assigned from the buildrequires table of the second object. -/
theorem bulk_replace_witness :
    heap_with_two_objects.unique_keys 3 ∧ heap_with_two_objects.allocated 3 ∧
    heap_with_two_objects.view 0 = [("foo", simpleset_of ["a"])] ∧
    (modulemd_dependencies_set_buildrequires heap_with_two_objects ⟨0, 1⟩ (some 3)).view 0
      = [("bar", simpleset_of ["x", "y"])] :=
  ⟨by decide, by decide, by decide,
    ((bulk_replace heap_with_two_objects ⟨0, 1⟩ 3 (by decide) (by decide)).1
      (by decide)).1.trans (by decide)⟩

/-- C12. Copy-or-create: `modulemd_dependencies_copy (self, &dest)` with `dest` unset
creates a new object, with the two next addresses for its tables, and with `dest` an
existing object with tables of its own it keeps that object.  Afterwards the
buildrequires map of `dest` is the buildrequires map of `self` and the requires map of
`dest` is the requires map of `self`, with nothing of what `dest` had before, and both
maps of `self` are as before. -/
theorem copy_or_create (h : Heap) (self : ModulemdDependencies)
    (dest : Option ModulemdDependencies)
    (hub : h.unique_keys self.buildrequires) (hur : h.unique_keys self.requires)
    (hab : h.allocated self.buildrequires) (har : h.allocated self.requires)
    (ht : self.buildrequires < h.next ∧ self.requires < h.next)
    (hd : ∀ d, dest = some d → self.separate d ∧ d.buildrequires ≠ d.requires) :
    ∃ d, (modulemd_dependencies_copy h (some self) dest).1 = some d ∧
      (dest = none → d = ⟨h.next, h.next + 1⟩) ∧ (∀ d0, dest = some d0 → d = d0) ∧
      (modulemd_dependencies_copy h (some self) dest).2.view d.buildrequires
        = h.view self.buildrequires ∧
      (modulemd_dependencies_copy h (some self) dest).2.view d.requires
        = h.view self.requires ∧
      (modulemd_dependencies_copy h (some self) dest).2.view self.buildrequires
        = h.view self.buildrequires ∧
      (modulemd_dependencies_copy h (some self) dest).2.view self.requires
        = h.view self.requires := by
  cases dest with
  | some d =>
    obtain ⟨hsep, hdd⟩ := hd d rfl
    exact ⟨d, rfl, fun hn => (by cases hn), fun d0 h0 => (Option.some.inj h0),
      copy_views h self d hsep hdd hub hur hab har⟩
  | none =>
    obtain ⟨e1, e2, e3, e4⟩ := new_frame h
    have hlt : h.next < h.next + 1 := Nat.lt_succ_self _
    have hsep : self.separate (modulemd_dependencies_new h).1 := by
      rw [e1]
      exact ⟨Nat.ne_of_lt ht.1, Nat.ne_of_lt (Nat.lt_succ_of_lt ht.1), Nat.ne_of_lt ht.2,
        Nat.ne_of_lt (Nat.lt_succ_of_lt ht.2)⟩
    have hdd : (modulemd_dependencies_new h).1.buildrequires
        ≠ (modulemd_dependencies_new h).1.requires := by
      rw [e1]
      exact Nat.ne_of_lt hlt
    have tb : (modulemd_dependencies_new h).2.table self.buildrequires
        = h.table self.buildrequires := table_eq_of_hashtables _ _ _ (e4 _ ht.1)
    have tr : (modulemd_dependencies_new h).2.table self.requires
        = h.table self.requires := table_eq_of_hashtables _ _ _ (e4 _ ht.2)
    have hle : h.next ≤ (modulemd_dependencies_new h).2.next := by
      rw [e2]
      exact Nat.le_add_right _ _
    have vb : (modulemd_dependencies_new h).2.view self.buildrequires
        = h.view self.buildrequires :=
      view_frame h _ _ (e4 _ ht.1) (fun e _ => by rw [e3])
    have vr : (modulemd_dependencies_new h).2.view self.requires = h.view self.requires :=
      view_frame h _ _ (e4 _ ht.2) (fun e _ => by rw [e3])
    obtain ⟨c1, c2, c3, c4⟩ := copy_views (modulemd_dependencies_new h).2 self
      (modulemd_dependencies_new h).1 hsep hdd
      (by unfold Heap.unique_keys; rw [tb]; exact hub)
      (by unfold Heap.unique_keys; rw [tr]; exact hur)
      (fun e he => lt_of_lt_of_le (hab e (tb ▸ he)) hle)
      (fun e he => lt_of_lt_of_le (har e (tr ▸ he)) hle)
    exact ⟨(modulemd_dependencies_new h).1, rfl, fun _ => e1, fun d0 h0 => (by cases h0),
      c1.trans vb, c2.trans vr, c3.trans vb, c4.trans vr⟩

/-- Witness of C12: the second object of `heap_with_two_objects` is copied over the
first, which had `foo` in its buildrequires map. -/
theorem copy_or_create_witness :
    heap_with_two_objects.view 0 = [("foo", simpleset_of ["a"])] ∧
    (modulemd_dependencies_copy heap_with_two_objects (some ⟨3, 4⟩) (some ⟨0, 1⟩)).2.view 0
      = [("bar", simpleset_of ["x", "y"])] ∧
    (modulemd_dependencies_copy heap_with_two_objects (some ⟨3, 4⟩) (some ⟨0, 1⟩)).2.view 1
      = [("baz", simpleset_of ["z"])] ∧
    ∃ d, (modulemd_dependencies_copy heap_with_two_objects (some ⟨3, 4⟩) (some ⟨0, 1⟩)).1
        = some d ∧
      (modulemd_dependencies_copy heap_with_two_objects (some ⟨3, 4⟩) (some ⟨0, 1⟩)).2.view
          d.buildrequires = heap_with_two_objects.view 3 := by
  obtain ⟨d, h1, -, -, h4, -⟩ := copy_or_create heap_with_two_objects ⟨3, 4⟩ (some ⟨0, 1⟩)
    (by decide) (by decide) (by decide) (by decide) (by decide)
    (fun d hd => by cases hd; decide)
  exact ⟨by decide, by decide, by decide, d, h1, h4⟩

/-- C13. Duplicate: `modulemd_dependencies_dup_buildrequires (d)` returns a new table, at
the next unused address, that holds the keys of the buildrequires map of `d`, each with a
new set of the same content, and leaves both maps of `d` as they were;
`modulemd_dependencies_dup_requires (d)` does the same for the requires map. -/
theorem duplicate (h : Heap) (d : ModulemdDependencies)
    (hub : h.unique_keys d.buildrequires) (hur : h.unique_keys d.requires)
    (hab : h.allocated d.buildrequires) (har : h.allocated d.requires)
    (ht : d.buildrequires < h.next ∧ d.requires < h.next) :
    ((modulemd_dependencies_dup_buildrequires h d).1 = h.next ∧
      (modulemd_dependencies_dup_buildrequires h d).2.view
        (modulemd_dependencies_dup_buildrequires h d).1 = h.view d.buildrequires ∧
      (∀ e ∈ (modulemd_dependencies_dup_buildrequires h d).2.table
        (modulemd_dependencies_dup_buildrequires h d).1, h.next ≤ e.2) ∧
      (modulemd_dependencies_dup_buildrequires h d).2.view d.buildrequires
        = h.view d.buildrequires ∧
      (modulemd_dependencies_dup_buildrequires h d).2.view d.requires
        = h.view d.requires) ∧
    ((modulemd_dependencies_dup_requires h d).1 = h.next ∧
      (modulemd_dependencies_dup_requires h d).2.view
        (modulemd_dependencies_dup_requires h d).1 = h.view d.requires ∧
      (∀ e ∈ (modulemd_dependencies_dup_requires h d).2.table
        (modulemd_dependencies_dup_requires h d).1, h.next ≤ e.2) ∧
      (modulemd_dependencies_dup_requires h d).2.view d.buildrequires
        = h.view d.buildrequires ∧
      (modulemd_dependencies_dup_requires h d).2.view d.requires = h.view d.requires) := by
  obtain ⟨a1, a2, a3, a4, a5⟩ := dup_common_view h d.buildrequires hub hab ht.1
  obtain ⟨b1, b2, b3, b4, b5⟩ := dup_common_view h d.requires hur har ht.2
  exact ⟨⟨a1, a2, a3,
      view_frame h _ _ (a4 _ ht.1) (fun e he => a5 e.2 (hab e he)),
      view_frame h _ _ (a4 _ ht.2) (fun e he => a5 e.2 (har e he))⟩,
    ⟨b1, b2, b3,
      view_frame h _ _ (b4 _ ht.1) (fun e he => b5 e.2 (hab e he)),
      view_frame h _ _ (b4 _ ht.2) (fun e he => b5 e.2 (har e he))⟩⟩

/-- Witness of C13: the duplicate of the buildrequires map of the second object of
`heap_with_two_objects`. -/
theorem duplicate_witness :
    heap_with_two_objects.view 3 = [("bar", simpleset_of ["x", "y"])] ∧
    (modulemd_dependencies_dup_buildrequires heap_with_two_objects ⟨3, 4⟩).1
      = heap_with_two_objects.next ∧
    (modulemd_dependencies_dup_buildrequires heap_with_two_objects ⟨3, 4⟩).2.view
        (modulemd_dependencies_dup_buildrequires heap_with_two_objects ⟨3, 4⟩).1
      = heap_with_two_objects.view 3 :=
  have h := (duplicate heap_with_two_objects ⟨3, 4⟩ (by decide) (by decide) (by decide)
    (by decide) (by decide)).1
  ⟨by decide, h.1, h.2.1⟩

/-- C14. Set uniqueness through insertion: `_modulemd_dependencies_add_streams` applied
twice with the same module and streams leaves the map that one application leaves; the
set stored for the module has no element twice, and its size is the number of distinct
streams among those stored before and those given.  Adding a value to a set twice gives
the set that adding it once gives.  On the empty map the streams `a, a, b` for `foo`
are stored as a set of two elements. -/
theorem set_uniqueness_through_insertion :
    (∀ (h : Heap) (reqs : Address) (module : String) (streams : List String),
      (_modulemd_dependencies_add_streams
          (_modulemd_dependencies_add_streams h reqs module streams) reqs module
          streams).view reqs
        = (_modulemd_dependencies_add_streams h reqs module streams).view reqs ∧
      ∃ set, (_modulemd_dependencies_add_streams h reqs module streams).stored reqs module
          = some set ∧
        (modulemd_simpleset_get_as_strv set).Nodup ∧
        (modulemd_simpleset_get_as_strv set).length
          = (modulemd_simpleset_get_as_strv
              ((h.stored reqs module).getD modulemd_simpleset_new) ++ streams).toFinset.card) ∧
    (∀ (s : ModulemdSimpleSet) (value : String),
      modulemd_simpleset_add (modulemd_simpleset_add s value) value
        = modulemd_simpleset_add s value) ∧
    (_modulemd_dependencies_add_streams heap_with_empty_map 0 "foo" ["a", "a", "b"]).view 0
      = [("foo", simpleset_of ["a", "b"])] := by
  refine ⟨?_, ?_, by decide⟩
  · intro h reqs module streams
    obtain ⟨p, ht, hp⟩ := add_streams_table h reqs module streams
    refine ⟨add_streams_again _ reqs module streams _ p ht ?_, _,
      stored_add_streams h reqs module streams, ?_, ?_⟩
    · intro x hx
      rw [hp, mem_foldl_simpleset_add]
      exact Or.inr hx
    · exact (List.foldl modulemd_simpleset_add _ streams).sorted.nodup
    · unfold modulemd_simpleset_get_as_strv
      rw [← List.toFinset_card_of_nodup
        (List.foldl modulemd_simpleset_add _ streams).sorted.nodup]
      congr 1
      ext x
      simp only [List.mem_toFinset, List.mem_append]
      exact mem_foldl_simpleset_add streams _ x
  · intro s value
    apply simpleset_ext
    intro x
    simp only [mem_simpleset_add]
    tauto

set_option maxRecDepth 100000 in
/-- C15. Text result only on success: for every batch, the content of `*_yaml` after
`emit_yaml_string` is the finished block of `_write_string` when the call returns TRUE and
is the content it had at the call when the call returns FALSE.  With the libyaml writer,
the batch of the scenario document followed by a document without summary returns FALSE:
the block holds the 166 bytes of the first document at that point and `*_yaml` still holds
what the caller had put there. -/
theorem text_result_only_on_success (Y : Libyaml) (modules : List ModulemdModule)
    (_yaml : Option (List Char)) (error : GErrorArg) :
    (emit_yaml_string Y modules _yaml error)._yaml =
      (if (emit_yaml_string Y modules _yaml error).ret = true then
         (match (emit_yaml_string Y modules _yaml error).emitter.output with
          | .string data => data.str
          | _ => none)
       else _yaml) ∧
    (emit_yaml_string libyaml [scenario_module, module_without_summary]
        (some ['o', 'l', 'd', '\x00']) (.loc none)).ret = false ∧
    (emit_yaml_string libyaml [scenario_module, module_without_summary]
        (some ['o', 'l', 'd', '\x00']) (.loc none))._yaml = some ['o', 'l', 'd', '\x00'] ∧
    (match (emit_yaml_string libyaml [scenario_module, module_without_summary]
        (some ['o', 'l', 'd', '\x00']) (.loc none)).emitter.output with
     | .string data => data.len
     | _ => 0) = 166 := by
  refine ⟨?_, by decide, by decide, by decide⟩
  unfold emit_yaml_string
  rcases error with _ | _ | e
  · simp only []
    split <;> simp
  · simp only []
    split <;> simp
  · simp

/-- C16. Open failure: the claim fails in the code.  When `g_fopen` fails,
`emit_yaml_file` sets the error with the code `MODULEMD_YAML_ERROR_OPEN` and the message
`Failed to open file: ` followed by the `g_strerror` text, and the emitter has accepted no
event, as the claim says; but `goto error` then reaches `fclose (yaml_file)` with
`yaml_file == NULL`, and the call does not return FALSE to its caller: it does not return.
Behind a successful `g_fopen`, and behind the check of the error argument, it returns. -/
theorem open_failure (Y : Libyaml) (modules : List ModulemdModule) (path strerror : String) :
    (emit_yaml_file Y (fun _ => .error strerror) modules path (.loc none)).returns = false ∧
    (emit_yaml_file Y (fun _ => .error strerror) modules path (.loc none)).fclose
      = [none] ∧
    (emit_yaml_file Y (fun _ => .error strerror) modules path (.loc none)).error =
      .loc (some { code := .MODULEMD_YAML_ERROR_OPEN,
                   message := "Failed to open file: " ++ strerror }) ∧
    (emit_yaml_file Y (fun _ => .error strerror) modules path (.loc none)).emitter.events
      = [] ∧
    (emit_yaml_file Y (fun _ => .error strerror) modules path .null).returns = false ∧
    (∀ (yaml_file : FILE) (error : GErrorArg),
      (emit_yaml_file Y (fun _ => .ok yaml_file) modules path error).returns = true) ∧
    (∀ e : GError,
      (emit_yaml_file Y (fun _ => .error strerror) modules path (.loc (some e))).returns
        = true) ∧
    (emit_yaml_file accepting_sink (fun _ => .error "No such file or directory")
        [module_full] "/nonexistent/modules.yaml" (.loc none)).returns = false := by
  refine ⟨rfl, rfl, rfl, rfl, rfl, ?_, fun _ => rfl, rfl⟩
  intro yaml_file error
  unfold emit_yaml_file
  rcases error with _ | _ | e
  · simp only []
    split <;> rfl
  · simp only []
    split <;> rfl
  · rfl

/-- C17. File handle closed exactly once: once `g_fopen` has returned a file, every exit
path of `emit_yaml_file` calls `fclose` once, on that file, which holds the buffers of the
accepted events.  On the open-failure path the claim fails in the code: `goto error`
reaches `fclose (yaml_file)` with `yaml_file == NULL`, so the close operation is applied
once to a handle that was not opened. -/
theorem close_exactly_once (Y : Libyaml) (modules : List ModulemdModule) (path : String) :
    (∀ yaml_file : FILE,
      (emit_yaml_file Y (fun _ => .ok yaml_file) modules path (.loc none)).fclose =
        [some { path := yaml_file.path,
                contents := yaml_file.contents ++
                  (delivered Y []
                    (emit_yaml_file Y (fun _ => .ok yaml_file) modules path
                      (.loc none)).emitter.events).flatten }]) ∧
    (∀ strerror : String,
      (emit_yaml_file Y (fun _ => .error strerror) modules path (.loc none)).fclose
        = [none] ∧
      (emit_yaml_file Y (fun _ => .error strerror) modules path .null).fclose = [none]) ∧
    (emit_yaml_file accepting_sink (fun _ => .error "No such file or directory")
        [module_full] "/nonexistent/modules.yaml" (.loc none)).fclose = [none] := by
  refine ⟨?_, ?_, rfl⟩
  · intro yaml_file
    exact emit_yaml_file_fed Y _ modules path (.loc none) (fun e he => by cases he)
      yaml_file rfl
  · intro strerror
    exact ⟨rfl, rfl⟩

set_option maxRecDepth 100000 in
/-- C18. Validation-ordering hazard: for the document with name `foo`, stream `bar` and no
summary, `emit_yaml_string` returns FALSE with the error `Missing required option
data.summary`, and the sink has by then accepted the stream start, the document start, the
root mapping start, the document and version pairs, the `data` key with its mapping start,
and the name and stream pairs.  For the document that lacks only the module license set it
returns FALSE with `Missing required option data.license.module` after the sink has
accepted the events up to the `license` key and the mapping start of the license block. -/
theorem validation_ordering_hazard :
    (emit_yaml_string accepting_sink [module_without_summary] none (.loc none)).ret = false ∧
    (emit_yaml_string accepting_sink [module_without_summary] none (.loc none)).error =
      .loc (some { code := .MODULEMD_YAML_ERROR_EMIT,
                   message := "Missing required option data.summary" }) ∧
    (emit_yaml_string accepting_sink [module_without_summary] none
        (.loc none)).emitter.events =
      [.stream_start .YAML_UTF8_ENCODING, .document_start false,
       .mapping_start true .YAML_BLOCK_MAPPING_STYLE,
       plain "document", plain "modulemd", plain "version", plain "1", plain "data",
       .mapping_start true .YAML_BLOCK_MAPPING_STYLE,
       plain "name", plain "foo", plain "stream", plain "bar"] ∧
    (emit_yaml_string accepting_sink [module_without_licenses] none (.loc none)).ret
      = false ∧
    (emit_yaml_string accepting_sink [module_without_licenses] none (.loc none)).error =
      .loc (some { code := .MODULEMD_YAML_ERROR_EMIT,
                   message := "Missing required option data.license.module" }) ∧
    (emit_yaml_string accepting_sink [module_without_licenses] none
        (.loc none)).emitter.events =
      [.stream_start .YAML_UTF8_ENCODING, .document_start false,
       .mapping_start true .YAML_BLOCK_MAPPING_STYLE,
       plain "document", plain "modulemd", plain "version", plain "2", plain "data",
       .mapping_start true .YAML_BLOCK_MAPPING_STYLE,
       plain "name", plain "testmodule", plain "stream", plain "master",
       plain "summary", plain "Test",
       plain "description", scalar_event "A test module." .YAML_FOLDED_SCALAR_STYLE,
       plain "license", .mapping_start true .YAML_BLOCK_MAPPING_STYLE] := by
  decide

/-- C19. Bulk-set from the own map: the claim fails in the code.  For every Dependencies
object, `modulemd_dependencies_set_buildrequires` called with the table that
`modulemd_dependencies_get_buildrequires` returns leaves the buildrequires map empty,
since `g_hash_table_remove_all` empties that table before the loop reads it; likewise for
requires, and `modulemd_dependencies_copy` of an object onto itself leaves both maps
empty.  The object with `foo` and the stream `a` loses the entry. -/
theorem bulk_set_from_own_map (h : Heap) (d : ModulemdDependencies) :
    (modulemd_dependencies_set_buildrequires h d
        (some (modulemd_dependencies_get_buildrequires d))).view d.buildrequires = [] ∧
    (modulemd_dependencies_set_requires h d
        (some (modulemd_dependencies_get_requires d))).view d.requires = [] ∧
    (modulemd_dependencies_copy h (some d) (some d)).1 = some d ∧
    (modulemd_dependencies_copy h (some d) (some d)).2.view d.buildrequires = [] ∧
    (modulemd_dependencies_copy h (some d) (some d)).2.view d.requires = [] ∧
    heap_with_source.view 0 = [("foo", simpleset_of ["a"])] ∧
    (modulemd_dependencies_set_buildrequires heap_with_source ⟨0, 1⟩
        (some (modulemd_dependencies_get_buildrequires ⟨0, 1⟩))).view 0 = [] := by
  have e1 : ∀ (h : Heap) (t : Address), (h.g_hash_table_remove_all t).table t = [] := by
    intro h t
    simp [Heap.g_hash_table_remove_all, Heap.table]
  have hb : ∀ h : Heap, modulemd_dependencies_set_buildrequires h d
      (some (modulemd_dependencies_get_buildrequires d))
        = h.g_hash_table_remove_all d.buildrequires := by
    intro h
    simp only [modulemd_dependencies_set_buildrequires,
      modulemd_dependencies_get_buildrequires, modulemd_dependencies_peek_buildrequires,
      e1, set_requires_loop]
  have hr : ∀ h : Heap, modulemd_dependencies_set_requires h d
      (some (modulemd_dependencies_get_requires d))
        = h.g_hash_table_remove_all d.requires := by
    intro h
    simp only [modulemd_dependencies_set_requires,
      modulemd_dependencies_get_requires, modulemd_dependencies_peek_requires,
      e1, set_requires_loop]
  have hc : (modulemd_dependencies_copy h (some d) (some d)).2
      = (h.g_hash_table_remove_all d.buildrequires).g_hash_table_remove_all d.requires := by
    have hb' := hb h
    have hr' := hr (h.g_hash_table_remove_all d.buildrequires)
    simp only [modulemd_dependencies_get_buildrequires,
      modulemd_dependencies_peek_buildrequires, modulemd_dependencies_get_requires,
      modulemd_dependencies_peek_requires] at hb' hr'
    simp only [modulemd_dependencies_copy, hb', hr']
  refine ⟨?_, ?_, rfl, ?_, ?_, by decide, by decide⟩
  · rw [hb]; simp [Heap.view, e1]
  · rw [hr]; simp [Heap.view, e1]
  · rw [hc]
    by_cases hq : d.buildrequires = d.requires
    · rw [← hq]; simp [Heap.view, e1]
    · simp [Heap.view, Heap.table, Heap.g_hash_table_remove_all, Function.update, hq]
  · rw [hc]; simp [Heap.view, e1]

/-- C20, as stated, fails at the empty sequence of chunks: the block is then the NULL
pointer of `g_malloc0_n`, so there is no byte at index `len`, NUL or other.  This is the
block `emit_yaml_string` returns for the empty batch, where the libyaml writer has nothing
to flush and never calls `_write_string`: the call returns TRUE with `*_yaml` NULL. -/
theorem buffer_accumulation_counterexample :
    (write_chunks { str := none, len := 0 } []).str = none ∧
    ¬ (((write_chunks { str := none, len := 0 } []).str.getD [])[
        (write_chunks { str := none, len := 0 } []).len]? = some '\x00') ∧
    (emit_yaml_string libyaml [] none (.loc none)).ret = true ∧
    delivered libyaml [] (emit_yaml_string libyaml [] none (.loc none)).emitter.events = [] ∧
    (emit_yaml_string libyaml [] none (.loc none))._yaml = none := by
  decide

set_option maxRecDepth 100000 in
/-- C20, amended: every call of `_write_string` returns 1.  For every non-empty sequence
of chunks passed to it from the empty block, the length of the block is the sum of the
chunk sizes, the block holds the concatenation of the chunks in call order followed by
NUL, and the byte at index `len` is that NUL; for the empty sequence the block is NULL
with length 0.  What `emit_yaml_string` leaves in `*_yaml` when it returns TRUE is the
block made from the buffers libyaml delivered for the accepted events, and the content
`*_yaml` had at the call otherwise.  For the scenario document the block has 166 bytes
of text and NUL at index 166. -/
theorem buffer_accumulation :
    (∀ (data : modulemd_yaml_string) (buffer : List Char) (size : Nat),
      (_write_string data buffer size).1 = 1) ∧
    (∀ (b : List Char) (chunks : List (List Char)),
      (write_chunks { str := none, len := 0 } (b :: chunks)).len
        = ((b :: chunks).map List.length).sum ∧
      (write_chunks { str := none, len := 0 } (b :: chunks)).str
        = some ((b :: chunks).flatten ++ ['\x00']) ∧
      ((b :: chunks).flatten ++ ['\x00'])[
        (write_chunks { str := none, len := 0 } (b :: chunks)).len]? = some '\x00') ∧
    write_chunks { str := none, len := 0 } [] = { str := none, len := 0 } ∧
    (∀ (Y : Libyaml) (modules : List ModulemdModule) (_yaml : Option (List Char))
        (error : GErrorArg),
      (emit_yaml_string Y modules _yaml error)._yaml =
        (if (emit_yaml_string Y modules _yaml error).ret = true then
           (write_chunks { str := none, len := 0 }
             (delivered Y [] (emit_yaml_string Y modules _yaml error).emitter.events)).str
         else _yaml)) ∧
    (emit_yaml_string libyaml [scenario_module] none (.loc none)).ret = true ∧
    (emit_yaml_string libyaml [scenario_module] none (.loc none)).emitter.output =
      .string { str := (emit_yaml_string libyaml [scenario_module] none (.loc none))._yaml,
                len := 166 } ∧
    (((emit_yaml_string libyaml [scenario_module] none (.loc none))._yaml.getD []).take 166
      = (delivered libyaml []
          (emit_yaml_string libyaml [scenario_module] none
            (.loc none)).emitter.events).flatten) ∧
    ((emit_yaml_string libyaml [scenario_module] none (.loc none))._yaml.getD [])[166]?
      = some '\x00' := by
  refine ⟨fun _ _ _ => rfl, ?_, rfl, ?_, by decide, by decide, by decide, by decide⟩
  · intro b chunks
    rw [write_chunks_cons]
    refine ⟨rfl, rfl, ?_⟩
    have hl : ((b :: chunks).map List.length).sum = (b :: chunks).flatten.length := by
      rw [List.length_flatten]
    show ((b :: chunks).flatten ++ ['\x00'])[((b :: chunks).map List.length).sum]?
      = some '\x00'
    rw [hl, List.getElem?_concat_length]
  · intro Y modules _yaml error
    by_cases h : ∀ e, error ≠ .loc (some e)
    · have hf := emit_yaml_string_fed Y modules _yaml error h
      have hs := emit_yaml_string_runs_script Y modules _yaml error h
      cases hr : (stream_script modules).run Y
          { emitter := string_emitter, error := error } with
      | ok c =>
        rw [hr] at hs
        rw [hs] at hf ⊢
        simp only at hf
        simp [hf]
      | error c =>
        rw [hr] at hs
        rw [hs]
        simp
    · have h1 : ∃ e, error = .loc (some e) := by
        by_contra hn
        exact h (fun e he => hn ⟨e, he⟩)
      obtain ⟨e, rfl⟩ := h1
      simp [emit_yaml_string]

/-- C21. Emission succeeds exactly when the batch is valid: with a sink that accepts every
event, and for the file variant a file that opens, `emit_yaml_string` and `emit_yaml_file`
return TRUE if and only if every document of the batch has its summary, its description
and its module license set.  A batch of such documents still succeeds when name, stream,
version and content licenses are taken away from every document. -/
theorem success_iff_valid (Y : Libyaml) (hY : ∀ evs e, Y.accept evs e = true)
    (g_fopen : String → Except String FILE) (modules : List ModulemdModule) (path : String)
    (_yaml : Option (List Char)) (error : GErrorArg) (h : ∀ e, error ≠ .loc (some e))
    (yaml_file : FILE) (ho : g_fopen path = .ok yaml_file) :
    ((emit_yaml_string Y modules _yaml error).ret = true ↔
      ∀ module ∈ modules, module.complete) ∧
    ((emit_yaml_file Y g_fopen modules path error).ret = true ↔
      ∀ module ∈ modules, module.complete) ∧
    ((∀ module ∈ modules, module.complete) →
      (emit_yaml_string Y
        (modules.map (fun module => { module with name := none, stream := none,
                                                  version := 0, content_licenses := none }))
        _yaml error).ret = true ∧
      (emit_yaml_file Y g_fopen
        (modules.map (fun module => { module with name := none, stream := none,
                                                  version := 0, content_licenses := none }))
        path error).ret = true) := by
  have hs : ∀ ms : List ModulemdModule,
      (emit_yaml_string Y ms _yaml error).ret = true ↔ ∀ module ∈ ms, module.complete := by
    intro ms
    rw [(emit_yaml_string_accepting Y hY ms _yaml error h).2.1, decide_eq_true_iff,
      stream_script_missing]
  have hf : ∀ ms : List ModulemdModule,
      (emit_yaml_file Y g_fopen ms path error).ret = true ↔
        ∀ module ∈ ms, module.complete := by
    intro ms
    rw [(emit_yaml_file_accepting Y hY g_fopen ms path error h yaml_file ho).2.1,
      decide_eq_true_iff, stream_script_missing]
  refine ⟨hs modules, hf modules, fun hc => ?_⟩
  have hc' : ∀ module ∈ modules.map (fun module : ModulemdModule =>
      { module with name := none, stream := none, version := 0,
                    content_licenses := none }), module.complete := by
    intro module hm
    obtain ⟨m, hmem, rfl⟩ := List.mem_map.1 hm
    exact hc m hmem
  exact ⟨(hs _).2 hc', (hf _).2 hc'⟩

theorem success_iff_valid_witness :
    ((emit_yaml_string accepting_sink [module_minimal, module_without_summary] none
        (.loc none)).ret = true ↔
      ∀ module ∈ [module_minimal, module_without_summary], module.complete) ∧
    ((emit_yaml_file accepting_sink (fun path => .ok { path := path, contents := [] })
        [module_minimal, module_without_summary] "modules.yaml" (.loc none)).ret = true ↔
      ∀ module ∈ [module_minimal, module_without_summary], module.complete) :=
  have h := success_iff_valid accepting_sink (fun _ _ => rfl)
    (fun path => .ok { path := path, contents := [] })
    [module_minimal, module_without_summary] "modules.yaml" none (.loc none)
    (fun e he => by cases he) { path := "modules.yaml", contents := [] } rfl
  ⟨h.1, h.2.1⟩

/-- C23. Both sinks see the same events: when the file opens and both sinks accept every
event, `emit_yaml_file` and `emit_yaml_string` hand the same event sequence to their
emitter, return the same result and leave the same error, for every batch and every error
argument. -/
theorem both_sinks_same_events (Y1 Y2 : Libyaml) (h1 : ∀ evs e, Y1.accept evs e = true)
    (h2 : ∀ evs e, Y2.accept evs e = true) (g_fopen : String → Except String FILE)
    (modules : List ModulemdModule) (path : String) (_yaml : Option (List Char))
    (error : GErrorArg) (yaml_file : FILE) (ho : g_fopen path = .ok yaml_file) :
    (emit_yaml_file Y1 g_fopen modules path error).emitter.events
      = (emit_yaml_string Y2 modules _yaml error).emitter.events ∧
    (emit_yaml_file Y1 g_fopen modules path error).ret
      = (emit_yaml_string Y2 modules _yaml error).ret ∧
    (emit_yaml_file Y1 g_fopen modules path error).error
      = (emit_yaml_string Y2 modules _yaml error).error := by
  by_cases h : ∀ e, error ≠ .loc (some e)
  · obtain ⟨f1, f2, f3⟩ :=
      emit_yaml_file_accepting Y1 h1 g_fopen modules path error h yaml_file ho
    obtain ⟨s1, s2, s3⟩ := emit_yaml_string_accepting Y2 h2 modules _yaml error h
    exact ⟨f1.trans s1.symm, f2.trans s2.symm, f3.trans s3.symm⟩
  · have he : ∃ e, error = .loc (some e) := by
      by_contra hn
      exact h (fun e he => hn ⟨e, he⟩)
    obtain ⟨e, rfl⟩ := he
    exact ⟨rfl, rfl, rfl⟩

theorem both_sinks_same_events_witness :
    (emit_yaml_file libyaml (fun path => .ok { path := path, contents := [] })
        [module_full, module_without_summary] "modules.yaml" (.loc none)).emitter.events
      = (emit_yaml_string accepting_sink [module_full, module_without_summary] none
          (.loc none)).emitter.events ∧
    (emit_yaml_file libyaml (fun path => .ok { path := path, contents := [] })
        [module_full, module_without_summary] "modules.yaml" (.loc none)).ret
      = (emit_yaml_string accepting_sink [module_full, module_without_summary] none
          (.loc none)).ret :=
  have h := both_sinks_same_events libyaml accepting_sink (fun _ _ => rfl) (fun _ _ => rfl)
    (fun path => .ok { path := path, contents := [] })
    [module_full, module_without_summary] "modules.yaml" none (.loc none)
    { path := "modules.yaml", contents := [] } rfl
  ⟨h.1, h.2.1⟩

/-- C26. Which missing field is reported: on a sink that accepts every event, with an
empty error location, the error `emit_yaml_string` and `emit_yaml_file` leave is the
`Emit` error with the message of the first document in batch order that lacks a mandatory
field, and for that document the message of its first missing field in the order summary,
description, module license set; the call returns FALSE exactly when there is such a
document.  So for a batch whose documents before `module` are complete and where `module`
is not, the message is the one of `module`. -/
theorem which_missing_field_is_reported (Y : Libyaml)
    (hY : ∀ evs e, Y.accept evs e = true) (g_fopen : String → Except String FILE)
    (modules : List ModulemdModule) (path : String) (_yaml : Option (List Char))
    (yaml_file : FILE) (ho : g_fopen path = .ok yaml_file) :
    (emit_yaml_string Y modules _yaml (.loc none)).error =
      (match modules.findSome? first_missing with
       | some msg => .loc (some { code := .MODULEMD_YAML_ERROR_EMIT, message := msg })
       | none => .loc none) ∧
    (emit_yaml_file Y g_fopen modules path (.loc none)).error =
      (match modules.findSome? first_missing with
       | some msg => .loc (some { code := .MODULEMD_YAML_ERROR_EMIT, message := msg })
       | none => .loc none) ∧
    ((emit_yaml_string Y modules _yaml (.loc none)).ret = false ↔
      (modules.findSome? first_missing).isSome = true) ∧
    ((emit_yaml_file Y g_fopen modules path (.loc none)).ret = false ↔
      (modules.findSome? first_missing).isSome = true) ∧
    (∀ (before after : List ModulemdModule) (module : ModulemdModule),
      modules = before ++ module :: after → (∀ m ∈ before, m.complete) →
      ¬ module.complete →
      (first_missing module).isSome = true ∧
      modules.findSome? first_missing = first_missing module) := by
  have hn : ∀ e, GErrorArg.loc none ≠ .loc (some e) := fun e he => by cases he
  obtain ⟨-, s2, s3⟩ := emit_yaml_string_accepting Y hY modules _yaml (.loc none) hn
  obtain ⟨-, f2, f3⟩ :=
    emit_yaml_file_accepting Y hY g_fopen modules path (.loc none) hn yaml_file ho
  rw [stream_script_message] at s2 s3 f2 f3
  refine ⟨?_, ?_, ?_, ?_, ?_⟩
  · rw [s3]
    cases modules.findSome? first_missing <;> rfl
  · rw [f3]
    cases modules.findSome? first_missing <;> rfl
  · rw [s2]
    cases modules.findSome? first_missing <;> simp
  · rw [f2]
    cases modules.findSome? first_missing <;> simp
  · intro before after module hm hb hi
    have h1 : first_missing module ≠ none := fun h => hi ((first_missing_none module).1 h)
    rw [hm, findSome_first_missing before after module hb]
    cases h : first_missing module with
    | none => exact absurd h h1
    | some msg => exact ⟨rfl, rfl⟩

set_option maxRecDepth 100000 in
theorem which_missing_field_is_reported_witness :
    (emit_yaml_string libyaml
        [scenario_module, module_without_summary_and_description, module_without_licenses]
        none (.loc none)).error =
      .loc (some { code := .MODULEMD_YAML_ERROR_EMIT,
                   message := "Missing required option data.summary" }) :=
  (which_missing_field_is_reported libyaml (fun _ _ => rfl)
    (fun path => .ok { path := path, contents := [] })
    [scenario_module, module_without_summary_and_description, module_without_licenses]
    "modules.yaml" none { path := "modules.yaml", contents := [] } rfl).1.trans (by decide)

/-- C24. Insertion touches only its target: for a Dependencies object whose two tables are
two objects that point to allocated sets, no set twice,
`modulemd_dependencies_add_buildrequires` leaves the set of every other module name of
buildrequires as it was and leaves the requires map, keys and sets, as it was;
`modulemd_dependencies_add_requires` does the same with the two maps exchanged.  The
condition on the object holds for a new object and holds again after either call. -/
theorem insertion_touches_only_its_target (h : Heap) (d : ModulemdDependencies)
    (m : String) (s : List String) (hv : d.valid h) :
    (∀ other, other ≠ m →
      (modulemd_dependencies_add_buildrequires h d m s).stored d.buildrequires other
        = h.stored d.buildrequires other) ∧
    (modulemd_dependencies_add_buildrequires h d m s).view d.requires
      = h.view d.requires ∧
    (∀ other, other ≠ m →
      (modulemd_dependencies_add_requires h d m s).stored d.requires other
        = h.stored d.requires other) ∧
    (modulemd_dependencies_add_requires h d m s).view d.buildrequires
      = h.view d.buildrequires ∧
    d.valid (modulemd_dependencies_add_buildrequires h d m s) ∧
    d.valid (modulemd_dependencies_add_requires h d m s) ∧
    (∀ h0 : Heap, (modulemd_dependencies_new h0).1.valid (modulemd_dependencies_new h0).2) := by
  obtain ⟨hne, ha, hb, hn⟩ := hv
  obtain ⟨b1, b2, b3, b4, b5⟩ :=
    add_streams_touches h d.buildrequires d.requires m s hne ha hb hn
  obtain ⟨r1, r2, r3, r4, r5⟩ :=
    add_streams_touches h d.requires d.buildrequires m s (Ne.symm hne) hb ha
      (List.nodup_append_comm.1 hn)
  refine ⟨b1, b2, r1, r2, ⟨hne, b3, b4, b5⟩, ⟨hne, r4, r3, List.nodup_append_comm.1 r5⟩, ?_⟩
  intro h0
  simp [ModulemdDependencies.valid, modulemd_dependencies_new, Heap.g_hash_table_new_full,
    Heap.allocated, Heap.table]

theorem insertion_touches_only_its_target_witness :
    (modulemd_dependencies_add_buildrequires heap_with_two_objects ⟨3, 4⟩ "foo"
        ["a"]).stored 3 "bar" = heap_with_two_objects.stored 3 "bar" ∧
    (modulemd_dependencies_add_buildrequires heap_with_two_objects ⟨3, 4⟩ "foo"
        ["a"]).view 4 = heap_with_two_objects.view 4 :=
  have h := insertion_touches_only_its_target heap_with_two_objects ⟨3, 4⟩ "foo" ["a"]
    (by decide)
  ⟨h.1 "bar" (by decide), h.2.1⟩

/-- C25. Single-stream insertion agrees with list insertion:
`modulemd_dependencies_add_buildrequires_single` with a stream leaves the heap that
`modulemd_dependencies_add_buildrequires` leaves with the list of that one stream, and
`modulemd_dependencies_add_requires_single` the heap of `modulemd_dependencies_add_requires`;
the set stored for the module is then the set stored before, or the empty set, with the
stream added. -/
theorem single_stream_insertion (h : Heap) (d : ModulemdDependencies) (m x : String) :
    modulemd_dependencies_add_buildrequires_single h d m x
      = modulemd_dependencies_add_buildrequires h d m [x] ∧
    modulemd_dependencies_add_requires_single h d m x
      = modulemd_dependencies_add_requires h d m [x] ∧
    (modulemd_dependencies_add_buildrequires_single h d m x).stored d.buildrequires m
      = some (modulemd_simpleset_add
          ((h.stored d.buildrequires m).getD modulemd_simpleset_new) x) ∧
    (modulemd_dependencies_add_requires_single h d m x).stored d.requires m
      = some (modulemd_simpleset_add
          ((h.stored d.requires m).getD modulemd_simpleset_new) x) ∧
    (modulemd_dependencies_add_buildrequires_single heap_with_source ⟨0, 1⟩ "foo" "b").view 0
      = [("foo", simpleset_of ["a", "b"])] ∧
    (modulemd_dependencies_add_buildrequires heap_with_source ⟨0, 1⟩ "foo" ["b"]).view 0
      = [("foo", simpleset_of ["a", "b"])] := by
  refine ⟨rfl, rfl, ?_, ?_, by decide, by decide⟩
  · exact stored_add_streams h d.buildrequires m [x]
  · exact stored_add_streams h d.requires m [x]

set_option maxRecDepth 100000 in
/-- C22. Well-nested output: for every sink, batch and error argument, `emit_yaml_string`
and `emit_yaml_file` either return FALSE or have handed over a balanced event sequence:
stream-start first and stream-end last, every document-start, mapping-start and
sequence-start closed by its end event in nested order, and in every mapping a key scalar
then a value in turn, so that the mapping ends on an even number of child nodes.  The
batch of two complete documents returns TRUE, so its events are balanced; the events left
by a batch that stops on a missing summary are not. -/
theorem well_nested_output (Y : Libyaml) (g_fopen : String → Except String FILE)
    (modules : List ModulemdModule) (path : String) (_yaml : Option (List Char))
    (error : GErrorArg) :
    ((emit_yaml_string Y modules _yaml error).ret = false ∨
      well_nested (emit_yaml_string Y modules _yaml error).emitter.events = true) ∧
    ((emit_yaml_file Y g_fopen modules path error).ret = false ∨
      well_nested (emit_yaml_file Y g_fopen modules path error).emitter.events = true) ∧
    (emit_yaml_string libyaml [module_full, scenario_module] none (.loc none)).ret = true ∧
    well_nested (emit_yaml_string libyaml [module_full, scenario_module] none
      (.loc none)).emitter.events = true ∧
    well_nested (emit_yaml_string libyaml [module_full, module_without_summary] none
      (.loc none)).emitter.events = false ∧
    well_nested [.stream_start .YAML_UTF8_ENCODING, .document_start false,
      .mapping_start true .YAML_BLOCK_MAPPING_STYLE, plain "document", .mapping_end,
      .document_end false, .stream_end] = false ∧
    well_nested [.stream_start .YAML_UTF8_ENCODING, .document_start false,
      .mapping_start true .YAML_BLOCK_MAPPING_STYLE, plain "data",
      .sequence_start true .YAML_BLOCK_SEQUENCE_STYLE, .mapping_end, .sequence_end,
      .document_end false, .stream_end] = false := by
  refine ⟨?_, ?_, by decide, by decide, by decide, by decide, by decide⟩
  · by_cases h : ∀ e, error ≠ .loc (some e)
    · rw [emit_yaml_string_runs_script Y modules _yaml error h]
      cases hr : (stream_script modules).run Y
          { emitter := string_emitter, error := error } with
      | ok c => exact Or.inr (run_well_nested Y modules _ c rfl hr)
      | error c => exact Or.inl rfl
    · have he : ∃ e, error = .loc (some e) := by
        by_contra hn
        exact h (fun e he => hn ⟨e, he⟩)
      obtain ⟨e, rfl⟩ := he
      exact Or.inl rfl
  · by_cases h : ∀ e, error ≠ .loc (some e)
    · cases ho : g_fopen path with
      | error strerror =>
        left
        unfold emit_yaml_file
        rcases error with _ | _ | e
        · simp [ho]
        · simp [ho]
        · rfl
      | ok yaml_file =>
        rw [emit_yaml_file_runs_script Y g_fopen modules path error h yaml_file ho]
        cases hr : (stream_script modules).run Y
            { emitter := file_emitter yaml_file, error := error } with
        | ok c => exact Or.inr (run_well_nested Y modules _ c rfl hr)
        | error c => exact Or.inl rfl
    · have he : ∃ e, error = .loc (some e) := by
        by_contra hn
        exact h (fun e he => hn ⟨e, he⟩)
      obtain ⟨e, rfl⟩ := he
      exact Or.inl rfl

end Modulemd
